import Mathlib

/-!
Verification of detect-atomic-swaps: the elements the disassembler writes
(`02preprocessHTLCs.go`), pre-filter (`03filterHTLCs.go`), classifier
(`04registerTypes.go`), extractor (`05extractHTLCdata.go`) and correlator (`06matchAS.go`)

A shallow embedding of the Go programs and the properties of their
specification.

Conventions of the embedding.

* A Go `string` is a Lean `String`.  The programs obtain every string from
  `json.Unmarshal`, which yields valid UTF-8, so `len(s)` is `String.utf8ByteSize`
  and the byte position of the first ASCII space splits the string at the same
  place as the first space character.
* A Go slice is a `List`; `for i, x := range xs` is a structural recursion
  that carries the index `i`.
* A run that stops early (a runtime panic on an index out of range, or
  `log.Fatal`) is a value of `Fault` in the `Except` monad.
* A byte slice `s[n:]` of a string is the text from byte `n` on.  The records
  are observed through `json.Marshal`, which writes U+FFFD for every byte that
  is not part of a valid encoding, so a slice that cuts a multi-byte character
  starts with one U+FFFD for each byte left over from that character.
* `float64` fields are only ever copied, so a `float64` is its 64-bit pattern.
* `int64` arithmetic wraps modulo `2^64`.
* `time.Parse(layout, s)` followed by `.Unix()` belongs to the Go standard
  library; it is a parameter `parse : String → Option Int` (`none` when the
  parse returns an error).
* `txscript.ParseScript` belongs to the script library.  Of its result the
  programs keep, for every opcode, the name alone or the name, a space and the
  data in hex; only the opcodes listed in `dataPushNames` carry data.
-/

namespace AtomicSwaps

/-! ## Data model -/

/-- Ways in which a run stops without producing its output. -/
inductive Fault where
  /-- Go runtime panic: index out of range. -/
  | indexOutOfRange
  /-- The call `log.Fatal(err)` after a failed `time.Parse`. -/
  | fatalTimestamp
  /-- Go runtime panic: slice bounds out of range. -/
  | sliceOutOfRange
  deriving DecidableEq, Repr

deriving instance DecidableEq for Except

/-- Bit pattern of a Go `float64`; the programs copy such values and never compute with them. -/
abbrev Float64 := Nat

/-- Struct `processedCandidate` (04registerTypes.go, lines 51-59). -/
structure processedCandidate where
  Block : Int
  Timestamp : String
  Transaction : String
  InputTx : String
  InputValue : Float64
  Asm : List String
  Ops : List String
  deriving DecidableEq, Repr

/-- Struct `htlcType` (04registerTypes.go, lines 61-64). -/
structure htlcType where
  Name : String
  Ops : List String
  deriving DecidableEq, Repr

/-- Struct `htlc` (06matchAS.go, lines 20-33). -/
structure htlc where
  Chain : String
  Block : Int
  Timestamp : String
  Transaction : String
  InputTx : String
  InputValue : Float64
  Type_ : String
  Timelock : String
  PubKeys1 : List String
  PubKey2 : String
  Secrets : List String
  SecretHashes : List String
  deriving DecidableEq, Repr

/-- Struct `ProcessingHTLC` (06matchAS.go, lines 35-38). -/
structure ProcessingHTLC where
  ThisHTLC : htlc
  Processed : Bool
  deriving DecidableEq, Repr

/-- Struct `AtomicSwap` (06matchAS.go, lines 40-45). -/
structure AtomicSwap where
  Chain1 : String
  HTLC1 : htlc
  Chain2 : String
  HTLC2 : htlc
  deriving DecidableEq, Repr

/-! ## The classifier: `registerType` (04registerTypes.go, lines 68-149) -/

/-- Go `strings.Contains(op, " ")`. -/
def hasSpace (op : String) : Bool := op.data.contains ' '

/-- Go `op[:strings.Index(op, " ")]`: the text before the first space. -/
def beforeSpace (op : String) : String := String.mk (op.data.takeWhile (fun c => c != ' '))

/-- Go `strings.HasPrefix(op, "OP_1")`. -/
def hasPrefixOP1 (op : String) : Bool := "OP_1".data.isPrefixOf op.data

/-- The test of line 83: `len(op) == 4 || (len(op) == 5 && strings.HasPrefix(op, "OP_1"))`. -/
def isSmallIntPush (op : String) : Bool :=
  op.utf8ByteSize == 4 || (op.utf8ByteSize == 5 && hasPrefixOP1 op)

/-- One iteration of the loop of lines 73-101.  `op` is the loop variable (the
element as it was read), `cur` is the slot `PC.Ops[i]` that the three `if`
statements overwrite in turn; every test reads `op`, never `cur`. -/
def normaliseOp (chain : String) (op : String) : String :=
  let cur := op
  let cur := if hasSpace op then beforeSpace op else cur
  let cur := if isSmallIntPush op then "OP_" else cur
  if chain = "dcr" then
    let cur := if op = "OP_SHA256" then "OP_BLAKE256" else cur
    let cur := if op = "OP_UNKNOWN192" then "OP_SHA256" else cur
    cur
  else cur

/-- The loop of lines 73-101: iteration `i` reads `PC.Ops[i]` and writes only
`PC.Ops[i]`, so the loop rewrites every element on its own. -/
def normalise (chain : String) (ops : List String) : List String :=
  ops.map (normaliseOp chain)

/-- The loop of lines 114-126 over the candidate's (normalised) Ops, entered at
index `i` with the current value of `typeFound`.  `typeOps` is `thisType.Ops`
and `length` is `len(PC.Ops)`. -/
def matchLoop (typeOps : List String) (length : Nat) :
    List String → Nat → Bool → Except Fault Bool
  | [], _, typeFound => .ok typeFound
  | op :: rest, i, _ =>
    let typeFound := false
    match typeOps[i]? with
    | none => .error .indexOutOfRange
    | some t =>
      if op ≠ t then .ok typeFound
      else
        let typeFound := if (i : Int) = (length : Int) - 1 then true else typeFound
        matchLoop typeOps length rest (i + 1) typeFound

/-- The loop of lines 104-132 over the catalog.  The result `true` stands for
the early `return types` of line 130, `false` for leaving the loop at its end. -/
def typesLoop (pcOps : List String) (length : Nat) :
    List htlcType → Bool → Except Fault Bool
  | [], _ => .ok false
  | thisType :: rest, typeFound =>
    if length ≠ thisType.Ops.length then typesLoop pcOps length rest typeFound
    else
      match matchLoop thisType.Ops length pcOps 0 typeFound with
      | .error e => .error e
      | .ok true => .ok true
      | .ok false => typesLoop pcOps length rest false

/-- Function `registerType` (04registerTypes.go, lines 68-149). -/
def registerType (PC : processedCandidate) (types : List htlcType) (chain : String) :
    Except Fault (List htlcType) :=
  let length := PC.Ops.length
  let ops := normalise chain PC.Ops
  match typesLoop ops length types false with
  | .error e => .error e
  | .ok true => .ok types
  | .ok false =>
    let typeCount := types.length
    let typeNumber := typeCount + 1
    let typeName := "Type " ++ toString typeNumber
    .ok (types ++ [{ Name := typeName, Ops := ops }])

/-! ## The correlator: `main` of 06matchAS.go (lines 162-272) -/

/-- The loop of lines 222-229 over `currentHTLC1.ThisHTLC.SecretHashes`, entered
at index `i` with the current value of `matchFound`; `hashes2` is
`currentHTLC2.ThisHTLC.SecretHashes`, read at `hashes2[i]` without a length check. -/
def hashLoop (hashes2 : List String) : List String → Nat → Bool → Except Fault Bool
  | [], _, matchFound => .ok matchFound
  | thisSecretHash :: rest, i, _ =>
    match hashes2[i]? with
    | none => .error .indexOutOfRange
    | some other =>
      if thisSecretHash = other then hashLoop hashes2 rest (i + 1) true
      else .ok false

/-- The secret-hash rule of lines 217-230; the result is `matchFound`. -/
def hashRule (hashes1 hashes2 : List String) : Except Fault Bool :=
  let matchFound := false
  if hashes1.length = 1 ∧ hashes1.length = hashes2.length then
    match hashes1[0]?, hashes2[0]? with
    | some first1, some first2 => .ok (if first1 = first2 then true else matchFound)
    | _, _ => .error .indexOutOfRange
  else hashLoop hashes2 hashes1 0 matchFound

/-- Wrap of an `int64` result to the two-complement range. -/
def wrap64 (z : Int) : Int := (z + 2 ^ 63) % 2 ^ 64 - 2 ^ 63

/-- Line 246: `math.Abs(float64(time1.Unix() - time2.Unix())) < float64(86400)`.
The subtraction is `int64`; the conversion to `float64` is monotone and exact
up to `2^53`, so the comparison with `86400` is the comparison of integers. -/
def withinOneDay (unix1 unix2 : Int) : Bool :=
  decide ((wrap64 (unix1 - unix2)).natAbs < 86400)

/-- Lines 235-248: parse both timestamps (a failure is fatal), then compare. -/
def timeRule (parse : String → Option Int) (timestamp1 timestamp2 : String) :
    Except Fault Bool :=
  match parse timestamp1 with
  | none => .error .fatalTimestamp
  | some time1 =>
    match parse timestamp2 with
    | none => .error .fatalTimestamp
    | some time2 => .ok (withinOneDay time1 time2)

/-- The hash+time rule of lines 217-249 for one comparison; the result is `matchAndTime`. -/
def pairRule (parse : String → Option Int) (h1 h2 : htlc) : Except Fault Bool :=
  match hashRule h1.SecretHashes h2.SecretHashes with
  | .error e => .error e
  | .ok false => .ok false
  | .ok true => timeRule parse h1.Timestamp h2.Timestamp

/-- The loop of lines 210-269 over `pmChain2`.  `currentHTLC1` is the outer loop
variable, a copy of the slice element; line 264 sets its flag.  `currentHTLC2`
is a fresh copy of the slice element in every iteration, so the assignment of
line 265 is lost when the iteration ends. -/
def innerLoop (parse : String → Option Int) (chain1 chain2 : String) :
    List ProcessingHTLC → ProcessingHTLC → List AtomicSwap →
      Except Fault (ProcessingHTLC × List AtomicSwap)
  | [], currentHTLC1, AS => .ok (currentHTLC1, AS)
  | currentHTLC2 :: rest, currentHTLC1, AS =>
    if currentHTLC2.Processed = false then
      match pairRule parse currentHTLC1.ThisHTLC currentHTLC2.ThisHTLC with
      | .error e => .error e
      | .ok true =>
        innerLoop parse chain1 chain2 rest { currentHTLC1 with Processed := true }
          (AS ++ [{ Chain1 := chain1, HTLC1 := currentHTLC1.ThisHTLC,
                    Chain2 := chain2, HTLC2 := currentHTLC2.ThisHTLC }])
      | .ok false => innerLoop parse chain1 chain2 rest currentHTLC1 AS
    else innerLoop parse chain1 chain2 rest currentHTLC1 AS

/-- The loop of lines 206-271 over `pmChain1`; the flag of `currentHTLC1` is
tested once, before the inner loop starts (line 208). -/
def outerLoop (parse : String → Option Int) (chain1 chain2 : String)
    (pmChain2 : List ProcessingHTLC) :
    List ProcessingHTLC → List AtomicSwap → Except Fault (List AtomicSwap)
  | [], AS => .ok AS
  | currentHTLC1 :: rest, AS =>
    if currentHTLC1.Processed = false then
      match innerLoop parse chain1 chain2 pmChain2 currentHTLC1 AS with
      | .error e => .error e
      | .ok (_, AS1) => outerLoop parse chain1 chain2 pmChain2 rest AS1
    else outerLoop parse chain1 chain2 pmChain2 rest AS

/-- Lines 113-160: every loaded record is wrapped with `Processed: false`. -/
def toProcessing (hs : List htlc) : List ProcessingHTLC :=
  hs.map (fun currentHTLC => { ThisHTLC := currentHTLC, Processed := false })

/-- One chain-pair scan on the loaded records: the loops of lines 206-271 for
given `pmChain1`, `pmChain2`, `chain1`, `chain2`, appending to `AS`. -/
def scanPair (parse : String → Option Int) (chain1 chain2 : String)
    (A B : List htlc) (AS : List AtomicSwap) : Except Fault (List AtomicSwap) :=
  outerLoop parse chain1 chain2 (toProcessing B) (toProcessing A) AS

/-- The `switch` of lines 172-203. -/
def chainPair (pmBTC pmLTC pmBCH pmDCR : List ProcessingHTLC) (i : Nat) :
    List ProcessingHTLC × List ProcessingHTLC × String × String :=
  match i with
  | 0 => (pmBTC, pmLTC, "BTC", "LTC")
  | 1 => (pmBTC, pmBCH, "BTC", "BCH")
  | 2 => (pmBTC, pmDCR, "BTC", "DCR")
  | 3 => (pmLTC, pmBCH, "LTC", "BCH")
  | 4 => (pmLTC, pmDCR, "LTC", "DCR")
  | 5 => (pmBCH, pmDCR, "BCH", "DCR")
  | _ => ([], [], "", "")

/-- The loop `for i := 0; i < 6; i++` of lines 165-272, as a recursion over the
values of `i` still to come. -/
def chainLoop (parse : String → Option Int) (pmBTC pmLTC pmBCH pmDCR : List ProcessingHTLC) :
    List Nat → List AtomicSwap → Except Fault (List AtomicSwap)
  | [], AS => .ok AS
  | i :: later, AS =>
    match chainPair pmBTC pmLTC pmBCH pmDCR i with
    | (pmChain1, pmChain2, chain1, chain2) =>
      match outerLoop parse chain1 chain2 pmChain2 pmChain1 AS with
      | .error e => .error e
      | .ok AS1 => chainLoop parse pmBTC pmLTC pmBCH pmDCR later AS1

/-- The correlator, `main` of 06matchAS.go from the four loaded record lists to
the slice `AS` that is written to `AS.json`. -/
def correlate (parse : String → Option Int) (HTLCsBTC HTLCsLTC HTLCsBCH HTLCsDCR : List htlc) :
    Except Fault (List AtomicSwap) :=
  chainLoop parse (toProcessing HTLCsBTC) (toProcessing HTLCsLTC) (toProcessing HTLCsBCH)
    (toProcessing HTLCsDCR) [0, 1, 2, 3, 4, 5] []

/-! ## The extractor: `extractData` (05extractHTLCdata.go, lines 92-490) -/

/-- Struct `filteredHTLCType` (05extractHTLCdata.go, lines 79-88). -/
structure filteredHTLCType where
  Name : String
  Length : Int
  Hash : String
  SecrethashPos : List Int
  LocktimePos : Int
  PublicKeys1Pos : List Int
  PublicKey2Pos : Int
  Ops : List String
  deriving DecidableEq, Repr

/-- The variables `typeFound`, `matchingType` and `matchingTypeNumber` of `extractData`. -/
structure MatchState where
  typeFound : Bool
  matchingType : String
  matchingTypeNumber : Int
  deriving DecidableEq, Repr

/-- Go `xs[i]` for an `int` index: a panic unless `0 <= i < len(xs)`. -/
def goIndex {α : Type} (xs : List α) (i : Int) : Except Fault α :=
  if i < 0 then .error .indexOutOfRange
  else
    match xs[i.toNat]? with
    | some x => .ok x
    | none => .error .indexOutOfRange

/-- One iteration of the loop of lines 99-108: both tests read the loop
variable `op`, the assignments go to the slot `PC.Ops[i]`. -/
def remapOp (op : String) : String :=
  let cur := op
  let cur := if op = "OP_SHA256" then "OP_BLAKE256" else cur
  let cur := if op = "OP_UNKNOWN192" then "OP_SHA256" else cur
  cur

/-- Lines 98-109: for the ledger `dcr` the Ops are rewritten in place. -/
def remapOps (chain : String) (ops : List String) : List String :=
  if chain = "dcr" then ops.map remapOp else ops

/-- Lines 124-135: the rewriting of the local loop variable `op`; the length
test of line 131 reads the variable after line 126 has cut the payload off. -/
def collapseOp (op : String) : String :=
  let op := if hasSpace op then beforeSpace op else op
  let op := if isSmallIntPush op then "OP_" else op
  op

/-- The loop of lines 121-147 over `PC.Ops` for the template `thisType` at
catalog index `i`, entered at index `j`. -/
def extractMatchLoop (thisType : filteredHTLCType) (i : Nat) (length : Nat) :
    List String → Nat → MatchState → Except Fault MatchState
  | [], _, st => .ok st
  | op :: rest, j, st =>
    let op := collapseOp op
    match goIndex thisType.Ops j with
    | .error e => .error e
    | .ok t =>
      if op ≠ t then .ok st
      else
        let st := if (j : Int) = (length : Int) - 1 then
            { typeFound := true, matchingType := thisType.Name, matchingTypeNumber := (i : Int) }
          else st
        extractMatchLoop thisType i length rest (j + 1) st

/-- The loop of lines 113-153 over the catalog, entered at catalog index `i`. -/
def extractTypesLoop (pcOps : List String) (length : Nat) :
    List filteredHTLCType → Nat → MatchState → Except Fault MatchState
  | [], _, st => .ok st
  | thisType :: rest, i, st =>
    if (length : Int) ≠ thisType.Length then extractTypesLoop pcOps length rest (i + 1) st
    else
      match extractMatchLoop thisType i length pcOps 0 st with
      | .error e => .error e
      | .ok st1 =>
        if st1.typeFound then .ok st1
        else extractTypesLoop pcOps length rest (i + 1) st1

/-- Go `thisOp[strings.Index(thisOp, " ") + 1:]` (lines 169-170, 179-180, 185-186,
191-192): the text after the first space; without a space `Index` is `-1` and
the slice starts at byte `0`, which leaves the whole string. -/
def afterSpace (thisOp : String) : String :=
  if hasSpace thisOp then String.mk ((thisOp.data.dropWhile (fun c => c != ' ')).drop 1)
  else thisOp

/-- The characters of a string from byte offset `n` on.  A character that
straddles the offset leaves one U+FFFD for each of its bytes behind the offset. -/
def dropBytes : List Char → Nat → List Char
  | cs, 0 => cs
  | [], _ + 1 => []
  | c :: cs, n + 1 =>
    if c.utf8Size ≤ n + 1 then dropBytes cs (n + 1 - c.utf8Size)
    else List.replicate (c.utf8Size - (n + 1)) (Char.ofNat 0xFFFD) ++ cs

/-- Go `thisOp[3:]` (line 172): a panic when `len(thisOp) < 3`. -/
def sliceFrom3 (thisOp : String) : Except Fault String :=
  if thisOp.utf8ByteSize < 3 then .error .sliceOutOfRange
  else .ok (String.mk (dropBytes thisOp.data 3))

/-- Lines 165-173: the timelock, read at `PC.Ops[thisType.LocktimePos]`. -/
def timelockOf (pcOps : List String) (locktimePos : Int) : Except Fault String :=
  match goIndex pcOps locktimePos with
  | .error e => .error e
  | .ok thisOp =>
    if hasSpace thisOp then .ok (afterSpace thisOp)
    else sliceFrom3 thisOp

/-- Lines 184-186: `PC.Ops[pos]` cut after its first space. -/
def payloadAt (pcOps : List String) (pos : Int) : Except Fault String :=
  match goIndex pcOps pos with
  | .error e => .error e
  | .ok thisOp => .ok (afterSpace thisOp)

/-- The loops of lines 178-182 and 190-194 over a list of positions, appending to `acc`. -/
def payloadLoop (pcOps : List String) : List Int → List String → Except Fault (List String)
  | [], acc => .ok acc
  | pos :: rest, acc =>
    match payloadAt pcOps pos with
    | .error e => .error e
    | .ok payload => payloadLoop pcOps rest (acc ++ [payload])

/-- The branch `if PC.Asm[asmLength - 2] != "0"` append `PC.Asm[asmLength - k]`,
else append `"none"`, which seventeen cases of the switch share (offset `k` is
`3`, for `Type10b` it is `4`). -/
def secretUnlessZero (asm : List String) (k : Int) : Except Fault (List String) :=
  let secrets : List String := []
  let asmLength : Int := asm.length
  match goIndex asm (asmLength - 2) with
  | .error e => .error e
  | .ok selector =>
    if selector ≠ "0" then
      match goIndex asm (asmLength - k) with
      | .error e => .error e
      | .ok token => .ok (secrets ++ [token])
    else .ok (secrets ++ ["none"])

/-- The branch `if PC.Asm[asmLength - 2] == "0"` append `PC.Asm[asmLength - k]`,
else append `"none"` (lines 295-314, 330-356). -/
def secretIfZero (asm : List String) (k : Int) : Except Fault (List String) :=
  let secrets : List String := []
  let asmLength : Int := asm.length
  match goIndex asm (asmLength - 2) with
  | .error e => .error e
  | .ok selector =>
    if selector = "0" then
      match goIndex asm (asmLength - k) with
      | .error e => .error e
      | .ok token => .ok (secrets ++ [token])
    else .ok (secrets ++ ["none"])

/-- The unconditional cases: append `PC.Asm[asmLength - k]` (lines 220, 244, 261, 264, 373). -/
def secretAlways (asm : List String) (k : Int) : Except Fault (List String) :=
  let secrets : List String := []
  let asmLength : Int := asm.length
  match goIndex asm (asmLength - k) with
  | .error e => .error e
  | .ok token => .ok (secrets ++ [token])

/-- The loop `for i := 15; i > 0; i--` of lines 275-277 and 286-288, as a
recursion over the values of `i` still to come, appending `PC.Asm[i]`. -/
def secretsDownLoop (asm : List String) : List Int → List String → Except Fault (List String)
  | [], secrets => .ok secrets
  | i :: later, secrets =>
    match goIndex asm i with
    | .error e => .error e
    | .ok token => secretsDownLoop asm later (secrets ++ [token])

/-- The loop `for i := 15; i > 0; i--` of lines 279-281 and 290-292, appending `"none"`. -/
def noneDownLoop : List Int → List String → List String
  | [], secrets => secrets
  | _ :: later, secrets => noneDownLoop later (secrets ++ ["none"])

/-- The values `15, 14, ..., 1` that `i` takes in `for i := 15; i > 0; i--`. -/
def fifteenDown : List Int := [15, 14, 13, 12, 11, 10, 9, 8, 7, 6, 5, 4, 3, 2, 1]

/-- The cases `Type8a` and `Type8b` (lines 273-293). -/
def secretRange (asm : List String) : Except Fault (List String) :=
  let secrets : List String := []
  let asmLength : Int := asm.length
  match goIndex asm (asmLength - 2) with
  | .error e => .error e
  | .ok selector =>
    if selector ≠ "0" then secretsDownLoop asm fifteenDown secrets
    else .ok (noneDownLoop fifteenDown secrets)

/-- The `switch matchingType` of lines 204-403; no case applies to any other
name and `secrets` stays empty. -/
def secretsSwitch (matchingType : String) (asm : List String) : Except Fault (List String) :=
  match matchingType with
  | "Type1a" => secretUnlessZero asm 3
  | "Type1b" => secretUnlessZero asm 3
  | "Type2" => secretAlways asm 2
  | "Type3a" => secretUnlessZero asm 3
  | "Type3b" => secretUnlessZero asm 3
  | "Type3c" => secretUnlessZero asm 3
  | "Type4" => secretAlways asm 2
  | "Type5a" => secretUnlessZero asm 3
  | "Type5b" => secretUnlessZero asm 3
  | "Type6a" => secretAlways asm 2
  | "Type6b" => secretAlways asm 2
  | "Type7" => secretUnlessZero asm 3
  | "Type8a" => secretRange asm
  | "Type8b" => secretRange asm
  | "Type9a" => secretIfZero asm 3
  | "Type9b" => secretIfZero asm 3
  | "Type10a" => secretIfZero asm 4
  | "Type10b" => secretUnlessZero asm 4
  | "Type11" => secretUnlessZero asm 3
  | "Type12" => secretIfZero asm 5
  | "Type13" => secretUnlessZero asm 3
  | "Type14" => secretIfZero asm 5
  | "Type15" => secretIfZero asm 5
  | "Type16" => secretUnlessZero asm 3
  | "Type17" => secretUnlessZero asm 3
  | "Type18" => secretAlways asm 3
  | "Type19a" => secretUnlessZero asm 3
  | "Type19b" => secretUnlessZero asm 3
  | "Type19c" => secretUnlessZero asm 3
  | "Type20" => secretUnlessZero asm 3
  | _ => .ok []

/-- Lines 161-489 of `extractData`, after a template was found: `pcOps` is
`PC.Ops` as the function holds it, `thisType` is `types[matchingTypeNumber]`. -/
def extractFields (PC : processedCandidate) (pcOps : List String) (chain : String)
    (matchingType : String) (thisType : filteredHTLCType) : Except Fault htlc :=
  match timelockOf pcOps thisType.LocktimePos with
  | .error e => .error e
  | .ok timelock =>
    match payloadLoop pcOps thisType.PublicKeys1Pos [] with
    | .error e => .error e
    | .ok pubKeys1 =>
      match payloadAt pcOps thisType.PublicKey2Pos with
      | .error e => .error e
      | .ok pubKey2 =>
        match payloadLoop pcOps thisType.SecrethashPos [] with
        | .error e => .error e
        | .ok secretHashes =>
          match secretsSwitch matchingType PC.Asm with
          | .error e => .error e
          | .ok secrets =>
            .ok { Chain := chain, Block := PC.Block, Timestamp := PC.Timestamp,
                  Transaction := PC.Transaction, InputTx := PC.InputTx,
                  InputValue := PC.InputValue, Type_ := matchingType, Timelock := timelock,
                  PubKeys1 := pubKeys1, PubKey2 := pubKey2, Secrets := secrets,
                  SecretHashes := secretHashes }

/-- Function `extractData` (05extractHTLCdata.go, lines 92-490).  The inner
result is the pair `(*htlc, error)`: a record, or the error text. -/
def extractData (PC : processedCandidate) (types : List filteredHTLCType) (chain : String) :
    Except Fault (Except String htlc) :=
  let length := PC.Ops.length
  let st0 : MatchState := { typeFound := false, matchingType := "", matchingTypeNumber := -1 }
  let pcOps := remapOps chain PC.Ops
  match extractTypesLoop pcOps length types 0 st0 with
  | .error e => .error e
  | .ok st =>
    if !st.typeFound then .ok (.error "No matching type found!")
    else
      match goIndex types st.matchingTypeNumber with
      | .error e => .error e
      | .ok thisType =>
        match extractFields PC pcOps chain st.matchingType thisType with
        | .error e => .error e
        | .ok newHTLC => .ok (.ok newHTLC)

/-- The comparison of `extractData` against one template (lines 113-153, run on
a catalog that holds `thisType` alone): the value of `typeFound` that line 157
tests, or the fault that stops the comparison. -/
def comparisonSucceeds (chain : String) (PC : processedCandidate)
    (thisType : filteredHTLCType) : Except Fault Bool :=
  let length := PC.Ops.length
  let st0 : MatchState := { typeFound := false, matchingType := "", matchingTypeNumber := -1 }
  let pcOps := remapOps chain PC.Ops
  match extractTypesLoop pcOps length [thisType] 0 st0 with
  | .error e => .error e
  | .ok st => .ok st.typeFound

/-! ## The disassembler's output: `main` of 02preprocessHTLCs.go (lines 103-111) -/

/-- The names of the opcodes that carry data, the only opcodes for which
`len(op.Data) > 0` holds at line 105.  The script library names them
`OP_DATA_1` .. `OP_DATA_75`, `OP_PUSHDATA1`, `OP_PUSHDATA2` and `OP_PUSHDATA4`. -/
def dataPushNames : List String :=
  (List.range 75).map (fun n => "OP_DATA_" ++ toString (n + 1)) ++
    ["OP_PUSHDATA1", "OP_PUSHDATA2", "OP_PUSHDATA4"]

/-- The text `name` is the name of an opcode that carries data. -/
def isDataPushName (name : String) : Prop := name ∈ dataPushNames

instance (name : String) : Decidable (isDataPushName name) := by
  unfold isDataPushName
  infer_instance

/-- Line 106: the element written for an opcode with data,
`op.Opcode.Name + " " + hex.EncodeToString(op.Data)`; `payload` is the hex text. -/
def dataPush (name payload : String) : String := name ++ " " ++ payload

/-- An element as lines 104-110 write it: the bare name of an opcode without
data (line 108), which holds no space, or a data push (line 106). -/
def isDisassembled (op : String) : Prop :=
  hasSpace op = false ∨ ∃ name payload, isDataPushName name ∧ op = dataPush name payload

/-! ## The pre-filter: `main` of 03filterHTLCs.go (lines 77-105) -/

/-- The variables `foundEqual`, `foundIf` and `foundSig` of lines 81-83. -/
structure FilterFlags where
  foundEqual : Bool
  foundIf : Bool
  foundSig : Bool
  deriving DecidableEq, Repr

/-- The loop of lines 85-98 over the Ops of one candidate. -/
def flagsLoop : List String → FilterFlags → FilterFlags
  | [], flags => flags
  | op :: rest, flags =>
    let flags := if op = "OP_EQUAL" ∨ op = "OP_EQUALVERIFY" then
        { flags with foundEqual := true } else flags
    let flags := if op = "OP_IF" then { flags with foundIf := true } else flags
    let flags := if op = "OP_CHECKSIG" ∨ op = "OP_CHECKSIGVERIFY" then
        { flags with foundSig := true } else flags
    flagsLoop rest flags

/-- The loop of lines 77-105 over the loaded candidates, appending to `thisPCs`. -/
def filterLoop : List processedCandidate → List processedCandidate → List processedCandidate
  | [], thisPCs => thisPCs
  | thisHTLC :: rest, thisPCs =>
    let ops := thisHTLC.Ops
    let flags := flagsLoop ops { foundEqual := false, foundIf := false, foundSig := false }
    if flags.foundEqual && flags.foundIf && flags.foundSig then
      filterLoop rest (thisPCs ++ [thisHTLC])
    else filterLoop rest thisPCs

/-- The pre-filter of one ledger: from the loaded candidates to the slice
`thisPCs` that is written to the `filteredHTLCs` file (`thisPCs` starts empty, line 41). -/
def filterHTLCs (thisHTLCs : List processedCandidate) : List processedCandidate :=
  filterLoop thisHTLCs []

/-! ## The classifier run: `main` of 04registerTypes.go (lines 178-218) -/

/-- The loop of lines 213-217 over the candidates of one ledger. -/
def registerLoop (chain : String) :
    List processedCandidate → List htlcType → Except Fault (List htlcType)
  | [], types => .ok types
  | thisPC :: rest, types =>
    match registerType thisPC types chain with
    | .error e => .error e
    | .ok types1 => registerLoop chain rest types1

/-- The loop `for i := 0; i < 4; i++` of lines 178-218 over the four ledgers,
from the catalog read from `types.json` to the catalog written back. -/
def registerAll (pcsBTC pcsLTC pcsBCH pcsDCR : List processedCandidate)
    (types : List htlcType) : Except Fault (List htlcType) :=
  match registerLoop "btc" pcsBTC types with
  | .error e => .error e
  | .ok types1 =>
    match registerLoop "ltc" pcsLTC types1 with
    | .error e => .error e
    | .ok types2 =>
      match registerLoop "bch" pcsBCH types2 with
      | .error e => .error e
      | .ok types3 => registerLoop "dcr" pcsDCR types3

/-! ## Concrete records used in the evaluations -/

/-- Unix seconds of the three timestamps of the specification's end-to-end
example, as `time.Parse` with the layout of line 235 followed by `Unix()`
returns them; any other text stands for a timestamp that fails to parse. -/
def exampleClock : String → Option Int
  | "2020-01-01 00:00:00 +0000 UTC" => some 1577836800
  | "2020-01-01 04:00:00 +0000 UTC" => some 1577851200
  | "2020-01-03 00:00:00 +0000 UTC" => some 1578009600
  | _ => none

/-- A record with the given chain, transaction id, timestamp and secret hashes. -/
def exampleHTLC (chain tx timestamp : String) (hashes : List String) : htlc :=
  { Chain := chain, Block := 1, Timestamp := timestamp, Transaction := tx, InputTx := "in",
    InputValue := 0, Type_ := "Type1a", Timelock := "5", PubKeys1 := [], PubKey2 := "",
    Secrets := ["none"], SecretHashes := hashes }

/-! ## Specification-side definitions -/

/-- What the specification says one chain-pair scan emits when every satisfying
combination is reported: the pairs `(a, b)` for which the hash+time rule holds,
ordered by the position of `a` in `A` and then by the position of `b` in `B`. -/
def scanList (parse : String → Option Int) (chain1 chain2 : String) (A B : List htlc) :
    List AtomicSwap :=
  A.flatMap (fun a =>
    (B.filter (fun b => decide (pairRule parse a b = .ok true))).map
      (fun b => { Chain1 := chain1, HTLC1 := a, Chain2 := chain2, HTLC2 := b }))

/-- No comparison of a record of `A` with a record of `B` stops the run. -/
def NoFault (parse : String → Option Int) (A B : List htlc) : Prop :=
  ∀ a ∈ A, ∀ b ∈ B, ∃ r, pairRule parse a b = .ok r

instance (parse : String → Option Int) (A B : List htlc) : Decidable (NoFault parse A B) := by
  unfold NoFault
  infer_instance

/-- Unix seconds for which the `int64` subtraction of line 246 cannot overflow.
`Unix()` returns an `int64`, and the layout of line 235 has a four-digit year,
so every parsed timestamp lies far inside this range. -/
def unixRange (t : Int) : Prop := -(2 ^ 62) ≤ t ∧ t < 2 ^ 62

instance (t : Int) : Decidable (unixRange t) := by
  unfold unixRange
  infer_instance

/-- The ledgers in the order in which the program loads them. -/
def ledgerName (k : Fin 4) : String :=
  match k with
  | 0 => "BTC"
  | 1 => "LTC"
  | 2 => "BCH"
  | 3 => "DCR"

/-- A run in which ledger `i` holds the single record `a`, ledger `j` the single
record `b`, and the other ledgers hold no record: the list loaded for ledger `k`. -/
def place (i j : Fin 4) (a b : htlc) (k : Fin 4) : List htlc :=
  if k = i then [a] else if k = j then [b] else []

/-- A ledger-A record with the one secret hash `abcd1234`, at midnight. -/
def recA : htlc := exampleHTLC "btc" "txA" "2020-01-01 00:00:00 +0000 UTC" ["abcd1234"]

/-- A second ledger-A record with the same secret hash, four hours later. -/
def recA2 : htlc := exampleHTLC "btc" "txA2" "2020-01-01 04:00:00 +0000 UTC" ["abcd1234"]

/-- A ledger-B record with the same secret hash, four hours after `recA`. -/
def recB : htlc := exampleHTLC "ltc" "txB" "2020-01-01 04:00:00 +0000 UTC" ["abcd1234"]

/-- A second ledger-B record with the same secret hash and time as `recB`. -/
def recB2 : htlc := exampleHTLC "ltc" "txB2" "2020-01-01 04:00:00 +0000 UTC" ["abcd1234"]

/-- A ledger-B record with the same secret hash, two days after `recA`. -/
def recLate : htlc := exampleHTLC "ltc" "txL" "2020-01-03 00:00:00 +0000 UTC" ["abcd1234"]

/-- A record with the one secret hash `aa`. -/
def recShort : htlc := exampleHTLC "btc" "txS" "2020-01-01 00:00:00 +0000 UTC" ["aa"]

/-- A record with the two secret hashes `aa`, `bb`, four hours after `recShort`. -/
def recLong : htlc := exampleHTLC "ltc" "txT" "2020-01-01 04:00:00 +0000 UTC" ["aa", "bb"]

/-- A candidate with the given Ops; the other fields play no part in classification. -/
def exampleCandidate (ops : List String) : processedCandidate :=
  { Block := 1, Timestamp := "2020-01-01 00:00:00 +0000 UTC", Transaction := "tx",
    InputTx := "in", InputValue := 0, Asm := [], Ops := ops }

/-- The payload of an Ops element as the specification words it: the text after the first space. -/
def textAfterFirstSpace (e : String) : String :=
  String.mk ((e.data.dropWhile (fun c => c != ' ')).drop 1)

/-- The candidate's Ops as the extractor normalises them before it compares
them with a template: the ledger remap of lines 98-109, then the rewriting of
lines 124-135 of every element. -/
def extractorSignature (chain : String) (ops : List String) : List String :=
  (remapOps chain ops).map collapseOp

/-- The type names whose secret is revealed when the selector differs from `0`, at offset 3. -/
def unlessZeroNames : List String :=
  ["Type1a", "Type1b", "Type3a", "Type3b", "Type3c", "Type5a", "Type5b", "Type7", "Type11",
   "Type13", "Type16", "Type17", "Type19a", "Type19b", "Type19c", "Type20"]

/-- A small-integer push `OP_1` .. `OP_16`. -/
def isOP1to16 (op : String) : Prop := ∃ n : Nat, 1 ≤ n ∧ n ≤ 16 ∧ op = "OP_" ++ toString n

/-- A template named `name` for scripts of three opcodes: a branch, a data push
of 20 bytes that holds every key and hash, and a small-integer locktime. -/
def exampleTemplate (name : String) : filteredHTLCType :=
  { Name := name, Length := 3, Hash := "", SecrethashPos := [1], LocktimePos := 2,
    PublicKeys1Pos := [1], PublicKey2Pos := 1, Ops := ["OP_IF", "OP_DATA_20", "OP_"] }

/-- A candidate of three opcodes with the given trace. -/
def exampleTraced (asm : List String) : processedCandidate :=
  { Block := 5, Timestamp := "2020-01-01 00:00:00 +0000 UTC", Transaction := "tx",
    InputTx := "in", InputValue := 7, Asm := asm,
    Ops := ["OP_IF", "OP_DATA_20 abcd", "OP_16"] }

/-- The record extracted from `exampleTraced` on ledger `btc` with a template
named `name`, apart from its secrets. -/
def exampleRecord (name : String) (secrets : List String) : htlc :=
  { Chain := "btc", Block := 5, Timestamp := "2020-01-01 00:00:00 +0000 UTC",
    Transaction := "tx", InputTx := "in", InputValue := 7, Type_ := name, Timelock := "16",
    PubKeys1 := ["abcd"], PubKey2 := "abcd", Secrets := secrets, SecretHashes := ["abcd"] }

/-- A trace of eighteen tokens: a signature, fifteen secrets `s1` .. `s15`, the
selector and the script. -/
def longTrace (selector : String) : List String :=
  ["sig", "s1", "s2", "s3", "s4", "s5", "s6", "s7", "s8", "s9", "s10", "s11", "s12", "s13",
   "s14", "s15", selector, "script"]

/-- The template `t` fits the candidate: its declared length is the number of
the candidate's Ops, there is at least one, and its ops list starts with the
candidate's Ops as the extractor normalises them. -/
def fits (chain : String) (PC : processedCandidate) (t : filteredHTLCType) : Prop :=
  (PC.Ops.length : Int) = t.Length ∧ PC.Ops ≠ [] ∧ extractorSignature chain PC.Ops <+: t.Ops

instance (chain : String) (PC : processedCandidate) (t : filteredHTLCType) :
    Decidable (fits chain PC t) := by
  unfold fits
  infer_instance

/-- The text `s` is what the extractor reads at position `pos`: with `e` the
element the function holds there (the loaded element, but for an element
without payload that the `dcr` remap renames), `s` is the text after the first
space of `e` when `e` has one, and all of `e` when it has none. -/
def payloadEntry (chain : String) (PC : processedCandidate) (pos : Int) (s : String) : Prop :=
  ∃ e, 0 ≤ pos ∧ (remapOps chain PC.Ops)[pos.toNat]? = some e ∧
    (hasSpace e = true → PC.Ops[pos.toNat]? = some e ∧ s = textAfterFirstSpace e) ∧
    (hasSpace e = false → s = e)

/-- The candidate is one the specification's pre-filter keeps: its Ops contain
an equality check, a branch and a signature check. -/
def keepsCandidate (c : processedCandidate) : Bool :=
  c.Ops.any (fun op => decide (op = "OP_EQUAL" ∨ op = "OP_EQUALVERIFY")) &&
    c.Ops.any (fun op => decide (op = "OP_IF")) &&
    c.Ops.any (fun op => decide (op = "OP_CHECKSIG" ∨ op = "OP_CHECKSIGVERIFY"))

/-- No two entries of the catalog have equal signatures. -/
def distinctSignatures (types : List htlcType) : Prop :=
  types.Pairwise (fun a b => a.Ops ≠ b.Ops)

instance (types : List htlcType) : Decidable (distinctSignatures types) := by
  unfold distinctSignatures
  infer_instance

/-- The names of the cases of the `switch` of lines 204-403, in the order of the source. -/
def secretRuleNames : List String :=
  ["Type1a", "Type1b", "Type2", "Type3a", "Type3b", "Type3c", "Type4", "Type5a", "Type5b",
   "Type6a", "Type6b", "Type7", "Type8a", "Type8b", "Type9a", "Type9b", "Type10a", "Type10b",
   "Type11", "Type12", "Type13", "Type14", "Type15", "Type16", "Type17", "Type18", "Type19a",
   "Type19b", "Type19c", "Type20"]

/-- Every position is an index into a list of `n` elements. -/
def validPositions (n : Nat) (poss : List Int) : Prop :=
  ∀ pos ∈ poss, 0 ≤ pos ∧ pos < (n : Int)

instance (n : Nat) (poss : List Int) : Decidable (validPositions n poss) := by
  unfold validPositions
  infer_instance

/-- The record `extractData` builds from the template `t`, as a result of the function. -/
def recordFrom (PC : processedCandidate) (chain : String) (t : filteredHTLCType) :
    Except Fault (Except String htlc) :=
  match extractFields PC (remapOps chain PC.Ops) chain t.Name t with
  | .error e => .error e
  | .ok newHTLC => .ok (.ok newHTLC)

/-! ## Lemmas on the correlator loops -/

theorem innerLoop_toProcessing (parse : String → Option Int) (chain1 chain2 : String)
    (B : List htlc) :
    ∀ (cur : ProcessingHTLC) (AS : List AtomicSwap),
      (∀ b ∈ B, ∃ r, pairRule parse cur.ThisHTLC b = .ok r) →
      ∃ flag, innerLoop parse chain1 chain2 (toProcessing B) cur AS =
        .ok ({ ThisHTLC := cur.ThisHTLC, Processed := flag },
          AS ++ (B.filter (fun b => decide (pairRule parse cur.ThisHTLC b = .ok true))).map
            (fun b => { Chain1 := chain1, HTLC1 := cur.ThisHTLC, Chain2 := chain2, HTLC2 := b })) := by
  induction B with
  | nil =>
    intro cur AS _
    exact ⟨cur.Processed, by simp [toProcessing, innerLoop]⟩
  | cons b rest ih =>
    intro cur AS h
    obtain ⟨r, hr⟩ := h b (List.mem_cons_self _ _)
    have hrest : ∀ b1 ∈ rest, ∃ r, pairRule parse cur.ThisHTLC b1 = .ok r :=
      fun b1 hb1 => h b1 (List.mem_cons_of_mem _ hb1)
    cases r with
    | true =>
      obtain ⟨flag, hflag⟩ := ih { cur with Processed := true }
        (AS ++ [{ Chain1 := chain1, HTLC1 := cur.ThisHTLC, Chain2 := chain2, HTLC2 := b }]) hrest
      refine ⟨flag, ?_⟩
      simp only [toProcessing, List.map_cons] at hflag ⊢
      simp only [innerLoop, hr, if_true]
      rw [hflag]
      simp [List.filter_cons, hr]
    | false =>
      obtain ⟨flag, hflag⟩ := ih cur AS hrest
      refine ⟨flag, ?_⟩
      simp only [toProcessing, List.map_cons] at hflag ⊢
      simp only [innerLoop, hr, if_true]
      rw [hflag]
      simp [List.filter_cons, hr]

theorem outerLoop_toProcessing (parse : String → Option Int) (chain1 chain2 : String)
    (B : List htlc) :
    ∀ (A : List htlc) (AS : List AtomicSwap), NoFault parse A B →
      outerLoop parse chain1 chain2 (toProcessing B) (toProcessing A) AS =
        .ok (AS ++ scanList parse chain1 chain2 A B) := by
  intro A
  induction A with
  | nil => intro AS _; simp [toProcessing, outerLoop, scanList]
  | cons a rest ih =>
    intro AS h
    obtain ⟨flag, hflag⟩ := innerLoop_toProcessing parse chain1 chain2 B
      { ThisHTLC := a, Processed := false } AS (fun b hb => h a (List.mem_cons_self _ _) b hb)
    have hrest : NoFault parse rest B := fun a1 ha1 => h a1 (List.mem_cons_of_mem _ ha1)
    have := ih (AS ++ (B.filter (fun b => decide (pairRule parse a b = .ok true))).map
            (fun b => { Chain1 := chain1, HTLC1 := a, Chain2 := chain2, HTLC2 := b })) hrest
    simp only [toProcessing, List.map_cons] at this hflag ⊢
    simp only [outerLoop, if_true, hflag]
    rw [this]
    simp [scanList, List.flatMap_cons]

theorem scanPair_eq (parse : String → Option Int) (chain1 chain2 : String)
    (A B : List htlc) (AS : List AtomicSwap) (h : NoFault parse A B) :
    scanPair parse chain1 chain2 A B AS = .ok (AS ++ scanList parse chain1 chain2 A B) :=
  outerLoop_toProcessing parse chain1 chain2 B A AS h

theorem correlate_eq (parse : String → Option Int) (btc ltc bch dcr : List htlc)
    (h1 : NoFault parse btc ltc) (h2 : NoFault parse btc bch) (h3 : NoFault parse btc dcr)
    (h4 : NoFault parse ltc bch) (h5 : NoFault parse ltc dcr) (h6 : NoFault parse bch dcr) :
    correlate parse btc ltc bch dcr =
      .ok (scanList parse "BTC" "LTC" btc ltc ++ scanList parse "BTC" "BCH" btc bch ++
        scanList parse "BTC" "DCR" btc dcr ++ scanList parse "LTC" "BCH" ltc bch ++
        scanList parse "LTC" "DCR" ltc dcr ++ scanList parse "BCH" "DCR" bch dcr) := by
  simp only [correlate, chainLoop, chainPair,
    outerLoop_toProcessing parse _ _ _ _ _ h1, outerLoop_toProcessing parse _ _ _ _ _ h2,
    outerLoop_toProcessing parse _ _ _ _ _ h3, outerLoop_toProcessing parse _ _ _ _ _ h4,
    outerLoop_toProcessing parse _ _ _ _ _ h5, outerLoop_toProcessing parse _ _ _ _ _ h6]
  simp

/-! ## Lemmas on the secret-hash rule -/

theorem drop_cons_of_length {α : Type} (l : List α) (i n : Nat)
    (h : (l.drop i).length = n + 1) :
    ∃ y, l[i]? = some y ∧ l.drop i = y :: l.drop (i + 1) ∧ (l.drop (i + 1)).length = n := by
  have hi : i < l.length := by
    rw [List.length_drop] at h
    omega
  refine ⟨l[i], List.getElem?_eq_getElem hi, List.drop_eq_getElem_cons hi, ?_⟩
  rw [List.length_drop] at h ⊢
  omega

theorem hashLoop_sameLength (hashes2 : List String) :
    ∀ (suffix : List String) (i : Nat) (matchFound : Bool),
      (hashes2.drop i).length = suffix.length →
      hashLoop hashes2 suffix i matchFound =
        .ok (if suffix = [] then matchFound else decide (suffix = hashes2.drop i)) := by
  intro suffix
  induction suffix with
  | nil => intro i matchFound _; simp [hashLoop]
  | cons x rest ih =>
    intro i matchFound hlen
    obtain ⟨y, hy, hdrop, hlen1⟩ := drop_cons_of_length hashes2 i rest.length (by simpa using hlen)
    simp only [hashLoop, hy]
    by_cases hxy : x = y
    · subst hxy
      rw [if_pos rfl, ih (i + 1) true hlen1, hdrop]
      by_cases hrest : rest = []
      · subst hrest
        have : List.drop (i + 1) hashes2 = [] := List.length_eq_zero.mp (by simpa using hlen1)
        simp [this]
      · simp [hrest]
    · rw [if_neg hxy, hdrop]
      simp [hxy]

theorem hashRule_sameLength (hashes1 hashes2 : List String)
    (hlen : hashes1.length = hashes2.length) (hne : hashes1 ≠ []) :
    hashRule hashes1 hashes2 = .ok (decide (hashes1 = hashes2)) := by
  unfold hashRule
  by_cases h1 : hashes1.length = 1
  · obtain ⟨x, rfl⟩ := List.length_eq_one.mp h1
    obtain ⟨y, rfl⟩ := List.length_eq_one.mp (hlen ▸ h1 : hashes2.length = 1)
    by_cases hxy : x = y <;> simp [hxy]
  · have hcond : ¬ (hashes1.length = 1 ∧ hashes1.length = hashes2.length) := fun h => h1 h.1
    simp only [hcond, if_false]
    rw [hashLoop_sameLength hashes2 hashes1 0 false (by simpa using hlen.symm)]
    simp [hne]

/-! ## Lemmas on the time rule -/

theorem wrap64_of_range (z : Int) (hlo : -(2 ^ 63) ≤ z) (hhi : z < 2 ^ 63) : wrap64 z = z := by
  unfold wrap64
  rw [Int.emod_eq_of_lt (by omega) (by omega)]
  omega

theorem withinOneDay_eq (t1 t2 : Int) (h1 : unixRange t1) (h2 : unixRange t2) :
    withinOneDay t1 t2 = decide (|t1 - t2| < 86400) := by
  unfold unixRange at h1 h2
  unfold withinOneDay
  rw [wrap64_of_range (t1 - t2) (by omega) (by omega)]
  have key : (t1 - t2).natAbs < 86400 ↔ |t1 - t2| < 86400 := by
    rw [Int.abs_eq_natAbs]
    omega
  exact decide_eq_decide.mpr key

theorem pairRule_of_hash (parse : String → Option Int) (a b : htlc) (t1 t2 : Int)
    (hhash : hashRule a.SecretHashes b.SecretHashes = .ok true)
    (hp1 : parse a.Timestamp = some t1) (hp2 : parse b.Timestamp = some t2)
    (hr1 : unixRange t1) (hr2 : unixRange t2) :
    pairRule parse a b = .ok (decide (|t1 - t2| < 86400)) := by
  simp only [pairRule, hhash, timeRule, hp1, hp2, withinOneDay_eq t1 t2 hr1 hr2]

theorem withinOneDay_comm (t1 t2 : Int) : withinOneDay t1 t2 = withinOneDay t2 t1 := by
  unfold withinOneDay wrap64
  apply decide_eq_decide.mpr
  omega

/-- On secret-hash lists of the same length the hash+time rule is symmetric. -/
theorem pairRule_symm_sameLength (parse : String → Option Int) (a b : htlc)
    (hlen : a.SecretHashes.length = b.SecretHashes.length)
    (h : pairRule parse a b = .ok true) : pairRule parse b a = .ok true := by
  by_cases hne : a.SecretHashes = []
  · have : hashRule a.SecretHashes b.SecretHashes = .ok false := by
      rw [hne]; simp [hashRule, hashLoop]
    simp [pairRule, this] at h
  · have hne2 : b.SecretHashes ≠ [] := by
      intro hb; rw [hb] at hlen; exact hne (List.length_eq_zero.mp hlen)
    have hab := hashRule_sameLength _ _ hlen hne
    have hba := hashRule_sameLength _ _ hlen.symm hne2
    by_cases heq : a.SecretHashes = b.SecretHashes
    · have hab1 : hashRule a.SecretHashes b.SecretHashes = .ok true := by
        rw [hab]; simp [heq]
      have hba1 : hashRule b.SecretHashes a.SecretHashes = .ok true := by
        rw [hba]; simp [heq]
      simp only [pairRule, hab1, hba1, timeRule] at h ⊢
      cases h1 : parse a.Timestamp with
      | none => simp [h1] at h
      | some t1 =>
        cases h2 : parse b.Timestamp with
        | none => simp [h1, h2] at h
        | some t2 =>
          simp only [h1, h2] at h ⊢
          rw [withinOneDay_comm t2 t1]
          exact h
    · simp [pairRule, hab, heq] at h

/-! ## Claims on the correlator -/

/-- C1 (defect in the code): a record is consumed more than once within one
chain-pair scan.  With one ledger-A record and two ledger-B records that all
satisfy the hash+time rule the scan emits two swaps holding the same ledger-A
record, the second one with a ledger-B record that is not the first satisfying
one; with two ledger-A records and one ledger-B record it emits two swaps
holding the same ledger-B record. -/
theorem C1_record_consumed_twice :
    scanPair exampleClock "BTC" "LTC" [recA] [recB, recB2] [] =
        .ok [{ Chain1 := "BTC", HTLC1 := recA, Chain2 := "LTC", HTLC2 := recB },
             { Chain1 := "BTC", HTLC1 := recA, Chain2 := "LTC", HTLC2 := recB2 }] ∧
      scanPair exampleClock "BTC" "LTC" [recA, recA2] [recB] [] =
        .ok [{ Chain1 := "BTC", HTLC1 := recA, Chain2 := "LTC", HTLC2 := recB },
             { Chain1 := "BTC", HTLC1 := recA2, Chain2 := "LTC", HTLC2 := recB }] := by
  decide

/-- C2 (defect in the code): the hash+time rule is not symmetric.  The record
with the hashes `aa` matches the record with the hashes `aa`, `bb`, but the
comparison in the other direction reads past the end of the shorter list and
stops the run instead of reporting a match. -/
theorem C2_rule_not_symmetric :
    pairRule exampleClock recShort recLong = .ok true ∧
      pairRule exampleClock recLong recShort = .error .indexOutOfRange := by
  decide

/-- C3 (defect in the code): secret-hash lists of different lengths.  A list
that is a proper prefix of the other one is reported as a match and a swap is
emitted; in the other direction the comparison reads out of range and fails. -/
theorem C3_length_mismatch :
    hashRule ["aa"] ["aa", "bb"] = .ok true ∧
      scanPair exampleClock "BTC" "LTC" [recShort] [recLong] [] =
        .ok [{ Chain1 := "BTC", HTLC1 := recShort, Chain2 := "LTC", HTLC2 := recLong }] ∧
      hashRule ["aa", "bb"] ["aa"] = .error .indexOutOfRange := by
  decide

/-- C4 as stated fails: two empty secret-hash lists have the same length and are
equal position by position, yet the rule reports no match. -/
theorem C4_counterexample_empty :
    ¬ ∀ h1 h2 : List String, h1.length = h2.length →
        (hashRule h1 h2 = .ok true ↔ ∀ i, i < h1.length → h1[i]? = h2[i]?) := by
  intro h
  have h0 := (h [] [] rfl).mpr (by simp)
  exact absurd h0 (by decide)

/-- C4 (amended): for two secret-hash lists of the same length the secret-hash
rule returns a verdict.  When the length is not zero the verdict is a match
exactly when the lists agree at every position (for length one: when the
single values are equal); when the lists are empty the verdict is no match:
`hashRule [] [] = .ok false`. -/
theorem C4_hash_rule_same_length (h1 h2 : List String)
    (hlen : h1.length = h2.length) :
    (∃ r, hashRule h1 h2 = .ok r ∧
        (r = true ↔ h1 ≠ [] ∧ ∀ i, i < h1.length → h1[i]? = h2[i]?)) ∧
      (h1 ≠ [] → ∃ r, hashRule h1 h2 = .ok r ∧
        (r = true ↔ ∀ i, i < h1.length → h1[i]? = h2[i]?)) ∧
      (h1 = [] → hashRule h1 h2 = .ok false) ∧
      hashRule ([] : List String) [] = .ok false := by
  have hpos : (∀ i, i < h1.length → h1[i]? = h2[i]?) ↔ h1 = h2 := by
    constructor
    · intro h
      apply List.ext_getElem?
      intro i
      by_cases hi : i < h1.length
      · exact h i hi
      · rw [List.getElem?_eq_none (by omega), List.getElem?_eq_none (by omega)]
    · intro h i _
      rw [h]
  have hempty : h1 = [] → hashRule h1 h2 = .ok false := by
    intro h
    subst h
    have h2nil : h2 = [] := List.length_eq_zero.mp (by simpa using hlen.symm)
    subst h2nil
    decide
  have hfull : h1 ≠ [] → ∃ r, hashRule h1 h2 = .ok r ∧
      (r = true ↔ ∀ i, i < h1.length → h1[i]? = h2[i]?) := by
    intro hne
    refine ⟨decide (h1 = h2), hashRule_sameLength h1 h2 hlen hne, ?_⟩
    rw [decide_eq_true_iff, hpos]
  refine ⟨?_, hfull, hempty, by decide⟩
  by_cases hne : h1 = []
  · refine ⟨false, hempty hne, ?_⟩
    simp [hne]
  · obtain ⟨r, hr, hiff⟩ := hfull hne
    refine ⟨r, hr, ?_⟩
    rw [hiff]
    exact ⟨fun h => ⟨hne, h⟩, fun h => h.2⟩

theorem C4_hash_rule_same_length_witness :
    (["aa", "bb"] : List String).length = (["aa", "bb"] : List String).length ∧
      ((∃ r, hashRule ["aa", "bb"] ["aa", "bb"] = .ok r ∧
          (r = true ↔ (["aa", "bb"] : List String) ≠ [] ∧
            ∀ i, i < (["aa", "bb"] : List String).length →
              (["aa", "bb"] : List String)[i]? = (["aa", "bb"] : List String)[i]?)) ∧
        ((["aa", "bb"] : List String) ≠ [] → ∃ r, hashRule ["aa", "bb"] ["aa", "bb"] = .ok r ∧
          (r = true ↔ ∀ i, i < (["aa", "bb"] : List String).length →
            (["aa", "bb"] : List String)[i]? = (["aa", "bb"] : List String)[i]?)) ∧
        ((["aa", "bb"] : List String) = [] → hashRule ["aa", "bb"] ["aa", "bb"] = .ok false) ∧
        hashRule ([] : List String) [] = .ok false) :=
  ⟨rfl, C4_hash_rule_same_length ["aa", "bb"] ["aa", "bb"] rfl⟩

/-- C5: for two records whose secret hashes match and whose timestamps parse to
the Unix seconds `t1` and `t2`, the hash+time rule reports a match, and a scan
of the two records emits their swap, if and only if `|t1 - t2| < 86400`; a
difference of exactly 86400 seconds is rejected and one of 86399 seconds is
accepted, whichever record is the earlier one. -/
theorem C5_time_proximity (parse : String → Option Int) (chain1 chain2 : String)
    (a b : htlc) (t1 t2 : Int)
    (hhash : hashRule a.SecretHashes b.SecretHashes = .ok true)
    (hp1 : parse a.Timestamp = some t1) (hp2 : parse b.Timestamp = some t2)
    (hr1 : unixRange t1) (hr2 : unixRange t2) :
    (pairRule parse a b = .ok true ↔ |t1 - t2| < 86400) ∧
      (pairRule parse a b = .ok false ↔ ¬ |t1 - t2| < 86400) ∧
      scanPair parse chain1 chain2 [a] [b] [] =
        .ok (if |t1 - t2| < 86400 then
          [{ Chain1 := chain1, HTLC1 := a, Chain2 := chain2, HTLC2 := b }] else []) ∧
      ((t1 - t2 = 86400 ∨ t2 - t1 = 86400) → pairRule parse a b = .ok false) ∧
      ((t1 - t2 = 86399 ∨ t2 - t1 = 86399) → pairRule parse a b = .ok true) := by
  have hpair := pairRule_of_hash parse a b t1 t2 hhash hp1 hp2 hr1 hr2
  have hscan : scanPair parse chain1 chain2 [a] [b] [] =
      .ok (if |t1 - t2| < 86400 then
        [{ Chain1 := chain1, HTLC1 := a, Chain2 := chain2, HTLC2 := b }] else []) := by
    by_cases hlt : |t1 - t2| < 86400 <;>
      simp [scanPair, toProcessing, outerLoop, innerLoop, hpair, hlt]
  refine ⟨?_, ?_, hscan, ?_, ?_⟩
  · rw [hpair]; simp
  · rw [hpair]; simp
  · intro h
    rw [hpair]
    have : ¬ |t1 - t2| < 86400 := by
      rcases h with h | h
      · rw [h]; decide
      · rw [abs_sub_comm, h]; decide
    simp [this]
  · intro h
    rw [hpair]
    have : |t1 - t2| < 86400 := by
      rcases h with h | h
      · rw [h]; decide
      · rw [abs_sub_comm, h]; decide
    simp [this]

theorem C5_time_proximity_witness :
    hashRule recA.SecretHashes recB.SecretHashes = .ok true ∧
      exampleClock recA.Timestamp = some 1577836800 ∧
      exampleClock recB.Timestamp = some 1577851200 ∧
      unixRange 1577836800 ∧ unixRange 1577851200 ∧
      ((pairRule exampleClock recA recB = .ok true ↔ |(1577836800 : Int) - 1577851200| < 86400) ∧
        (pairRule exampleClock recA recB = .ok false ↔
          ¬ |(1577836800 : Int) - 1577851200| < 86400) ∧
        scanPair exampleClock "BTC" "LTC" [recA] [recB] [] =
          .ok (if |(1577836800 : Int) - 1577851200| < 86400 then
            [{ Chain1 := "BTC", HTLC1 := recA, Chain2 := "LTC", HTLC2 := recB }] else []) ∧
        (((1577836800 : Int) - 1577851200 = 86400 ∨ (1577851200 : Int) - 1577836800 = 86400) →
          pairRule exampleClock recA recB = .ok false) ∧
        (((1577836800 : Int) - 1577851200 = 86399 ∨ (1577851200 : Int) - 1577836800 = 86399) →
          pairRule exampleClock recA recB = .ok true)) :=
  ⟨by decide, by decide, by decide, by decide, by decide,
    C5_time_proximity exampleClock "BTC" "LTC" recA recB 1577836800 1577851200
      (by decide) (by decide) (by decide) (by decide) (by decide)⟩

/-- C6: when exactly two ledgers `i` and `j` hold one record each and the other
ledgers hold none, both records carrying the same single secret hash and
timestamps that parse to `t1` and `t2`, the correlator returns exactly the one
swap of the two records if `|t1 - t2| < 86400` and no swap otherwise. -/
theorem C6_end_to_end (parse : String → Option Int) (a b : htlc) (hash : String)
    (t1 t2 : Int) (i j : Fin 4) (hij : i < j)
    (ha : a.SecretHashes = [hash]) (hb : b.SecretHashes = [hash])
    (hp1 : parse a.Timestamp = some t1) (hp2 : parse b.Timestamp = some t2)
    (hr1 : unixRange t1) (hr2 : unixRange t2) :
    correlate parse (place i j a b 0) (place i j a b 1) (place i j a b 2) (place i j a b 3) =
      .ok (if |t1 - t2| < 86400 then
        [{ Chain1 := ledgerName i, HTLC1 := a, Chain2 := ledgerName j, HTLC2 := b }]
      else []) := by
  have hhash : hashRule a.SecretHashes b.SecretHashes = .ok true := by
    rw [ha, hb]; simp [hashRule]
  have hpair := pairRule_of_hash parse a b t1 t2 hhash hp1 hp2 hr1 hr2
  by_cases hlt : |t1 - t2| < 86400 <;> fin_cases i <;> fin_cases j <;>
    first
    | exact absurd hij (by decide)
    | simp [correlate, chainLoop, chainPair, place, toProcessing, outerLoop, innerLoop,
        hpair, hlt, ledgerName]

theorem C6_end_to_end_witness :
    (0 : Fin 4) < 1 ∧ recA.SecretHashes = ["abcd1234"] ∧ recB.SecretHashes = ["abcd1234"] ∧
      recLate.SecretHashes = ["abcd1234"] ∧
      exampleClock recA.Timestamp = some 1577836800 ∧
      exampleClock recB.Timestamp = some 1577851200 ∧
      exampleClock recLate.Timestamp = some 1578009600 ∧
      correlate exampleClock (place 0 1 recA recB 0) (place 0 1 recA recB 1)
          (place 0 1 recA recB 2) (place 0 1 recA recB 3) =
        .ok (if |(1577836800 : Int) - 1577851200| < 86400 then
          [{ Chain1 := ledgerName 0, HTLC1 := recA, Chain2 := ledgerName 1, HTLC2 := recB }]
        else []) ∧
      correlate exampleClock (place 0 1 recA recLate 0) (place 0 1 recA recLate 1)
          (place 0 1 recA recLate 2) (place 0 1 recA recLate 3) =
        .ok (if |(1577836800 : Int) - 1578009600| < 86400 then
          [{ Chain1 := ledgerName 0, HTLC1 := recA, Chain2 := ledgerName 1, HTLC2 := recLate }]
        else []) :=
  ⟨by decide, rfl, rfl, rfl, by decide, by decide, by decide,
    C6_end_to_end exampleClock recA recB "abcd1234" 1577836800 1577851200 0 1
      (by decide) rfl rfl (by decide) (by decide) (by decide) (by decide),
    C6_end_to_end exampleClock recA recLate "abcd1234" 1577836800 1578009600 0 1
      (by decide) rfl rfl (by decide) (by decide) (by decide) (by decide)⟩

/-- C7: when no comparison stops the run, the list the correlator returns is the
concatenation of the six chain-pair scans in the order BTC-LTC, BTC-BCH,
BTC-DCR, LTC-BCH, LTC-DCR, BCH-DCR, each scan listing its pairs by the position
of the ledger-A record and then by the position of the ledger-B record
(`scanList`), and every returned pair has two different chain names. -/
theorem C7_output_order (parse : String → Option Int) (btc ltc bch dcr : List htlc)
    (h1 : NoFault parse btc ltc) (h2 : NoFault parse btc bch) (h3 : NoFault parse btc dcr)
    (h4 : NoFault parse ltc bch) (h5 : NoFault parse ltc dcr) (h6 : NoFault parse bch dcr) :
    correlate parse btc ltc bch dcr =
        .ok (scanList parse "BTC" "LTC" btc ltc ++ scanList parse "BTC" "BCH" btc bch ++
          scanList parse "BTC" "DCR" btc dcr ++ scanList parse "LTC" "BCH" ltc bch ++
          scanList parse "LTC" "DCR" ltc dcr ++ scanList parse "BCH" "DCR" bch dcr) ∧
      ∀ out, correlate parse btc ltc bch dcr = .ok out →
        ∀ s ∈ out, s.Chain1 ≠ s.Chain2 := by
  have heq := correlate_eq parse btc ltc bch dcr h1 h2 h3 h4 h5 h6
  refine ⟨heq, ?_⟩
  intro out hout s hs
  rw [heq] at hout
  injection hout with hout
  subst hout
  simp only [scanList, List.mem_append, List.mem_flatMap, List.mem_map] at hs
  rcases hs with ((((hs | hs) | hs) | hs) | hs) | hs <;>
    obtain ⟨_, _, _, _, rfl⟩ := hs <;> simp

theorem C7_output_order_witness :
    NoFault exampleClock [recA, recA2] [recB, recLate] ∧ NoFault exampleClock [recA, recA2] [] ∧
      NoFault exampleClock [recA, recA2] [recB2] ∧ NoFault exampleClock [recB, recLate] [] ∧
      NoFault exampleClock [recB, recLate] [recB2] ∧ NoFault exampleClock [] [recB2] ∧
      (correlate exampleClock [recA, recA2] [recB, recLate] [] [recB2] =
        .ok (scanList exampleClock "BTC" "LTC" [recA, recA2] [recB, recLate] ++
          scanList exampleClock "BTC" "BCH" [recA, recA2] [] ++
          scanList exampleClock "BTC" "DCR" [recA, recA2] [recB2] ++
          scanList exampleClock "LTC" "BCH" [recB, recLate] [] ++
          scanList exampleClock "LTC" "DCR" [recB, recLate] [recB2] ++
          scanList exampleClock "BCH" "DCR" [] [recB2]) ∧
        ∀ out, correlate exampleClock [recA, recA2] [recB, recLate] [] [recB2] = .ok out →
          ∀ s ∈ out, s.Chain1 ≠ s.Chain2) :=
  ⟨by decide, by decide, by decide, by decide, by decide, by decide,
    C7_output_order exampleClock [recA, recA2] [recB, recLate] [] [recB2]
      (by decide) (by decide) (by decide) (by decide) (by decide) (by decide)⟩

/-! ## Lemmas on the classifier -/

theorem takeWhile_not_space (l : List Char) :
    (l.takeWhile (fun c => c != ' ')).contains ' ' = false := by
  induction l with
  | nil => rfl
  | cons c rest ih =>
    by_cases hc : c = ' '
    · subst hc; rfl
    · have hne : (c != ' ') = true := by simpa using hc
      have hne2 : (' ' == c) = false := by simpa using fun h : ' ' = c => hc h.symm
      rw [List.takeWhile_cons, if_pos hne, List.contains, List.elem_cons, hne2]
      exact ih

theorem hasSpace_beforeSpace (op : String) : hasSpace (beforeSpace op) = false :=
  takeWhile_not_space op.data

/-- An element without a space that none of the tests of lines 83-99 selects is left as it is. -/
theorem normaliseOp_fixed (chain r : String) (hsp : hasSpace r = false)
    (hsm : isSmallIntPush r = false)
    (hdcr : chain = "dcr" → r ≠ "OP_SHA256" ∧ r ≠ "OP_UNKNOWN192") :
    normaliseOp chain r = r := by
  unfold normaliseOp
  by_cases hc : chain = "dcr"
  · simp [hsp, hsm, hc, (hdcr hc).1, (hdcr hc).2]
  · simp [hsp, hsm, hc]

theorem normaliseOp_idem (chain op : String)
    (hpay : hasSpace op = true → isSmallIntPush (beforeSpace op) = false ∧
      (chain = "dcr" → beforeSpace op ≠ "OP_SHA256" ∧ beforeSpace op ≠ "OP_UNKNOWN192"))
    (hdcr : chain = "dcr" → op ≠ "OP_UNKNOWN192") :
    normaliseOp chain (normaliseOp chain op) = normaliseOp chain op := by
  have fixOP : normaliseOp chain "OP_" = "OP_" :=
    normaliseOp_fixed chain "OP_" (by decide) (by decide) (fun _ => ⟨by decide, by decide⟩)
  have fixBlake : normaliseOp chain "OP_BLAKE256" = "OP_BLAKE256" :=
    normaliseOp_fixed chain "OP_BLAKE256" (by decide) (by decide)
      (fun _ => ⟨by decide, by decide⟩)
  by_cases hsp : hasSpace op = true
  · have hne1 : op ≠ "OP_SHA256" := by
      rintro rfl; exact absurd hsp (by decide)
    have hne2 : op ≠ "OP_UNKNOWN192" := by
      rintro rfl; exact absurd hsp (by decide)
    by_cases hsm : isSmallIntPush op = true
    · have hval : normaliseOp chain op = "OP_" := by
        simp [normaliseOp, hsp, hsm, hne1, hne2]
      rw [hval, fixOP]
    · have hval : normaliseOp chain op = beforeSpace op := by
        simp [normaliseOp, hsp, hsm, hne1, hne2]
      rw [hval]
      exact normaliseOp_fixed chain _ (hasSpace_beforeSpace op) (hpay hsp).1 (hpay hsp).2
  · have hsp0 : hasSpace op = false := by simpa using hsp
    by_cases hc : chain = "dcr"
    · have hne2 : op ≠ "OP_UNKNOWN192" := hdcr hc
      by_cases h1 : op = "OP_SHA256"
      · have hval : normaliseOp chain op = "OP_BLAKE256" := by
          subst h1; subst hc; decide
        rw [hval, fixBlake]
      · by_cases hsm : isSmallIntPush op = true
        · have hval : normaliseOp chain op = "OP_" := by
            simp [normaliseOp, hsp0, hsm, h1, hne2]
          rw [hval, fixOP]
        · have hsm0 : isSmallIntPush op = false := by simpa using hsm
          have hval : normaliseOp chain op = op :=
            normaliseOp_fixed chain op hsp0 hsm0 (fun _ => ⟨h1, hne2⟩)
          rw [hval, hval]
    · by_cases hsm : isSmallIntPush op = true
      · have hval : normaliseOp chain op = "OP_" := by
          simp [normaliseOp, hsp0, hsm, hc]
        rw [hval, fixOP]
      · have hsm0 : isSmallIntPush op = false := by simpa using hsm
        have hval : normaliseOp chain op = op :=
          normaliseOp_fixed chain op hsp0 hsm0 (fun h => absurd h hc)
        rw [hval, hval]

theorem normalise_length (chain : String) (ops : List String) :
    (normalise chain ops).length = ops.length := by
  simp [normalise]

theorem matchLoop_sameLength (typeOps : List String) (length : Nat) :
    ∀ (suffix : List String) (i : Nat) (typeFound : Bool),
      (typeOps.drop i).length = suffix.length → length = i + suffix.length →
      matchLoop typeOps length suffix i typeFound =
        .ok (if suffix = [] then typeFound else decide (suffix = typeOps.drop i)) := by
  intro suffix
  induction suffix with
  | nil => intro i typeFound _ _; simp [matchLoop]
  | cons op rest ih =>
    intro i typeFound hlen hidx
    obtain ⟨t, ht, hdrop, hlen1⟩ := drop_cons_of_length typeOps i rest.length (by simpa using hlen)
    simp only [matchLoop, ht]
    by_cases hop : op = t
    · subst hop
      have hidx1 : length = (i + 1) + rest.length := by
        simp only [List.length_cons] at hidx; omega
      rw [if_neg (by simp), ih (i + 1) _ hlen1 hidx1, hdrop]
      by_cases hrest : rest = []
      · subst hrest
        have hnil : List.drop (i + 1) typeOps = [] :=
          List.length_eq_zero.mp (by simpa using hlen1)
        have hlast : (i : Int) = (length : Int) - 1 := by
          simp only [List.length_nil] at hidx1; omega
        simp [hnil, hlast]
      · simp [hrest]
    · rw [if_pos hop, hdrop]
      simp [hop]

theorem typesLoop_known (pcOps : List String) (hne : pcOps ≠ []) :
    ∀ types : List htlcType, (∃ t ∈ types, t.Ops = pcOps) →
      typesLoop pcOps pcOps.length types false = .ok true := by
  intro types
  induction types with
  | nil => intro h; simp at h
  | cons t rest ih =>
    intro h
    by_cases hlen : pcOps.length = t.Ops.length
    · rw [typesLoop, if_neg (by simpa using hlen),
        matchLoop_sameLength t.Ops pcOps.length pcOps 0 false (by simpa using hlen.symm)
          (by simp)]
      by_cases heq : pcOps = t.Ops
      · rw [if_neg hne]
        simp [heq]
      · have hrest : ∃ t1 ∈ rest, t1.Ops = pcOps := by
          obtain ⟨t1, ht1, hops⟩ := h
          rcases List.mem_cons.mp ht1 with rfl | hmem
          · exact absurd hops.symm heq
          · exact ⟨t1, hmem, hops⟩
        simp [hne, heq, ih hrest]
    · have hrest : ∃ t1 ∈ rest, t1.Ops = pcOps := by
        obtain ⟨t1, ht1, hops⟩ := h
        rcases List.mem_cons.mp ht1 with rfl | hmem
        · exact absurd (by rw [hops]) hlen
        · exact ⟨t1, hmem, hops⟩
      rw [typesLoop, if_pos (by simpa using hlen)]
      exact ih hrest

theorem typesLoop_new (pcOps : List String) :
    ∀ types : List htlcType, (∀ t ∈ types, t.Ops ≠ pcOps) →
      typesLoop pcOps pcOps.length types false = .ok false := by
  intro types
  induction types with
  | nil => intro _; simp [typesLoop]
  | cons t rest ih =>
    intro h
    have hrest : ∀ t1 ∈ rest, t1.Ops ≠ pcOps :=
      fun t1 ht1 => h t1 (List.mem_cons_of_mem _ ht1)
    have hne : pcOps ≠ t.Ops := fun e => h t (List.mem_cons_self _ _) e.symm
    by_cases hlen : pcOps.length = t.Ops.length
    · rw [typesLoop, if_neg (by simpa using hlen),
        matchLoop_sameLength t.Ops pcOps.length pcOps 0 false (by simpa using hlen.symm)
          (by simp)]
      by_cases hnil : pcOps = []
      · rw [if_pos hnil]
        simpa using ih hrest
      · simp [hnil, hne, ih hrest]
    · rw [typesLoop, if_pos (by simpa using hlen)]
      exact ih hrest

/-- A candidate with non-empty Ops whose normalised Ops are some entry's
signature leaves the catalog as it is. -/
theorem registerType_known (PC : processedCandidate) (types : List htlcType) (chain : String)
    (hne : PC.Ops ≠ []) (h : ∃ t ∈ types, t.Ops = normalise chain PC.Ops) :
    registerType PC types chain = .ok types := by
  have hne1 : normalise chain PC.Ops ≠ [] := by
    simpa [normalise] using hne
  have := typesLoop_known (normalise chain PC.Ops) hne1 types h
  rw [normalise_length] at this
  simp [registerType, this]

/-! ## Claims on the classifier -/

/-- C8 as stated fails: for the ledger `dcr` the element `OP_UNKNOWN192` is
rewritten to `OP_SHA256` by one pass and to `OP_BLAKE256` by a second pass. -/
theorem C8_counterexample_dcr :
    normalise "dcr" ["OP_UNKNOWN192"] = ["OP_SHA256"] ∧
      normalise "dcr" (normalise "dcr" ["OP_UNKNOWN192"]) = ["OP_BLAKE256"] ∧
      normalise "dcr" (normalise "dcr" ["OP_UNKNOWN192"]) ≠ normalise "dcr" ["OP_UNKNOWN192"] := by
  decide

/-- C8 (amended): normalising twice equals normalising once for every ledger and
every Ops sequence that does not contain `OP_UNKNOWN192` when the ledger is
`dcr`, and in which the mnemonic (the text before the first space) of every
payload-carrying element is not itself an element the normaliser rewrites: it
is not a small-integer push by the test of line 83 and, for `dcr`, it is
neither `OP_SHA256` nor `OP_UNKNOWN192`. -/
theorem C8_normalise_idempotent (chain : String) (ops : List String)
    (hpay : ∀ op ∈ ops, hasSpace op = true → isSmallIntPush (beforeSpace op) = false ∧
      (chain = "dcr" → beforeSpace op ≠ "OP_SHA256" ∧ beforeSpace op ≠ "OP_UNKNOWN192"))
    (hdcr : chain = "dcr" → "OP_UNKNOWN192" ∉ ops) :
    normalise chain (normalise chain ops) = normalise chain ops := by
  unfold normalise
  rw [List.map_map]
  apply List.map_congr_left
  intro op hop
  exact normaliseOp_idem chain op (hpay op hop) (fun hc heq => hdcr hc (heq ▸ hop))

theorem C8_normalise_idempotent_witness :
    (∀ op ∈ ["OP_IF", "OP_SHA256", "OP_DATA_32 abcd", "OP_5", "OP_16", "OP_ELSE"],
        hasSpace op = true → isSmallIntPush (beforeSpace op) = false ∧
          ("dcr" = "dcr" → beforeSpace op ≠ "OP_SHA256" ∧ beforeSpace op ≠ "OP_UNKNOWN192")) ∧
      ("dcr" = "dcr" →
        "OP_UNKNOWN192" ∉ ["OP_IF", "OP_SHA256", "OP_DATA_32 abcd", "OP_5", "OP_16", "OP_ELSE"]) ∧
      normalise "dcr"
          (normalise "dcr" ["OP_IF", "OP_SHA256", "OP_DATA_32 abcd", "OP_5", "OP_16", "OP_ELSE"]) =
        normalise "dcr" ["OP_IF", "OP_SHA256", "OP_DATA_32 abcd", "OP_5", "OP_16", "OP_ELSE"] :=
  ⟨by decide, by decide,
    C8_normalise_idempotent "dcr"
      ["OP_IF", "OP_SHA256", "OP_DATA_32 abcd", "OP_5", "OP_16", "OP_ELSE"]
      (by decide) (by decide)⟩

/-- A direct call of `registerType` with an empty Ops sequence, which no
candidate the pre-filter keeps has: the loop of lines 114-126 has no iteration,
so the entry `Type 1` with the empty signature is not recognised and an entry
`Type 2` with the same signature is appended. -/
theorem registerType_empty_ops :
    ({ Name := "Type 1", Ops := [] } : htlcType).Ops =
        normalise "btc" (exampleCandidate []).Ops ∧
      registerType (exampleCandidate []) [] "btc" = .ok [{ Name := "Type 1", Ops := [] }] ∧
      registerType (exampleCandidate []) [{ Name := "Type 1", Ops := [] }] "btc" =
        .ok [{ Name := "Type 1", Ops := [] }, { Name := "Type 2", Ops := [] }] := by
  decide

/-- C10: if no catalog entry's signature equals the candidate's normalised Ops,
`registerType` returns the old catalog, unchanged and in the same order,
followed by one new entry named `Type ` and the decimal numeral of `n + 1`
(`n` the number of old entries) whose signature is the normalised Ops. -/
theorem C10_new_shape_appended (PC : processedCandidate) (types : List htlcType)
    (chain : String) (h : ∀ t ∈ types, t.Ops ≠ normalise chain PC.Ops) :
    registerType PC types chain =
      .ok (types ++ [{ Name := "Type " ++ toString (types.length + 1),
                       Ops := normalise chain PC.Ops }]) := by
  have := typesLoop_new (normalise chain PC.Ops) types h
  rw [normalise_length] at this
  simp [registerType, this]

theorem C10_new_shape_appended_witness :
    (∀ t ∈ [({ Name := "Type 1", Ops := ["OP_IF", "OP_DATA_20", "OP_"] } : htlcType)],
        t.Ops ≠ normalise "btc" (exampleCandidate ["OP_IF", "OP_DATA_32 abcd", "OP_16"]).Ops) ∧
      registerType (exampleCandidate ["OP_IF", "OP_DATA_32 abcd", "OP_16"])
          [{ Name := "Type 1", Ops := ["OP_IF", "OP_DATA_20", "OP_"] }] "btc" =
        .ok ([({ Name := "Type 1", Ops := ["OP_IF", "OP_DATA_20", "OP_"] } : htlcType)] ++
          [{ Name := "Type " ++ toString
                ([({ Name := "Type 1", Ops := ["OP_IF", "OP_DATA_20", "OP_"] } : htlcType)].length + 1),
             Ops := normalise "btc" (exampleCandidate ["OP_IF", "OP_DATA_32 abcd", "OP_16"]).Ops }]) :=
  ⟨by decide,
    C10_new_shape_appended (exampleCandidate ["OP_IF", "OP_DATA_32 abcd", "OP_16"])
      [{ Name := "Type 1", Ops := ["OP_IF", "OP_DATA_20", "OP_"] }] "btc" (by decide)⟩

/-! ## Lemmas on the extractor -/

theorem goIndex_ok {α : Type} (xs : List α) (i : Int) (x : α) :
    goIndex xs i = .ok x ↔ 0 ≤ i ∧ xs[i.toNat]? = some x := by
  unfold goIndex
  by_cases hi : i < 0
  · simp [hi]
  · simp only [hi, if_false]
    cases hx : xs[i.toNat]? with
    | none => simp
    | some y =>
      simp only [Except.ok.injEq, Option.some.injEq]
      constructor
      · intro h; exact ⟨by omega, h⟩
      · intro h; exact h.2

theorem goIndex_natCast {α : Type} (xs : List α) (n : Nat) (x : α) :
    goIndex xs (n : Int) = .ok x ↔ xs[n]? = some x := by
  rw [goIndex_ok]
  simp

theorem goIndex_fromEnd {α : Type} (xs : List α) (k : Nat) (x : α)
    (h : goIndex xs ((xs.length : Int) - (k : Int)) = .ok x) :
    k ≤ xs.length ∧ xs[xs.length - k]? = some x := by
  rw [goIndex_ok] at h
  obtain ⟨h0, hx⟩ := h
  have hle : k ≤ xs.length := by omega
  refine ⟨hle, ?_⟩
  have : ((xs.length : Int) - (k : Int)).toNat = xs.length - k := by omega
  rw [this] at hx
  exact hx

/-- The state the match loop writes when the template `t` at catalog index `i` fits. -/
theorem extractMatchLoop_ok (t : filteredHTLCType) (i length : Nat) :
    ∀ (suffix : List String) (j : Nat) (st st1 : MatchState),
      length = j + suffix.length →
      extractMatchLoop t i length suffix j st = .ok st1 →
      st1 = st ∨
        (suffix ≠ [] ∧
          st1 = { typeFound := true, matchingType := t.Name, matchingTypeNumber := (i : Int) } ∧
          suffix.map collapseOp <+: t.Ops.drop j) := by
  intro suffix
  induction suffix with
  | nil =>
    intro j st st1 _ h
    simp only [extractMatchLoop, Except.ok.injEq] at h
    exact Or.inl h.symm
  | cons op rest ih =>
    intro j st st1 hlen h
    simp only [extractMatchLoop] at h
    cases hidx : goIndex t.Ops (j : Int) with
    | error e => simp [hidx] at h
    | ok tOp =>
      simp only [hidx] at h
      have hget : t.Ops[j]? = some tOp := (goIndex_natCast _ _ _).mp hidx
      have hjlt : j < t.Ops.length := by
        by_contra hcon
        rw [List.getElem?_eq_none (by omega)] at hget
        exact absurd hget (by simp)
      have hdrop : t.Ops.drop j = tOp :: t.Ops.drop (j + 1) := by
        rw [List.drop_eq_getElem_cons hjlt]
        congr 1
        rw [List.getElem?_eq_getElem hjlt] at hget
        exact Option.some.inj hget
      by_cases hop : collapseOp op = tOp
      · rw [if_neg (by simpa using hop)] at h
        have hlen1 : length = (j + 1) + rest.length := by
          simp only [List.length_cons] at hlen; omega
        by_cases hrest : rest = []
        · subst hrest
          have hlast : (j : Int) = (length : Int) - 1 := by
            simp only [List.length_nil] at hlen1; omega
          simp only [hlast, if_true, extractMatchLoop, Except.ok.injEq] at h
          refine Or.inr ⟨by simp, h.symm, ?_⟩
          rw [hdrop, List.map_cons, List.map_nil, hop]
          exact List.prefix_iff_eq_append.mpr rfl
        · have hnotlast : ¬ (j : Int) = (length : Int) - 1 := by
            have : 0 < rest.length := List.length_pos.mpr hrest
            omega
          rw [if_neg hnotlast] at h
          rcases ih (j + 1) st st1 hlen1 h with heq | ⟨_, hst, hpre⟩
          · exact Or.inl heq
          · refine Or.inr ⟨by simp, hst, ?_⟩
            rw [hdrop, List.map_cons, hop]
            exact (List.cons_prefix_cons).mpr ⟨rfl, hpre⟩
      · rw [if_pos (by simpa using hop)] at h
        simp only [Except.ok.injEq] at h
        exact Or.inl h.symm

/-- The state the catalog loop ends with when it has found a template. -/
theorem extractTypesLoop_found (pcOps : List String) :
    ∀ (types : List filteredHTLCType) (i : Nat) (st st1 : MatchState),
      st.typeFound = false →
      extractTypesLoop pcOps pcOps.length types i st = .ok st1 →
      st1.typeFound = true →
      ∃ (k : Nat) (t : filteredHTLCType), types[k]? = some t ∧
        st1 = { typeFound := true, matchingType := t.Name,
                matchingTypeNumber := ((i + k : Nat) : Int) } ∧
        (pcOps.length : Int) = t.Length ∧ pcOps ≠ [] ∧ pcOps.map collapseOp <+: t.Ops := by
  intro types
  induction types with
  | nil =>
    intro i st st1 hst h hfound
    simp only [extractTypesLoop, Except.ok.injEq] at h
    rw [← h, hst] at hfound
    exact absurd hfound (by simp)
  | cons t rest ih =>
    intro i st st1 hst h hfound
    simp only [extractTypesLoop] at h
    by_cases hlen : (pcOps.length : Int) = t.Length
    · rw [if_neg (by simpa using hlen)] at h
      cases hloop : extractMatchLoop t i pcOps.length pcOps 0 st with
      | error e => simp [hloop] at h
      | ok st2 =>
        simp only [hloop] at h
        rcases extractMatchLoop_ok t i pcOps.length pcOps 0 st st2 (by simp) hloop with
          heq | ⟨hne, hst2, hpre⟩
        · have hst2 : st2.typeFound = false := by rw [heq]; exact hst
          rw [if_neg (by simp [hst2])] at h
          obtain ⟨k, t1, hk, hst1, hrest⟩ := ih (i + 1) st2 st1 hst2 h hfound
          refine ⟨k + 1, t1, by simpa using hk, ?_, hrest⟩
          rw [hst1]
          have : i + 1 + k = i + (k + 1) := by omega
          rw [this]
        · have hst2f : st2.typeFound = true := by rw [hst2]
          rw [if_pos hst2f] at h
          simp only [Except.ok.injEq] at h
          refine ⟨0, t, by simp, ?_, hlen, hne, ?_⟩
          · rw [← h, hst2]; simp
          · simpa using hpre
    · rw [if_pos (by simpa using hlen)] at h
      obtain ⟨k, t1, hk, hst1, hrest⟩ := ih (i + 1) st st1 hst h hfound
      refine ⟨k + 1, t1, by simpa using hk, ?_, hrest⟩
      rw [hst1]
      have : i + 1 + k = i + (k + 1) := by omega
      rw [this]

/-- No template of the declared length: the catalog loop changes nothing and reads no element. -/
theorem extractTypesLoop_noLength (pcOps : List String) (length : Nat) :
    ∀ (types : List filteredHTLCType) (i : Nat) (st : MatchState),
      (∀ t ∈ types, t.Length ≠ (length : Int)) →
      extractTypesLoop pcOps length types i st = .ok st := by
  intro types
  induction types with
  | nil => intro i st _; simp [extractTypesLoop]
  | cons t rest ih =>
    intro i st h
    have ht : (length : Int) ≠ t.Length := fun e => h t (List.mem_cons_self _ _) e.symm
    simp only [extractTypesLoop]
    rw [if_pos ht]
    exact ih (i + 1) st (fun t1 ht1 => h t1 (List.mem_cons_of_mem _ ht1))

/-- What a returned record is made of: a template of the catalog that fits, and
the fields read at that template's positions. -/
theorem extractData_ok (PC : processedCandidate) (types : List filteredHTLCType)
    (chain : String) (h : htlc) (hex : extractData PC types chain = .ok (.ok h)) :
    ∃ (k : Nat) (t : filteredHTLCType), types[k]? = some t ∧
      (PC.Ops.length : Int) = t.Length ∧ PC.Ops ≠ [] ∧
      (remapOps chain PC.Ops).map collapseOp <+: t.Ops ∧
      extractFields PC (remapOps chain PC.Ops) chain t.Name t = .ok h := by
  have hlenOps : (remapOps chain PC.Ops).length = PC.Ops.length := by
    unfold remapOps; split <;> simp
  simp only [extractData] at hex
  cases hloop : extractTypesLoop (remapOps chain PC.Ops) PC.Ops.length types 0
      { typeFound := false, matchingType := "", matchingTypeNumber := -1 } with
  | error e => simp [hloop] at hex
  | ok st =>
    simp only [hloop] at hex
    by_cases hfound : st.typeFound = true
    · rw [if_neg (by simp [hfound])] at hex
      rw [← hlenOps] at hloop
      obtain ⟨k, t, hk, hst, hlen, hne, hpre⟩ :=
        extractTypesLoop_found (remapOps chain PC.Ops) types 0 _ st rfl hloop hfound
      have hidx : goIndex types st.matchingTypeNumber = .ok t := by
        rw [hst]
        simp only [Nat.zero_add]
        exact (goIndex_natCast _ _ _).mpr hk
      rw [hidx] at hex
      simp only at hex
      refine ⟨k, t, hk, by rw [← hlen, hlenOps], ?_, hpre, ?_⟩
      · intro hnil
        apply hne
        apply List.length_eq_zero.mp
        rw [hlenOps, hnil]; rfl
      · cases hf : extractFields PC (remapOps chain PC.Ops) chain st.matchingType t with
        | error e => simp [hf] at hex
        | ok r =>
          simp only [hf, Except.ok.injEq] at hex
          rw [hst] at hf
          simp only at hf
          rw [hf, hex]
    · have : st.typeFound = false := by simpa using hfound
      simp [this] at hex

/-- The five steps of lines 161-489 behind a returned record. -/
theorem extractFields_ok (PC : processedCandidate) (pcOps : List String) (chain name : String)
    (t : filteredHTLCType) (h : htlc) (hf : extractFields PC pcOps chain name t = .ok h) :
    timelockOf pcOps t.LocktimePos = .ok h.Timelock ∧
      payloadLoop pcOps t.PublicKeys1Pos [] = .ok h.PubKeys1 ∧
      payloadAt pcOps t.PublicKey2Pos = .ok h.PubKey2 ∧
      payloadLoop pcOps t.SecrethashPos [] = .ok h.SecretHashes ∧
      secretsSwitch name PC.Asm = .ok h.Secrets ∧
      h.Chain = chain ∧ h.Block = PC.Block ∧ h.Timestamp = PC.Timestamp ∧
      h.Transaction = PC.Transaction ∧ h.InputTx = PC.InputTx ∧
      h.InputValue = PC.InputValue ∧ h.Type_ = name := by
  simp only [extractFields] at hf
  cases h1 : timelockOf pcOps t.LocktimePos with
  | error e => simp [h1] at hf
  | ok timelock =>
    cases h2 : payloadLoop pcOps t.PublicKeys1Pos [] with
    | error e => simp [h1, h2] at hf
    | ok pubKeys1 =>
      cases h3 : payloadAt pcOps t.PublicKey2Pos with
      | error e => simp [h1, h2, h3] at hf
      | ok pubKey2 =>
        cases h4 : payloadLoop pcOps t.SecrethashPos [] with
        | error e => simp [h1, h2, h3, h4] at hf
        | ok secretHashes =>
          cases h5 : secretsSwitch name PC.Asm with
          | error e => simp [h1, h2, h3, h4, h5] at hf
          | ok secrets =>
            simp only [h1, h2, h3, h4, h5, Except.ok.injEq] at hf
            subst hf
            simp

theorem extractData_secrets (PC : processedCandidate) (types : List filteredHTLCType)
    (chain : String) (h : htlc) (hex : extractData PC types chain = .ok (.ok h)) :
    secretsSwitch h.Type_ PC.Asm = .ok h.Secrets := by
  obtain ⟨_, t, _, _, _, _, hf⟩ := extractData_ok PC types chain h hex
  have hall := extractFields_ok PC _ chain t.Name t h hf
  rw [hall.2.2.2.2.2.2.2.2.2.2.2]
  exact hall.2.2.2.2.1

theorem secretUnlessZero_ok (asm : List String) (k : Nat) (s : List String)
    (h : secretUnlessZero asm (k : Int) = .ok s) :
    2 ≤ asm.length ∧ ∃ selector, asm[asm.length - 2]? = some selector ∧
      (selector = "0" → s = ["none"]) ∧
      (selector ≠ "0" → k ≤ asm.length ∧ ∃ token, asm[asm.length - k]? = some token ∧
        s = [token]) := by
  simp only [secretUnlessZero] at h
  cases hsel : goIndex asm ((asm.length : Int) - 2) with
  | error e => simp [hsel] at h
  | ok selector =>
    simp only [hsel] at h
    obtain ⟨hlen, hget⟩ := goIndex_fromEnd asm 2 selector (by simpa using hsel)
    refine ⟨hlen, selector, hget, ?_, ?_⟩
    · intro h0
      rw [if_neg (by simpa using h0)] at h
      simpa using h.symm
    · intro h0
      rw [if_pos h0] at h
      cases htok : goIndex asm ((asm.length : Int) - (k : Int)) with
      | error e => simp [htok] at h
      | ok token =>
        simp only [htok, Except.ok.injEq] at h
        obtain ⟨hk, hgetk⟩ := goIndex_fromEnd asm k token htok
        exact ⟨hk, token, hgetk, by simpa using h.symm⟩

theorem secretIfZero_ok (asm : List String) (k : Nat) (s : List String)
    (h : secretIfZero asm (k : Int) = .ok s) :
    2 ≤ asm.length ∧ ∃ selector, asm[asm.length - 2]? = some selector ∧
      (selector = "0" → k ≤ asm.length ∧ ∃ token, asm[asm.length - k]? = some token ∧
        s = [token]) ∧
      (selector ≠ "0" → s = ["none"]) := by
  simp only [secretIfZero] at h
  cases hsel : goIndex asm ((asm.length : Int) - 2) with
  | error e => simp [hsel] at h
  | ok selector =>
    simp only [hsel] at h
    obtain ⟨hlen, hget⟩ := goIndex_fromEnd asm 2 selector (by simpa using hsel)
    refine ⟨hlen, selector, hget, ?_, ?_⟩
    · intro h0
      rw [if_pos h0] at h
      cases htok : goIndex asm ((asm.length : Int) - (k : Int)) with
      | error e => simp [htok] at h
      | ok token =>
        simp only [htok, Except.ok.injEq] at h
        obtain ⟨hk, hgetk⟩ := goIndex_fromEnd asm k token htok
        exact ⟨hk, token, hgetk, by simpa using h.symm⟩
    · intro h0
      rw [if_neg h0] at h
      simpa using h.symm

theorem secretAlways_ok (asm : List String) (k : Nat) (s : List String)
    (h : secretAlways asm (k : Int) = .ok s) :
    k ≤ asm.length ∧ ∃ token, asm[asm.length - k]? = some token ∧ s = [token] := by
  simp only [secretAlways] at h
  cases htok : goIndex asm ((asm.length : Int) - (k : Int)) with
  | error e => simp [htok] at h
  | ok token =>
    simp only [htok, Except.ok.injEq] at h
    obtain ⟨hk, hgetk⟩ := goIndex_fromEnd asm k token htok
    exact ⟨hk, token, hgetk, by simpa using h.symm⟩

theorem secretsDownLoop_ok (asm : List String) :
    ∀ (idxs : List Int) (acc s : List String), secretsDownLoop asm idxs acc = .ok s →
      s = acc ++ idxs.map (fun i => asm.getD i.toNat "") ∧
        ∀ i ∈ idxs, 0 ≤ i ∧ i.toNat < asm.length := by
  intro idxs
  induction idxs with
  | nil =>
    intro acc s h
    simp only [secretsDownLoop, Except.ok.injEq] at h
    simp [h]
  | cons i later ih =>
    intro acc s h
    simp only [secretsDownLoop] at h
    cases htok : goIndex asm i with
    | error e => simp [htok] at h
    | ok token =>
      simp only [htok] at h
      obtain ⟨hs, hrest⟩ := ih (acc ++ [token]) s h
      obtain ⟨h0, hget⟩ := (goIndex_ok asm i token).mp htok
      have hlt : i.toNat < asm.length := by
        by_contra hcon
        rw [List.getElem?_eq_none (by omega)] at hget
        exact absurd hget (by simp)
      refine ⟨?_, ?_⟩
      · rw [hs]; simp [hget]
      · intro i1 hi1
        rcases List.mem_cons.mp hi1 with rfl | hmem
        · exact ⟨h0, hlt⟩
        · exact hrest i1 hmem

theorem secretRange_ok (asm : List String) (s : List String) (h : secretRange asm = .ok s) :
    2 ≤ asm.length ∧ s.length = 15 ∧ ∃ selector, asm[asm.length - 2]? = some selector ∧
      (selector = "0" → s = List.replicate 15 "none") ∧
      (selector ≠ "0" → 16 ≤ asm.length ∧
        ∀ k, k < 15 → ∃ token, asm[15 - k]? = some token ∧ s[k]? = some token) := by
  simp only [secretRange] at h
  cases hsel : goIndex asm ((asm.length : Int) - 2) with
  | error e => simp [hsel] at h
  | ok selector =>
    simp only [hsel] at h
    obtain ⟨hlen, hget⟩ := goIndex_fromEnd asm 2 selector (by simpa using hsel)
    by_cases h0 : selector = "0"
    · rw [if_neg (by simpa using h0)] at h
      simp only [Except.ok.injEq] at h
      have hs : s = List.replicate 15 "none" := by rw [← h]; rfl
      exact ⟨hlen, by rw [hs]; rfl, selector, hget, fun _ => hs, fun hne => absurd h0 hne⟩
    · rw [if_pos h0] at h
      obtain ⟨hs, hidx⟩ := secretsDownLoop_ok asm fifteenDown [] s h
      have h15 : 16 ≤ asm.length := by
        have := (hidx 15 (by simp [fifteenDown])).2
        simpa using this
      have hslen : s.length = 15 := by rw [hs]; rfl
      refine ⟨hlen, hslen, selector, hget, fun he => absurd he h0, fun _ => ⟨h15, ?_⟩⟩
      intro k hk
      refine ⟨asm.getD (15 - k) "", ?_, ?_⟩
      · rw [List.getD_eq_getElem?_getD, List.getElem?_eq_getElem (by omega)]; rfl
      · rw [hs]
        interval_cases k <;> rfl

theorem secretsSwitch_unlessZero (name : String) (asm : List String)
    (h : name ∈ unlessZeroNames) : secretsSwitch name asm = secretUnlessZero asm 3 := by
  simp only [unlessZeroNames, List.mem_cons, List.mem_singleton, List.not_mem_nil,
    or_false] at h
  rcases h with rfl | rfl | rfl | rfl | rfl | rfl | rfl | rfl | rfl | rfl | rfl | rfl | rfl |
    rfl | rfl | rfl <;> rfl

/-! ## Claims on the extractor -/

/-- C11 as stated fails: the template declares the length 1 but its ops list has
two entries; the candidate with the single opcode `OP_IF` is extracted although
no template's ops list equals its normalised Ops (neither as the extractor nor
as the classifier normalises them). -/
theorem C11_counterexample_declared_length :
    extractData (exampleCandidate ["OP_IF"])
        [{ Name := "TypeX", Length := 1, Hash := "", SecrethashPos := [], LocktimePos := 0,
           PublicKeys1Pos := [], PublicKey2Pos := 0, Ops := ["OP_IF", "OP_ELSE"] }] "btc" =
      .ok (.ok { Chain := "btc", Block := 1, Timestamp := "2020-01-01 00:00:00 +0000 UTC",
                 Transaction := "tx", InputTx := "in", InputValue := 0, Type_ := "TypeX",
                 Timelock := "IF", PubKeys1 := [], PubKey2 := "OP_IF", Secrets := [],
                 SecretHashes := [] }) ∧
      extractorSignature "btc" (exampleCandidate ["OP_IF"]).Ops = ["OP_IF"] ∧
      normalise "btc" (exampleCandidate ["OP_IF"]).Ops = ["OP_IF"] ∧
      (["OP_IF", "OP_ELSE"] : List String) ≠ ["OP_IF"] := by
  decide

/-- C11 (amended): if `extractData` returns a record then some template of the
catalog has a declared length equal to the number of the candidate's Ops, and
its ops list starts with the candidate's Ops as the extractor normalises them,
position by position; when the declared length of that template is the length
of its ops list, the ops list equals the normalised Ops in length and at every
position. -/
theorem C11_extraction_precondition (PC : processedCandidate) (types : List filteredHTLCType)
    (chain : String) (h : htlc) (hex : extractData PC types chain = .ok (.ok h)) :
    ∃ t ∈ types, (PC.Ops.length : Int) = t.Length ∧
      (extractorSignature chain PC.Ops).length = PC.Ops.length ∧
      (∀ j, j < PC.Ops.length → t.Ops[j]? = (extractorSignature chain PC.Ops)[j]?) ∧
      (t.Length = (t.Ops.length : Int) → t.Ops = extractorSignature chain PC.Ops) := by
  obtain ⟨k, t, hk, hlen, _, hpre, _⟩ := extractData_ok PC types chain h hex
  have hsig : (extractorSignature chain PC.Ops).length = PC.Ops.length := by
    unfold extractorSignature remapOps; split <;> simp
  refine ⟨t, List.getElem?_mem hk, hlen, hsig, ?_, ?_⟩
  · intro j hj
    obtain ⟨tail, htail⟩ := hpre
    change extractorSignature chain PC.Ops ++ tail = t.Ops at htail
    rw [← htail, List.getElem?_append_left (by omega)]
  · intro hdecl
    have hl : (extractorSignature chain PC.Ops).length = t.Ops.length := by
      rw [hsig]; omega
    exact (List.IsPrefix.eq_of_length hpre hl).symm

theorem C11_extraction_precondition_witness :
    extractData (exampleTraced ["sig", "secret", "1", "script"]) [exampleTemplate "Type1a"]
        "btc" = .ok (.ok (exampleRecord "Type1a" ["secret"])) ∧
      ∃ t ∈ [exampleTemplate "Type1a"],
        ((exampleTraced ["sig", "secret", "1", "script"]).Ops.length : Int) = t.Length ∧
        (extractorSignature "btc" (exampleTraced ["sig", "secret", "1", "script"]).Ops).length =
          (exampleTraced ["sig", "secret", "1", "script"]).Ops.length ∧
        (∀ j, j < (exampleTraced ["sig", "secret", "1", "script"]).Ops.length →
          t.Ops[j]? =
            (extractorSignature "btc" (exampleTraced ["sig", "secret", "1", "script"]).Ops)[j]?) ∧
        (t.Length = (t.Ops.length : Int) →
          t.Ops = extractorSignature "btc" (exampleTraced ["sig", "secret", "1", "script"]).Ops) :=
  ⟨by decide,
    C11_extraction_precondition (exampleTraced ["sig", "secret", "1", "script"])
      [exampleTemplate "Type1a"] "btc" (exampleRecord "Type1a" ["secret"]) (by decide)⟩

/-- C12: if no template's declared length equals the number of the candidate's
Ops (in particular for the empty catalog), `extractData` returns the error
`No matching type found!` and no record, and it does so without a panic. -/
theorem C12_no_matching_template (PC : processedCandidate) (types : List filteredHTLCType)
    (chain : String) (hlen : ∀ t ∈ types, t.Length ≠ (PC.Ops.length : Int)) :
    extractData PC types chain = .ok (.error "No matching type found!") := by
  simp only [extractData]
  rw [extractTypesLoop_noLength _ PC.Ops.length types 0 _ hlen]
  simp

theorem C12_no_matching_template_witness :
    (∀ t ∈ [({ Name := "Type1a", Length := 6, Hash := "", SecrethashPos := [1],
               LocktimePos := 2, PublicKeys1Pos := [1], PublicKey2Pos := 1,
               Ops := ["OP_IF", "OP_DATA_20", "OP_", "OP_ELSE", "OP_DATA_20", "OP_ENDIF"] } :
             filteredHTLCType)],
        t.Length ≠ ((exampleCandidate ["OP_IF", "OP_DATA_20 ab", "OP_5", "OP_ELSE",
          "OP_DATA_20 cd", "OP_ENDIF", "OP_CHECKSIG"]).Ops.length : Int)) ∧
      extractData (exampleCandidate ["OP_IF", "OP_DATA_20 ab", "OP_5", "OP_ELSE",
          "OP_DATA_20 cd", "OP_ENDIF", "OP_CHECKSIG"])
        [{ Name := "Type1a", Length := 6, Hash := "", SecrethashPos := [1],
           LocktimePos := 2, PublicKeys1Pos := [1], PublicKey2Pos := 1,
           Ops := ["OP_IF", "OP_DATA_20", "OP_", "OP_ELSE", "OP_DATA_20", "OP_ENDIF"] }] "btc" =
        .ok (.error "No matching type found!") :=
  ⟨by decide,
    C12_no_matching_template _ _ "btc" (by decide)⟩

/-- C13: for a returned record whose type is one of Type1a, Type1b, Type3a,
Type3b, Type3c, Type5a, Type5b, Type7, Type11, Type13, Type16, Type17, Type19a,
Type19b, Type19c, Type20 (offset `k = 3`) or Type10b (offset `k = 4`), with `n`
the length of the trace and the selector `Asm[n-2]`: if the selector is `0` the
Secrets are exactly `none`, otherwise they are exactly the one token `Asm[n-k]`. -/
theorem C13_secret_reveal_on_non_zero (PC : processedCandidate)
    (types : List filteredHTLCType) (chain : String) (h : htlc) (k : Nat)
    (hex : extractData PC types chain = .ok (.ok h))
    (hname : (h.Type_ ∈ unlessZeroNames ∧ k = 3) ∨ (h.Type_ = "Type10b" ∧ k = 4)) :
    2 ≤ PC.Asm.length ∧ ∃ selector, PC.Asm[PC.Asm.length - 2]? = some selector ∧
      (selector = "0" → h.Secrets = ["none"]) ∧
      (selector ≠ "0" → k ≤ PC.Asm.length ∧
        ∃ token, PC.Asm[PC.Asm.length - k]? = some token ∧ h.Secrets = [token]) := by
  have hsw := extractData_secrets PC types chain h hex
  rcases hname with ⟨hn, rfl⟩ | ⟨hn, rfl⟩
  · rw [secretsSwitch_unlessZero _ _ hn] at hsw
    exact secretUnlessZero_ok PC.Asm 3 h.Secrets (by simpa using hsw)
  · rw [hn] at hsw
    have hsw4 : secretUnlessZero PC.Asm 4 = .ok h.Secrets := hsw
    exact secretUnlessZero_ok PC.Asm 4 h.Secrets (by simpa using hsw4)

theorem C13_secret_reveal_on_non_zero_witness :
    extractData (exampleTraced ["sig", "secret", "1", "script"]) [exampleTemplate "Type1a"]
        "btc" = .ok (.ok (exampleRecord "Type1a" ["secret"])) ∧
      (((exampleRecord "Type1a" ["secret"]).Type_ ∈ unlessZeroNames ∧ 3 = 3) ∨
        ((exampleRecord "Type1a" ["secret"]).Type_ = "Type10b" ∧ 3 = 4)) ∧
      (2 ≤ (exampleTraced ["sig", "secret", "1", "script"]).Asm.length ∧
        ∃ selector, (exampleTraced ["sig", "secret", "1", "script"]).Asm[
            (exampleTraced ["sig", "secret", "1", "script"]).Asm.length - 2]? = some selector ∧
          (selector = "0" → (exampleRecord "Type1a" ["secret"]).Secrets = ["none"]) ∧
          (selector ≠ "0" → 3 ≤ (exampleTraced ["sig", "secret", "1", "script"]).Asm.length ∧
            ∃ token, (exampleTraced ["sig", "secret", "1", "script"]).Asm[
                (exampleTraced ["sig", "secret", "1", "script"]).Asm.length - 3]? = some token ∧
              (exampleRecord "Type1a" ["secret"]).Secrets = [token])) :=
  ⟨by decide, by decide,
    C13_secret_reveal_on_non_zero (exampleTraced ["sig", "secret", "1", "script"])
      [exampleTemplate "Type1a"] "btc" (exampleRecord "Type1a" ["secret"]) 3
      (by decide) (by decide)⟩

/-- C14: for a returned record whose type is Type9a or Type9b (offset `k = 3`),
Type10a (`k = 4`), Type12, Type14 or Type15 (`k = 5`), with `n` the length of
the trace and the selector `Asm[n-2]`: if the selector is `0` the Secrets are
exactly the one token `Asm[n-k]`, otherwise they are exactly `none`. -/
theorem C14_secret_reveal_on_zero (PC : processedCandidate)
    (types : List filteredHTLCType) (chain : String) (h : htlc) (k : Nat)
    (hex : extractData PC types chain = .ok (.ok h))
    (hname : (h.Type_ ∈ ["Type9a", "Type9b"] ∧ k = 3) ∨ (h.Type_ = "Type10a" ∧ k = 4) ∨
      (h.Type_ ∈ ["Type12", "Type14", "Type15"] ∧ k = 5)) :
    2 ≤ PC.Asm.length ∧ ∃ selector, PC.Asm[PC.Asm.length - 2]? = some selector ∧
      (selector = "0" → k ≤ PC.Asm.length ∧
        ∃ token, PC.Asm[PC.Asm.length - k]? = some token ∧ h.Secrets = [token]) ∧
      (selector ≠ "0" → h.Secrets = ["none"]) := by
  have hsw := extractData_secrets PC types chain h hex
  rcases hname with ⟨hn, rfl⟩ | ⟨hn, rfl⟩ | ⟨hn, rfl⟩
  · have hsw3 : secretIfZero PC.Asm 3 = .ok h.Secrets := by
      simp only [List.mem_cons, List.mem_singleton, List.not_mem_nil, or_false] at hn
      rcases hn with hn | hn <;> rw [hn] at hsw <;> exact hsw
    exact secretIfZero_ok PC.Asm 3 h.Secrets (by simpa using hsw3)
  · rw [hn] at hsw
    have hsw4 : secretIfZero PC.Asm 4 = .ok h.Secrets := hsw
    exact secretIfZero_ok PC.Asm 4 h.Secrets (by simpa using hsw4)
  · have hsw5 : secretIfZero PC.Asm 5 = .ok h.Secrets := by
      simp only [List.mem_cons, List.mem_singleton, List.not_mem_nil, or_false] at hn
      rcases hn with hn | hn | hn <;> rw [hn] at hsw <;> exact hsw
    exact secretIfZero_ok PC.Asm 5 h.Secrets (by simpa using hsw5)

theorem C14_secret_reveal_on_zero_witness :
    extractData (exampleTraced ["sig", "secret", "x", "y", "0", "script"])
        [exampleTemplate "Type12"] "btc" = .ok (.ok (exampleRecord "Type12" ["secret"])) ∧
      (((exampleRecord "Type12" ["secret"]).Type_ ∈ ["Type9a", "Type9b"] ∧ 5 = 3) ∨
        ((exampleRecord "Type12" ["secret"]).Type_ = "Type10a" ∧ 5 = 4) ∨
        ((exampleRecord "Type12" ["secret"]).Type_ ∈ ["Type12", "Type14", "Type15"] ∧ 5 = 5)) ∧
      (2 ≤ (exampleTraced ["sig", "secret", "x", "y", "0", "script"]).Asm.length ∧
        ∃ selector, (exampleTraced ["sig", "secret", "x", "y", "0", "script"]).Asm[
            (exampleTraced ["sig", "secret", "x", "y", "0", "script"]).Asm.length - 2]? =
              some selector ∧
          (selector = "0" →
            5 ≤ (exampleTraced ["sig", "secret", "x", "y", "0", "script"]).Asm.length ∧
            ∃ token, (exampleTraced ["sig", "secret", "x", "y", "0", "script"]).Asm[
                (exampleTraced ["sig", "secret", "x", "y", "0", "script"]).Asm.length - 5]? =
                  some token ∧
              (exampleRecord "Type12" ["secret"]).Secrets = [token]) ∧
          (selector ≠ "0" → (exampleRecord "Type12" ["secret"]).Secrets = ["none"])) :=
  ⟨by decide, by decide,
    C14_secret_reveal_on_zero (exampleTraced ["sig", "secret", "x", "y", "0", "script"])
      [exampleTemplate "Type12"] "btc" (exampleRecord "Type12" ["secret"]) 5
      (by decide) (by decide)⟩

/-- C15: for a returned record whose type is Type2, Type4, Type6a or Type6b
(offset `k = 2`) or Type18 (`k = 3`) the Secrets are exactly the one token
`Asm[n-k]`, `n` being the length of the trace, whatever the other tokens of the
trace are. -/
theorem C15_secret_unconditional (PC : processedCandidate)
    (types : List filteredHTLCType) (chain : String) (h : htlc) (k : Nat)
    (hex : extractData PC types chain = .ok (.ok h))
    (hname : (h.Type_ ∈ ["Type2", "Type4", "Type6a", "Type6b"] ∧ k = 2) ∨
      (h.Type_ = "Type18" ∧ k = 3)) :
    k ≤ PC.Asm.length ∧
      ∃ token, PC.Asm[PC.Asm.length - k]? = some token ∧ h.Secrets = [token] := by
  have hsw := extractData_secrets PC types chain h hex
  rcases hname with ⟨hn, rfl⟩ | ⟨hn, rfl⟩
  · have hsw2 : secretAlways PC.Asm 2 = .ok h.Secrets := by
      simp only [List.mem_cons, List.mem_singleton, List.not_mem_nil, or_false] at hn
      rcases hn with hn | hn | hn | hn <;> rw [hn] at hsw <;> exact hsw
    exact secretAlways_ok PC.Asm 2 h.Secrets (by simpa using hsw2)
  · rw [hn] at hsw
    have hsw3 : secretAlways PC.Asm 3 = .ok h.Secrets := hsw
    exact secretAlways_ok PC.Asm 3 h.Secrets (by simpa using hsw3)

theorem C15_secret_unconditional_witness :
    extractData (exampleTraced ["sig", "secret", "0", "script"]) [exampleTemplate "Type18"]
        "btc" = .ok (.ok (exampleRecord "Type18" ["secret"])) ∧
      (((exampleRecord "Type18" ["secret"]).Type_ ∈ ["Type2", "Type4", "Type6a", "Type6b"] ∧
          3 = 2) ∨ ((exampleRecord "Type18" ["secret"]).Type_ = "Type18" ∧ 3 = 3)) ∧
      (3 ≤ (exampleTraced ["sig", "secret", "0", "script"]).Asm.length ∧
        ∃ token, (exampleTraced ["sig", "secret", "0", "script"]).Asm[
            (exampleTraced ["sig", "secret", "0", "script"]).Asm.length - 3]? = some token ∧
          (exampleRecord "Type18" ["secret"]).Secrets = [token]) :=
  ⟨by decide, by decide,
    C15_secret_unconditional (exampleTraced ["sig", "secret", "0", "script"])
      [exampleTemplate "Type18"] "btc" (exampleRecord "Type18" ["secret"]) 3
      (by decide) (by decide)⟩

/-- C16: for a returned record whose type is Type8a or Type8b the Secrets have
exactly 15 entries; if the selector `Asm[n-2]` is `0` all of them are `none`,
otherwise the `k`-th entry (counted from 0) is the trace token `Asm[15-k]`, so
the entries run from position 15 down to position 1. -/
theorem C16_secret_ranged (PC : processedCandidate)
    (types : List filteredHTLCType) (chain : String) (h : htlc)
    (hex : extractData PC types chain = .ok (.ok h))
    (hname : h.Type_ = "Type8a" ∨ h.Type_ = "Type8b") :
    2 ≤ PC.Asm.length ∧ h.Secrets.length = 15 ∧
      ∃ selector, PC.Asm[PC.Asm.length - 2]? = some selector ∧
        (selector = "0" → h.Secrets = List.replicate 15 "none") ∧
        (selector ≠ "0" → 16 ≤ PC.Asm.length ∧
          ∀ k, k < 15 → ∃ token, PC.Asm[15 - k]? = some token ∧
            h.Secrets[k]? = some token) := by
  have hsw := extractData_secrets PC types chain h hex
  have hr : secretRange PC.Asm = .ok h.Secrets := by
    rcases hname with hn | hn <;> rw [hn] at hsw <;> exact hsw
  exact secretRange_ok PC.Asm h.Secrets hr

theorem C16_secret_ranged_witness :
    extractData (exampleTraced (longTrace "1")) [exampleTemplate "Type8a"] "btc" =
        .ok (.ok (exampleRecord "Type8a" ["s15", "s14", "s13", "s12", "s11", "s10", "s9", "s8",
          "s7", "s6", "s5", "s4", "s3", "s2", "s1"])) ∧
      ((exampleRecord "Type8a" ["s15", "s14", "s13", "s12", "s11", "s10", "s9", "s8",
          "s7", "s6", "s5", "s4", "s3", "s2", "s1"]).Type_ = "Type8a" ∨
        (exampleRecord "Type8a" ["s15", "s14", "s13", "s12", "s11", "s10", "s9", "s8",
          "s7", "s6", "s5", "s4", "s3", "s2", "s1"]).Type_ = "Type8b") ∧
      (2 ≤ (exampleTraced (longTrace "1")).Asm.length ∧
        (exampleRecord "Type8a" ["s15", "s14", "s13", "s12", "s11", "s10", "s9", "s8",
          "s7", "s6", "s5", "s4", "s3", "s2", "s1"]).Secrets.length = 15 ∧
        ∃ selector, (exampleTraced (longTrace "1")).Asm[
            (exampleTraced (longTrace "1")).Asm.length - 2]? = some selector ∧
          (selector = "0" →
            (exampleRecord "Type8a" ["s15", "s14", "s13", "s12", "s11", "s10", "s9", "s8",
              "s7", "s6", "s5", "s4", "s3", "s2", "s1"]).Secrets = List.replicate 15 "none") ∧
          (selector ≠ "0" → 16 ≤ (exampleTraced (longTrace "1")).Asm.length ∧
            ∀ k, k < 15 → ∃ token, (exampleTraced (longTrace "1")).Asm[15 - k]? = some token ∧
              (exampleRecord "Type8a" ["s15", "s14", "s13", "s12", "s11", "s10", "s9", "s8",
                "s7", "s6", "s5", "s4", "s3", "s2", "s1"]).Secrets[k]? = some token)) :=
  ⟨by decide, by decide,
    C16_secret_ranged (exampleTraced (longTrace "1")) [exampleTemplate "Type8a"] "btc"
      (exampleRecord "Type8a" ["s15", "s14", "s13", "s12", "s11", "s10", "s9", "s8",
        "s7", "s6", "s5", "s4", "s3", "s2", "s1"]) (by decide) (by decide)⟩

theorem extractData_fits (PC : processedCandidate) (types : List filteredHTLCType)
    (chain : String) (h : htlc) (hex : extractData PC types chain = .ok (.ok h)) :
    ∃ (k : Nat) (t : filteredHTLCType), types[k]? = some t ∧ fits chain PC t ∧
      extractFields PC (remapOps chain PC.Ops) chain t.Name t = .ok h := by
  obtain ⟨k, t, hk, hlen, hne, hpre, hf⟩ := extractData_ok PC types chain h hex
  exact ⟨k, t, hk, ⟨hlen, hne, hpre⟩, hf⟩

theorem remapOp_hasSpace (op : String) (h : hasSpace (remapOp op) = true) : remapOp op = op := by
  by_cases h1 : op = "OP_SHA256"
  · subst h1; exact absurd h (by decide)
  · by_cases h2 : op = "OP_UNKNOWN192"
    · subst h2; exact absurd h (by decide)
    · simp [remapOp, h1, h2]

theorem remapOps_getElem (chain : String) (ops : List String) (i : Nat) (e : String)
    (h : (remapOps chain ops)[i]? = some e) :
    (chain ≠ "dcr" → ops[i]? = some e) ∧ (hasSpace e = true → ops[i]? = some e) := by
  unfold remapOps at h
  by_cases hc : chain = "dcr"
  · rw [if_pos hc, List.getElem?_map] at h
    refine ⟨fun hn => absurd hc hn, ?_⟩
    intro hsp
    cases hop : ops[i]? with
    | none => simp [hop] at h
    | some op =>
      simp only [hop, Option.map_some', Option.some.injEq] at h
      rw [← h] at hsp
      rw [← h, remapOp_hasSpace op hsp]
  · rw [if_neg hc] at h
    exact ⟨fun _ => h, fun _ => h⟩

theorem afterSpace_of_hasSpace (e : String) (h : hasSpace e = true) :
    afterSpace e = textAfterFirstSpace e := by
  simp [afterSpace, textAfterFirstSpace, h]

theorem afterSpace_of_noSpace (e : String) (h : hasSpace e = false) : afterSpace e = e := by
  simp [afterSpace, h]

theorem dropBytes_OP (rest : String) : String.mk (dropBytes ("OP_" ++ rest).data 3) = rest := by
  have hO : Char.utf8Size 'O' = 1 := by decide
  have hP : Char.utf8Size 'P' = 1 := by decide
  have hU : Char.utf8Size '_' = 1 := by decide
  have hdata : ("OP_" ++ rest).data = 'O' :: 'P' :: '_' :: rest.data := by
    rw [String.data_append]; rfl
  rw [hdata]
  simp [dropBytes, hO, hP, hU]

theorem timelockOf_ok (pcOps : List String) (pos : Int) (timelock : String)
    (h : timelockOf pcOps pos = .ok timelock) :
    ∃ e, 0 ≤ pos ∧ pcOps[pos.toNat]? = some e ∧
      (hasSpace e = true → timelock = textAfterFirstSpace e) ∧
      (hasSpace e = false → 3 ≤ e.utf8ByteSize ∧ timelock = String.mk (dropBytes e.data 3)) := by
  simp only [timelockOf] at h
  cases hidx : goIndex pcOps pos with
  | error err => simp [hidx] at h
  | ok e =>
    simp only [hidx] at h
    obtain ⟨h0, hget⟩ := (goIndex_ok pcOps pos e).mp hidx
    refine ⟨e, h0, hget, ?_, ?_⟩
    · intro hsp
      rw [if_pos hsp] at h
      simp only [Except.ok.injEq] at h
      rw [← h, afterSpace_of_hasSpace e hsp]
    · intro hsp
      rw [if_neg (by simp [hsp])] at h
      unfold sliceFrom3 at h
      by_cases hshort : e.utf8ByteSize < 3
      · simp [hshort] at h
      · rw [if_neg hshort] at h
        simp only [Except.ok.injEq] at h
        exact ⟨by omega, h.symm⟩

theorem payloadAt_ok (pcOps : List String) (pos : Int) (s : String)
    (h : payloadAt pcOps pos = .ok s) :
    ∃ e, 0 ≤ pos ∧ pcOps[pos.toNat]? = some e ∧ s = afterSpace e := by
  simp only [payloadAt] at h
  cases hidx : goIndex pcOps pos with
  | error err => simp [hidx] at h
  | ok e =>
    simp only [hidx, Except.ok.injEq] at h
    obtain ⟨h0, hget⟩ := (goIndex_ok pcOps pos e).mp hidx
    exact ⟨e, h0, hget, h.symm⟩

theorem payloadLoop_ok (pcOps : List String) :
    ∀ (poss : List Int) (acc out : List String), payloadLoop pcOps poss acc = .ok out →
      out.length = acc.length + poss.length ∧
        (∀ i, i < acc.length → out[i]? = acc[i]?) ∧
        ∀ i pos, poss[i]? = some pos →
          ∃ e, 0 ≤ pos ∧ pcOps[pos.toNat]? = some e ∧
            out[acc.length + i]? = some (afterSpace e) := by
  intro poss
  induction poss with
  | nil =>
    intro acc out h
    simp only [payloadLoop, Except.ok.injEq] at h
    subst h
    simp
  | cons pos rest ih =>
    intro acc out h
    simp only [payloadLoop] at h
    cases hp : payloadAt pcOps pos with
    | error err => simp [hp] at h
    | ok payload =>
      simp only [hp] at h
      obtain ⟨hlen, hacc, hrest⟩ := ih (acc ++ [payload]) out h
      obtain ⟨e, h0, hget, hpay⟩ := payloadAt_ok pcOps pos payload hp
      refine ⟨?_, ?_, ?_⟩
      · rw [hlen]; simp; omega
      · intro i hi
        rw [hacc i (by simp; omega), List.getElem?_append_left hi]
      · intro i pos1 hi
        cases i with
        | zero =>
          simp only [List.getElem?_cons_zero, Option.some.injEq] at hi
          subst hi
          refine ⟨e, h0, hget, ?_⟩
          rw [Nat.add_zero, hacc acc.length (by simp), hpay]
          simp
        | succ i1 =>
          simp only [List.getElem?_cons_succ] at hi
          obtain ⟨e1, h01, hget1, hout⟩ := hrest i1 pos1 hi
          refine ⟨e1, h01, hget1, ?_⟩
          rw [← hout]
          congr 1
          simp; omega

theorem payloadEntry_of (chain : String) (PC : processedCandidate) (pos : Int) (e : String)
    (h0 : 0 ≤ pos) (hget : (remapOps chain PC.Ops)[pos.toNat]? = some e) :
    payloadEntry chain PC pos (afterSpace e) :=
  ⟨e, h0, hget,
    fun hsp => ⟨(remapOps_getElem chain PC.Ops _ e hget).2 hsp, afterSpace_of_hasSpace e hsp⟩,
    fun hsp => afterSpace_of_noSpace e hsp⟩

theorem normaliseOp_collapse (chain op : String) (hsm : isSmallIntPush op = true)
    (h1 : op ≠ "OP_SHA256") (h2 : op ≠ "OP_UNKNOWN192") : normaliseOp chain op = "OP_" := by
  unfold normaliseOp
  by_cases hc : chain = "dcr" <;> simp [hsm, h1, h2, hc]

theorem normaliseOp_OP1to16 (chain op : String) (h : isOP1to16 op) :
    normaliseOp chain op = "OP_" := by
  obtain ⟨n, h1, h16, rfl⟩ := h
  interval_cases n <;>
    exact normaliseOp_collapse chain _ (by decide) (by decide) (by decide)

/-- C17: for a returned record there is a fitting template of the catalog that
gives the record its type, and with `e` the Ops element the function holds at
that template's locktime position (the loaded element on every ledger but
`dcr`, and on `dcr` too whenever it carries a payload), the Timelock is the
text after the first space of `e` when `e` carries a payload; otherwise `e` has
at least three bytes and the Timelock is `e` without its first three bytes, so
that `OP_` followed by any text decodes to that text, `OP_5` to `5` and `OP_16`
to `16`. -/
theorem C17_timelock_decoding (PC : processedCandidate) (types : List filteredHTLCType)
    (chain : String) (h : htlc) (hex : extractData PC types chain = .ok (.ok h)) :
    ∃ (k : Nat) (t : filteredHTLCType), types[k]? = some t ∧ fits chain PC t ∧
      h.Type_ = t.Name ∧
      ∃ e, 0 ≤ t.LocktimePos ∧ (remapOps chain PC.Ops)[t.LocktimePos.toNat]? = some e ∧
        (chain ≠ "dcr" → PC.Ops[t.LocktimePos.toNat]? = some e) ∧
        (hasSpace e = true →
          PC.Ops[t.LocktimePos.toNat]? = some e ∧ h.Timelock = textAfterFirstSpace e) ∧
        (hasSpace e = false → 3 ≤ e.utf8ByteSize ∧
          h.Timelock = String.mk (dropBytes e.data 3) ∧
          ∀ rest, e = "OP_" ++ rest → h.Timelock = rest) ∧
        (e = "OP_5" → h.Timelock = "5") ∧ (e = "OP_16" → h.Timelock = "16") := by
  obtain ⟨k, t, hk, hfits, hf⟩ := extractData_fits PC types chain h hex
  have hall := extractFields_ok PC _ chain t.Name t h hf
  obtain ⟨e, h0, hget, hpay, hbare⟩ := timelockOf_ok _ _ _ hall.1
  have hrem := remapOps_getElem chain PC.Ops _ e hget
  have hrest : hasSpace e = false → ∀ rest, e = "OP_" ++ rest → h.Timelock = rest := by
    intro hsp rest he
    rw [(hbare hsp).2, he, dropBytes_OP]
  refine ⟨k, t, hk, hfits, hall.2.2.2.2.2.2.2.2.2.2.2, e, h0, hget, hrem.1, ?_, ?_, ?_, ?_⟩
  · exact fun hsp => ⟨hrem.2 hsp, hpay hsp⟩
  · exact fun hsp => ⟨(hbare hsp).1, (hbare hsp).2, hrest hsp⟩
  · intro he
    exact hrest (by rw [he]; decide) "5" (by rw [he]; decide)
  · intro he
    exact hrest (by rw [he]; decide) "16" (by rw [he]; decide)

theorem C17_timelock_decoding_witness :
    extractData (exampleTraced ["sig", "secret", "1", "script"]) [exampleTemplate "Type1a"]
        "btc" = .ok (.ok (exampleRecord "Type1a" ["secret"])) ∧
      (exampleTraced ["sig", "secret", "1", "script"]).Ops[2]? = some "OP_16" ∧
      (exampleRecord "Type1a" ["secret"]).Timelock = "16" ∧
      ∃ (k : Nat) (t : filteredHTLCType), [exampleTemplate "Type1a"][k]? = some t ∧
        fits "btc" (exampleTraced ["sig", "secret", "1", "script"]) t ∧
        (exampleRecord "Type1a" ["secret"]).Type_ = t.Name ∧
        ∃ e, 0 ≤ t.LocktimePos ∧
          (remapOps "btc" (exampleTraced ["sig", "secret", "1", "script"]).Ops)[
            t.LocktimePos.toNat]? = some e ∧
          ("btc" ≠ "dcr" →
            (exampleTraced ["sig", "secret", "1", "script"]).Ops[t.LocktimePos.toNat]? =
              some e) ∧
          (hasSpace e = true →
            (exampleTraced ["sig", "secret", "1", "script"]).Ops[t.LocktimePos.toNat]? =
              some e ∧
            (exampleRecord "Type1a" ["secret"]).Timelock = textAfterFirstSpace e) ∧
          (hasSpace e = false → 3 ≤ e.utf8ByteSize ∧
            (exampleRecord "Type1a" ["secret"]).Timelock = String.mk (dropBytes e.data 3) ∧
            ∀ rest, e = "OP_" ++ rest → (exampleRecord "Type1a" ["secret"]).Timelock = rest) ∧
          (e = "OP_5" → (exampleRecord "Type1a" ["secret"]).Timelock = "5") ∧
          (e = "OP_16" → (exampleRecord "Type1a" ["secret"]).Timelock = "16") :=
  ⟨by decide, by decide, by decide,
    C17_timelock_decoding (exampleTraced ["sig", "secret", "1", "script"])
      [exampleTemplate "Type1a"] "btc" (exampleRecord "Type1a" ["secret"]) (by decide)⟩

/-- C18 as stated fails: the template's `public_key2_pos` names the element
`OP_IF`, which has no space; the record's PubKey2 is the whole element `OP_IF`
and not the (empty) text after its first space. -/
theorem C18_counterexample_no_payload :
    extractData (exampleTraced ["sig", "secret", "1", "script"])
        [{ exampleTemplate "Type1a" with PublicKey2Pos := 0 }] "btc" =
      .ok (.ok { exampleRecord "Type1a" ["secret"] with PubKey2 := "OP_IF" }) ∧
      (exampleTraced ["sig", "secret", "1", "script"]).Ops[0]? = some "OP_IF" ∧
      textAfterFirstSpace "OP_IF" = "" ∧
      ({ exampleRecord "Type1a" ["secret"] with PubKey2 := "OP_IF" } : htlc).PubKey2 ≠
        textAfterFirstSpace "OP_IF" := by
  decide

/-- C18 (amended): for a returned record there is a fitting template of the
catalog that gives the record its type; PubKeys1 has the length of that
template's `public_keys1_pos` list and SecretHashes the length of its
`secrethash_pos` list; the `i`-th entry of each is read at the `i`-th listed
position, and PubKey2 is read at `public_key2_pos`, where reading at a position
(`payloadEntry`) yields the text after the first space of the Ops element when
the element has a space, and the whole element when it has none. -/
theorem C18_payloads_in_template_order (PC : processedCandidate)
    (types : List filteredHTLCType) (chain : String) (h : htlc)
    (hex : extractData PC types chain = .ok (.ok h)) :
    ∃ (k : Nat) (t : filteredHTLCType), types[k]? = some t ∧ fits chain PC t ∧
      h.Type_ = t.Name ∧
      h.PubKeys1.length = t.PublicKeys1Pos.length ∧
      h.SecretHashes.length = t.SecrethashPos.length ∧
      (∀ (i : Nat) (pos : Int), t.PublicKeys1Pos[i]? = some pos →
        ∃ s, h.PubKeys1[i]? = some s ∧ payloadEntry chain PC pos s) ∧
      (∀ (i : Nat) (pos : Int), t.SecrethashPos[i]? = some pos →
        ∃ s, h.SecretHashes[i]? = some s ∧ payloadEntry chain PC pos s) ∧
      payloadEntry chain PC t.PublicKey2Pos h.PubKey2 := by
  obtain ⟨k, t, hk, hfits, hf⟩ := extractData_fits PC types chain h hex
  have hall := extractFields_ok PC _ chain t.Name t h hf
  obtain ⟨hlen1, _, hent1⟩ := payloadLoop_ok _ _ _ _ hall.2.1
  obtain ⟨hlen2, _, hent2⟩ := payloadLoop_ok _ _ _ _ hall.2.2.2.1
  obtain ⟨e2, h02, hget2, hpay2⟩ := payloadAt_ok _ _ _ hall.2.2.1
  refine ⟨k, t, hk, hfits, hall.2.2.2.2.2.2.2.2.2.2.2, by simpa using hlen1,
    by simpa using hlen2, ?_, ?_, ?_⟩
  · intro i pos hi
    obtain ⟨e, h0, hget, hout⟩ := hent1 i pos hi
    exact ⟨afterSpace e, by simpa using hout, payloadEntry_of chain PC pos e h0 hget⟩
  · intro i pos hi
    obtain ⟨e, h0, hget, hout⟩ := hent2 i pos hi
    exact ⟨afterSpace e, by simpa using hout, payloadEntry_of chain PC pos e h0 hget⟩
  · rw [hpay2]
    exact payloadEntry_of chain PC _ e2 h02 hget2

theorem C18_payloads_in_template_order_witness :
    extractData (exampleTraced ["sig", "secret", "1", "script"]) [exampleTemplate "Type1a"]
        "btc" = .ok (.ok (exampleRecord "Type1a" ["secret"])) ∧
      (exampleRecord "Type1a" ["secret"]).PubKeys1 = ["abcd"] ∧
      textAfterFirstSpace "OP_DATA_20 abcd" = "abcd" ∧
      ∃ (k : Nat) (t : filteredHTLCType), [exampleTemplate "Type1a"][k]? = some t ∧
        fits "btc" (exampleTraced ["sig", "secret", "1", "script"]) t ∧
        (exampleRecord "Type1a" ["secret"]).Type_ = t.Name ∧
        (exampleRecord "Type1a" ["secret"]).PubKeys1.length = t.PublicKeys1Pos.length ∧
        (exampleRecord "Type1a" ["secret"]).SecretHashes.length = t.SecrethashPos.length ∧
        (∀ (i : Nat) (pos : Int), t.PublicKeys1Pos[i]? = some pos →
          ∃ s, (exampleRecord "Type1a" ["secret"]).PubKeys1[i]? = some s ∧
            payloadEntry "btc" (exampleTraced ["sig", "secret", "1", "script"]) pos s) ∧
        (∀ (i : Nat) (pos : Int), t.SecrethashPos[i]? = some pos →
          ∃ s, (exampleRecord "Type1a" ["secret"]).SecretHashes[i]? = some s ∧
            payloadEntry "btc" (exampleTraced ["sig", "secret", "1", "script"]) pos s) ∧
        payloadEntry "btc" (exampleTraced ["sig", "secret", "1", "script"]) t.PublicKey2Pos
          (exampleRecord "Type1a" ["secret"]).PubKey2 :=
  ⟨by decide, by decide, by decide,
    C18_payloads_in_template_order (exampleTraced ["sig", "secret", "1", "script"])
      [exampleTemplate "Type1a"] "btc" (exampleRecord "Type1a" ["secret"]) (by decide)⟩

/-- C19: a returned record carries the candidate's Block, Timestamp,
Transaction, InputTx and InputValue unchanged, its Chain is the ledger
identifier passed to `extractData`, and its Type is the name of a template of
the catalog that fits the candidate. -/
theorem C19_identity_fields_copied (PC : processedCandidate)
    (types : List filteredHTLCType) (chain : String) (h : htlc)
    (hex : extractData PC types chain = .ok (.ok h)) :
    h.Block = PC.Block ∧ h.Timestamp = PC.Timestamp ∧ h.Transaction = PC.Transaction ∧
      h.InputTx = PC.InputTx ∧ h.InputValue = PC.InputValue ∧ h.Chain = chain ∧
      ∃ (k : Nat) (t : filteredHTLCType), types[k]? = some t ∧ fits chain PC t ∧
        h.Type_ = t.Name := by
  obtain ⟨k, t, hk, hfits, hf⟩ := extractData_fits PC types chain h hex
  have hall := extractFields_ok PC _ chain t.Name t h hf
  obtain ⟨_, _, _, _, _, hchain, hblock, hts, htx, hin, hval, hname⟩ := hall
  exact ⟨hblock, hts, htx, hin, hval, hchain, k, t, hk, hfits, hname⟩

theorem C19_identity_fields_copied_witness :
    extractData (exampleTraced ["sig", "secret", "1", "script"]) [exampleTemplate "Type1a"]
        "btc" = .ok (.ok (exampleRecord "Type1a" ["secret"])) ∧
      ((exampleRecord "Type1a" ["secret"]).Block =
          (exampleTraced ["sig", "secret", "1", "script"]).Block ∧
        (exampleRecord "Type1a" ["secret"]).Timestamp =
          (exampleTraced ["sig", "secret", "1", "script"]).Timestamp ∧
        (exampleRecord "Type1a" ["secret"]).Transaction =
          (exampleTraced ["sig", "secret", "1", "script"]).Transaction ∧
        (exampleRecord "Type1a" ["secret"]).InputTx =
          (exampleTraced ["sig", "secret", "1", "script"]).InputTx ∧
        (exampleRecord "Type1a" ["secret"]).InputValue =
          (exampleTraced ["sig", "secret", "1", "script"]).InputValue ∧
        (exampleRecord "Type1a" ["secret"]).Chain = "btc" ∧
        ∃ (k : Nat) (t : filteredHTLCType), [exampleTemplate "Type1a"][k]? = some t ∧
          fits "btc" (exampleTraced ["sig", "secret", "1", "script"]) t ∧
          (exampleRecord "Type1a" ["secret"]).Type_ = t.Name) :=
  ⟨by decide,
    C19_identity_fields_copied (exampleTraced ["sig", "secret", "1", "script"])
      [exampleTemplate "Type1a"] "btc" (exampleRecord "Type1a" ["secret"]) (by decide)⟩

/-- C20: for every ledger and every `n` from 1 to 16 the classifier's normaliser
rewrites the element `OP_n` to `OP_`, and two Ops sequences of the same length
that differ only in which of `OP_1` .. `OP_16` stands at some positions have
the same normalised signature. -/
theorem C20_small_int_pushes_collapse (chain : String) (n : Nat) (hn1 : 1 ≤ n) (hn16 : n ≤ 16)
    (ops1 ops2 : List String)
    (hrel : List.Forall₂ (fun a b => a = b ∨ (isOP1to16 a ∧ isOP1to16 b)) ops1 ops2) :
    normaliseOp chain ("OP_" ++ toString n) = "OP_" ∧
      normalise chain ops1 = normalise chain ops2 := by
  refine ⟨normaliseOp_OP1to16 chain _ ⟨n, hn1, hn16, rfl⟩, ?_⟩
  unfold normalise
  induction hrel with
  | nil => rfl
  | cons hab _ ih =>
    rw [List.map_cons, List.map_cons, ih]
    congr 1
    rcases hab with rfl | ⟨ha, hb⟩
    · rfl
    · rw [normaliseOp_OP1to16 chain _ ha, normaliseOp_OP1to16 chain _ hb]

theorem C20_small_int_pushes_collapse_witness :
    1 ≤ 16 ∧ 16 ≤ 16 ∧
      List.Forall₂ (fun a b => a = b ∨ (isOP1to16 a ∧ isOP1to16 b))
        ["OP_IF", "OP_5", "OP_DATA_20 ab"] ["OP_IF", "OP_16", "OP_DATA_20 ab"] ∧
      (normaliseOp "dcr" ("OP_" ++ toString 16) = "OP_" ∧
        normalise "dcr" ["OP_IF", "OP_5", "OP_DATA_20 ab"] =
          normalise "dcr" ["OP_IF", "OP_16", "OP_DATA_20 ab"]) :=
  have hrel : List.Forall₂ (fun a b => a = b ∨ (isOP1to16 a ∧ isOP1to16 b))
      ["OP_IF", "OP_5", "OP_DATA_20 ab"] ["OP_IF", "OP_16", "OP_DATA_20 ab"] :=
    List.Forall₂.cons (Or.inl rfl)
      (List.Forall₂.cons (Or.inr ⟨⟨5, by decide, by decide, by decide⟩,
          ⟨16, by decide, by decide, by decide⟩⟩)
        (List.Forall₂.cons (Or.inl rfl) List.Forall₂.nil))
  ⟨by decide, by decide, hrel,
    C20_small_int_pushes_collapse "dcr" 16 (by decide) (by decide) _ _ hrel⟩

/-! ## Lemmas on the pre-filter -/

theorem flagsLoop_eq (ops : List String) :
    ∀ flags : FilterFlags, flagsLoop ops flags =
      { foundEqual := flags.foundEqual ||
          ops.any (fun op => decide (op = "OP_EQUAL" ∨ op = "OP_EQUALVERIFY")),
        foundIf := flags.foundIf || ops.any (fun op => decide (op = "OP_IF")),
        foundSig := flags.foundSig ||
          ops.any (fun op => decide (op = "OP_CHECKSIG" ∨ op = "OP_CHECKSIGVERIFY")) } := by
  induction ops with
  | nil => intro flags; simp [flagsLoop]
  | cons op rest ih =>
    intro flags
    simp only [flagsLoop, ih, List.any_cons]
    by_cases h1 : op = "OP_EQUAL" ∨ op = "OP_EQUALVERIFY" <;>
      by_cases h2 : op = "OP_IF" <;>
      by_cases h3 : op = "OP_CHECKSIG" ∨ op = "OP_CHECKSIGVERIFY" <;>
      simp [h1, h2, h3]

theorem filterLoop_eq (cands : List processedCandidate) :
    ∀ thisPCs : List processedCandidate,
      filterLoop cands thisPCs = thisPCs ++ cands.filter keepsCandidate := by
  induction cands with
  | nil => intro thisPCs; simp [filterLoop]
  | cons c rest ih =>
    intro thisPCs
    have hflags : ((flagsLoop c.Ops
          { foundEqual := false, foundIf := false, foundSig := false }).foundEqual
        && (flagsLoop c.Ops { foundEqual := false, foundIf := false, foundSig := false }).foundIf
        && (flagsLoop c.Ops { foundEqual := false, foundIf := false, foundSig := false }).foundSig)
        = keepsCandidate c := by
      rw [flagsLoop_eq]
      simp only [Bool.false_or, keepsCandidate]
    rw [filterLoop]
    simp only [hflags]
    by_cases hk : keepsCandidate c = true
    · rw [if_pos hk, ih, List.filter_cons_of_pos hk]
      simp
    · rw [if_neg hk, ih, List.filter_cons_of_neg hk]

/-! ## Further lemmas on the correlator -/

theorem innerLoop_fault (parse : String → Option Int) (chain1 chain2 : String)
    (B : List htlc) :
    ∀ (cur : ProcessingHTLC) (AS : List AtomicSwap),
      (∃ b ∈ B, ∃ e, pairRule parse cur.ThisHTLC b = .error e) →
      ∃ e, innerLoop parse chain1 chain2 (toProcessing B) cur AS = .error e := by
  induction B with
  | nil => intro cur AS h; simp at h
  | cons b rest ih =>
    intro cur AS h
    simp only [toProcessing, List.map_cons, innerLoop, if_true]
    cases hr : pairRule parse cur.ThisHTLC b with
    | error e => exact ⟨e, rfl⟩
    | ok r =>
      have hrest : ∃ b1 ∈ rest, ∃ e, pairRule parse cur.ThisHTLC b1 = .error e := by
        obtain ⟨b1, hb1, e, he⟩ := h
        rcases List.mem_cons.mp hb1 with rfl | hmem
        · rw [hr] at he; exact absurd he (by simp)
        · exact ⟨b1, hmem, e, he⟩
      cases r with
      | true => exact ih { cur with Processed := true } _ hrest
      | false => exact ih cur AS hrest

theorem outerLoop_fault (parse : String → Option Int) (chain1 chain2 : String)
    (B : List htlc) :
    ∀ (A : List htlc) (AS : List AtomicSwap),
      (∃ a ∈ A, ∃ b ∈ B, ∃ e, pairRule parse a b = .error e) →
      ∃ e, outerLoop parse chain1 chain2 (toProcessing B) (toProcessing A) AS = .error e := by
  intro A
  induction A with
  | nil => intro AS h; simp at h
  | cons a0 rest ih =>
    intro AS h
    simp only [toProcessing, List.map_cons, outerLoop, if_true]
    cases hin : innerLoop parse chain1 chain2 (List.map (fun currentHTLC =>
        ({ ThisHTLC := currentHTLC, Processed := false } : ProcessingHTLC)) B)
        { ThisHTLC := a0, Processed := false } AS with
    | error e => exact ⟨e, rfl⟩
    | ok r =>
      obtain ⟨a, ha, b, hb, e, he⟩ := h
      rcases List.mem_cons.mp ha with rfl | hmem
      · obtain ⟨e1, he1⟩ := innerLoop_fault parse chain1 chain2 B
          { ThisHTLC := a, Processed := false } AS ⟨b, hb, e, he⟩
        simp only [toProcessing] at he1
        rw [hin] at he1
        exact absurd he1 (by simp)
      · exact ih r.2 ⟨a, hmem, b, hb, e, he⟩

theorem scanList_length (parse : String → Option Int) (chain1 chain2 : String)
    (A B : List htlc) :
    (scanList parse chain1 chain2 A B).length =
      ((List.product A B).filter
        (fun p => decide (pairRule parse p.1 p.2 = .ok true))).length := by
  induction A with
  | nil => simp [scanList, List.product]
  | cons a rest ih =>
    have hhead : ((List.map (Prod.mk a) B).filter
          (fun p => decide (pairRule parse p.1 p.2 = .ok true))).length =
        (B.filter (fun b => decide (pairRule parse a b = .ok true))).length := by
      rw [List.filter_map, List.length_map]
      rfl
    have hprod : (a :: rest).product B = List.map (Prod.mk a) B ++ rest.product B :=
      List.product_cons a rest B
    rw [hprod, List.filter_append, List.length_append, hhead, ← ih]
    simp [scanList]

/-- A comparison that stops anywhere in the six scans stops the whole run. -/
theorem correlate_fault (parse : String → Option Int) (btc ltc bch dcr : List htlc)
    (a b : htlc) (e0 : Fault) (hp : pairRule parse a b = .error e0)
    (hmem : (a ∈ btc ∧ b ∈ ltc) ∨ (a ∈ btc ∧ b ∈ bch) ∨ (a ∈ btc ∧ b ∈ dcr) ∨
      (a ∈ ltc ∧ b ∈ bch) ∨ (a ∈ ltc ∧ b ∈ dcr) ∨ (a ∈ bch ∧ b ∈ dcr)) :
    ∃ e, correlate parse btc ltc bch dcr = .error e := by
  have key : ∀ (c1 c2 : String) (A B : List htlc) (AS r : List AtomicSwap), a ∈ A → b ∈ B →
      outerLoop parse c1 c2 (toProcessing B) (toProcessing A) AS ≠ .ok r := by
    intro c1 c2 A B AS r hA hB hok
    obtain ⟨e, he⟩ := outerLoop_fault parse c1 c2 B A AS ⟨a, hA, b, hB, e0, hp⟩
    rw [he] at hok
    exact absurd hok (by simp)
  simp only [correlate, chainLoop, chainPair]
  cases h1 : outerLoop parse "BTC" "LTC" (toProcessing ltc) (toProcessing btc) [] with
  | error e => exact ⟨e, rfl⟩
  | ok AS1 =>
    dsimp only
    cases h2 : outerLoop parse "BTC" "BCH" (toProcessing bch) (toProcessing btc) AS1 with
    | error e => exact ⟨e, rfl⟩
    | ok AS2 =>
      dsimp only
      cases h3 : outerLoop parse "BTC" "DCR" (toProcessing dcr) (toProcessing btc) AS2 with
      | error e => exact ⟨e, rfl⟩
      | ok AS3 =>
        dsimp only
        cases h4 : outerLoop parse "LTC" "BCH" (toProcessing bch) (toProcessing ltc) AS3 with
        | error e => exact ⟨e, rfl⟩
        | ok AS4 =>
          dsimp only
          cases h5 : outerLoop parse "LTC" "DCR" (toProcessing dcr) (toProcessing ltc) AS4 with
          | error e => exact ⟨e, rfl⟩
          | ok AS5 =>
            dsimp only
            cases h6 : outerLoop parse "BCH" "DCR" (toProcessing dcr) (toProcessing bch) AS5 with
            | error e => exact ⟨e, rfl⟩
            | ok AS6 =>
              exfalso
              rcases hmem with ⟨hA, hB⟩ | ⟨hA, hB⟩ | ⟨hA, hB⟩ | ⟨hA, hB⟩ | ⟨hA, hB⟩ | ⟨hA, hB⟩
              · exact key _ _ _ _ _ _ hA hB h1
              · exact key _ _ _ _ _ _ hA hB h2
              · exact key _ _ _ _ _ _ hA hB h3
              · exact key _ _ _ _ _ _ hA hB h4
              · exact key _ _ _ _ _ _ hA hB h5
              · exact key _ _ _ _ _ _ hA hB h6

/-! ## Further lemmas on the classifier -/

theorem registerType_distinct (PC : processedCandidate) (types : List htlcType)
    (chain : String) (hne : PC.Ops ≠ []) (hd : distinctSignatures types) :
    ∃ types1, registerType PC types chain = .ok types1 ∧ distinctSignatures types1 := by
  by_cases hex : ∃ t ∈ types, t.Ops = normalise chain PC.Ops
  · exact ⟨types, registerType_known PC types chain hne hex, hd⟩
  · have hall : ∀ t ∈ types, t.Ops ≠ normalise chain PC.Ops :=
      fun t ht heq => hex ⟨t, ht, heq⟩
    have hloop := typesLoop_new (normalise chain PC.Ops) types hall
    rw [normalise_length] at hloop
    refine ⟨types ++ [{ Name := "Type " ++ toString (types.length + 1),
                        Ops := normalise chain PC.Ops }],
      by simp only [registerType, hloop], ?_⟩
    unfold distinctSignatures at hd ⊢
    rw [List.pairwise_append]
    refine ⟨hd, by simp, ?_⟩
    intro a ha b hb
    simp only [List.mem_singleton] at hb
    subst hb
    exact hall a ha

theorem registerLoop_distinct (chain : String) (pcs : List processedCandidate) :
    ∀ types : List htlcType, (∀ PC ∈ pcs, PC.Ops ≠ []) → distinctSignatures types →
      ∃ types1, registerLoop chain pcs types = .ok types1 ∧ distinctSignatures types1 := by
  induction pcs with
  | nil => intro types _ hd; exact ⟨types, rfl, hd⟩
  | cons PC rest ih =>
    intro types hne hd
    obtain ⟨types1, h1, hd1⟩ :=
      registerType_distinct PC types chain (hne PC (List.mem_cons_self _ _)) hd
    obtain ⟨types2, h2, hd2⟩ := ih types1 (fun P hP => hne P (List.mem_cons_of_mem _ hP)) hd1
    exact ⟨types2, by simp only [registerLoop, h1, h2], hd2⟩

/-! ## Claims on the classifier's element rules -/

/-- For every ledger and every Ops element with a space that the test of line 83
does not select (the element as a whole is neither 4 bytes long nor a 5-byte
text that starts with `OP_1`), in particular for every such element of at
least 6 bytes, the classifier's normaliser outputs exactly the text before the
first space. -/
theorem normaliseOp_payload_stripped (chain op : String) (hsp : hasSpace op = true) :
    (isSmallIntPush op = false → normaliseOp chain op = beforeSpace op) ∧
      (6 ≤ op.utf8ByteSize → normaliseOp chain op = beforeSpace op) := by
  have hne1 : op ≠ "OP_SHA256" := by
    rintro rfl; exact absurd hsp (by decide)
  have hne2 : op ≠ "OP_UNKNOWN192" := by
    rintro rfl; exact absurd hsp (by decide)
  have hmain : isSmallIntPush op = false → normaliseOp chain op = beforeSpace op := by
    intro hns
    unfold normaliseOp
    by_cases hc : chain = "dcr" <;> simp [hsp, hns, hne1, hne2, hc]
  refine ⟨hmain, ?_⟩
  intro hlen
  apply hmain
  simp only [isSmallIntPush, Bool.or_eq_false_iff, Bool.and_eq_false_iff, beq_eq_false_iff_ne]
  exact ⟨by omega, Or.inl (by omega)⟩

/-- C26: for the ledger `dcr` the normaliser of the classifier and the remap of
the extractor rewrite the element `OP_SHA256` to `OP_BLAKE256` and the element
`OP_UNKNOWN192` to `OP_SHA256` (not on to `OP_BLAKE256`); for every other
ledger identifier both stages leave both elements unchanged. -/
theorem C26_hash_remap_is_a_swap (chain : String) (hc : chain ≠ "dcr") :
    normaliseOp "dcr" "OP_SHA256" = "OP_BLAKE256" ∧
      normaliseOp "dcr" "OP_UNKNOWN192" = "OP_SHA256" ∧
      normaliseOp "dcr" "OP_UNKNOWN192" ≠ "OP_BLAKE256" ∧
      normalise "dcr" ["OP_SHA256", "OP_UNKNOWN192"] = ["OP_BLAKE256", "OP_SHA256"] ∧
      remapOps "dcr" ["OP_SHA256", "OP_UNKNOWN192"] = ["OP_BLAKE256", "OP_SHA256"] ∧
      extractorSignature "dcr" ["OP_SHA256", "OP_UNKNOWN192"] = ["OP_BLAKE256", "OP_SHA256"] ∧
      normaliseOp chain "OP_SHA256" = "OP_SHA256" ∧
      normaliseOp chain "OP_UNKNOWN192" = "OP_UNKNOWN192" ∧
      remapOps chain ["OP_SHA256", "OP_UNKNOWN192"] = ["OP_SHA256", "OP_UNKNOWN192"] ∧
      extractorSignature chain ["OP_SHA256", "OP_UNKNOWN192"] =
        ["OP_SHA256", "OP_UNKNOWN192"] := by
  have h1 : normaliseOp chain "OP_SHA256" = "OP_SHA256" :=
    normaliseOp_fixed chain _ (by decide) (by decide) (fun h => absurd h hc)
  have h2 : normaliseOp chain "OP_UNKNOWN192" = "OP_UNKNOWN192" :=
    normaliseOp_fixed chain _ (by decide) (by decide) (fun h => absurd h hc)
  have h3 : remapOps chain ["OP_SHA256", "OP_UNKNOWN192"] = ["OP_SHA256", "OP_UNKNOWN192"] := by
    simp [remapOps, hc]
  refine ⟨by decide, by decide, by decide, by decide, by decide, by decide, h1, h2, h3, ?_⟩
  unfold extractorSignature
  rw [h3]
  decide

theorem C26_hash_remap_is_a_swap_witness :
    "btc" ≠ "dcr" ∧ normaliseOp "btc" "OP_SHA256" = "OP_SHA256" ∧
      normaliseOp "btc" "OP_UNKNOWN192" = "OP_UNKNOWN192" ∧
      normaliseOp "dcr" "OP_UNKNOWN192" = "OP_SHA256" :=
  ⟨by decide, (C26_hash_remap_is_a_swap "btc" (by decide)).2.2.2.2.2.2.1,
    (C26_hash_remap_is_a_swap "btc" (by decide)).2.2.2.2.2.2.2.1,
    (C26_hash_remap_is_a_swap "btc" (by decide)).2.1⟩

/-- C28: if no two entries of a catalog have equal signatures, then
`registerType` on a candidate with non-empty Ops returns a catalog in which no
two entries have equal signatures; hence the classifier run over four lists of
candidates with non-empty Ops, started from such a catalog (in particular from
the empty one), returns a catalog without a duplicate signature. -/
theorem C28_signatures_stay_distinct (PC : processedCandidate) (types : List htlcType)
    (chain : String) (pcsBTC pcsLTC pcsBCH pcsDCR : List processedCandidate)
    (hd : distinctSignatures types) (hne : PC.Ops ≠ [])
    (hall : ∀ P ∈ pcsBTC ++ pcsLTC ++ pcsBCH ++ pcsDCR, P.Ops ≠ []) :
    (∃ types1, registerType PC types chain = .ok types1 ∧ distinctSignatures types1) ∧
      (∃ out, registerAll pcsBTC pcsLTC pcsBCH pcsDCR types = .ok out ∧
        distinctSignatures out) ∧
      (∃ out, registerAll pcsBTC pcsLTC pcsBCH pcsDCR [] = .ok out ∧
        distinctSignatures out) := by
  have hrun : ∀ start : List htlcType, distinctSignatures start →
      ∃ out, registerAll pcsBTC pcsLTC pcsBCH pcsDCR start = .ok out ∧
        distinctSignatures out := by
    intro start hstart
    obtain ⟨t1, h1, hd1⟩ := registerLoop_distinct "btc" pcsBTC start
      (fun P hP => hall P (by simp [hP])) hstart
    obtain ⟨t2, h2, hd2⟩ := registerLoop_distinct "ltc" pcsLTC t1
      (fun P hP => hall P (by simp [hP])) hd1
    obtain ⟨t3, h3, hd3⟩ := registerLoop_distinct "bch" pcsBCH t2
      (fun P hP => hall P (by simp [hP])) hd2
    obtain ⟨t4, h4, hd4⟩ := registerLoop_distinct "dcr" pcsDCR t3
      (fun P hP => hall P (by simp [hP])) hd3
    exact ⟨t4, by simp only [registerAll, h1, h2, h3, h4], hd4⟩
  exact ⟨registerType_distinct PC types chain hne hd, hrun types hd,
    hrun [] (by unfold distinctSignatures; exact List.Pairwise.nil)⟩

theorem C28_signatures_stay_distinct_witness :
    distinctSignatures [{ Name := "Type 1", Ops := ["OP_IF", "OP_"] }] ∧
      (exampleCandidate ["OP_IF", "OP_7"]).Ops ≠ [] ∧
      (∀ P ∈ [exampleCandidate ["OP_IF", "OP_5"], exampleCandidate ["OP_IF", "OP_6"]] ++
          [exampleCandidate ["OP_ELSE"]] ++ [] ++ [exampleCandidate ["OP_IF", "OP_UNKNOWN192"]],
        P.Ops ≠ []) ∧
      registerAll [exampleCandidate ["OP_IF", "OP_5"], exampleCandidate ["OP_IF", "OP_6"]]
          [exampleCandidate ["OP_ELSE"]] [] [exampleCandidate ["OP_IF", "OP_UNKNOWN192"]] [] =
        .ok [{ Name := "Type 1", Ops := ["OP_IF", "OP_"] },
             { Name := "Type 2", Ops := ["OP_ELSE"] },
             { Name := "Type 3", Ops := ["OP_IF", "OP_SHA256"] }] ∧
      ((∃ types1, registerType (exampleCandidate ["OP_IF", "OP_7"])
            [{ Name := "Type 1", Ops := ["OP_IF", "OP_"] }] "btc" = .ok types1 ∧
          distinctSignatures types1) ∧
        (∃ out, registerAll
            [exampleCandidate ["OP_IF", "OP_5"], exampleCandidate ["OP_IF", "OP_6"]]
            [exampleCandidate ["OP_ELSE"]] [] [exampleCandidate ["OP_IF", "OP_UNKNOWN192"]]
            [{ Name := "Type 1", Ops := ["OP_IF", "OP_"] }] = .ok out ∧
          distinctSignatures out) ∧
        (∃ out, registerAll
            [exampleCandidate ["OP_IF", "OP_5"], exampleCandidate ["OP_IF", "OP_6"]]
            [exampleCandidate ["OP_ELSE"]] [] [exampleCandidate ["OP_IF", "OP_UNKNOWN192"]]
            [] = .ok out ∧
          distinctSignatures out)) :=
  ⟨by decide, by decide, by decide, by decide,
    C28_signatures_stay_distinct (exampleCandidate ["OP_IF", "OP_7"])
      [{ Name := "Type 1", Ops := ["OP_IF", "OP_"] }] "btc"
      [exampleCandidate ["OP_IF", "OP_5"], exampleCandidate ["OP_IF", "OP_6"]]
      [exampleCandidate ["OP_ELSE"]] [] [exampleCandidate ["OP_IF", "OP_UNKNOWN192"]]
      (by decide) (by decide) (by decide)⟩

/-! ## Claim on the pre-filter -/

/-- C30: the pre-filter returns exactly the candidates whose Ops contain an
element equal to `OP_EQUAL` or `OP_EQUALVERIFY`, an element equal to `OP_IF`
and an element equal to `OP_CHECKSIG` or `OP_CHECKSIGVERIFY`, unmodified and in
their original order; a candidate that lacks one of the three is discarded. -/
theorem C30_prefilter (cands : List processedCandidate) :
    filterHTLCs cands = cands.filter keepsCandidate ∧
      (filterHTLCs cands).Sublist cands ∧
      ∀ c, c ∈ filterHTLCs cands ↔
        c ∈ cands ∧ (∃ op ∈ c.Ops, op = "OP_EQUAL" ∨ op = "OP_EQUALVERIFY") ∧
          "OP_IF" ∈ c.Ops ∧ (∃ op ∈ c.Ops, op = "OP_CHECKSIG" ∨ op = "OP_CHECKSIGVERIFY") := by
  have heq : filterHTLCs cands = cands.filter keepsCandidate := by
    unfold filterHTLCs
    rw [filterLoop_eq]
    simp
  refine ⟨heq, ?_, ?_⟩
  · rw [heq]; exact List.filter_sublist cands
  · intro c
    rw [heq, List.mem_filter]
    simp [keepsCandidate, and_assoc]

/-! ## Further claims on the correlator -/

/-- C23: when no comparison stops the run, one chain-pair scan appends a swap
for every combination `(a, b)`, `a` in `A` and `b` in `B`, that satisfies the
hash+time rule, so the number of swaps it emits is the number of satisfying
combinations; the inner loop emits the same swaps whatever the Processed flag
of the ledger-A record is. -/
theorem C23_every_combination_emitted (parse : String → Option Int) (chain1 chain2 : String)
    (A B : List htlc) (AS : List AtomicSwap) (h : NoFault parse A B) :
    scanPair parse chain1 chain2 A B AS = .ok (AS ++ scanList parse chain1 chain2 A B) ∧
      (∀ a ∈ A, ∀ b ∈ B, pairRule parse a b = .ok true →
        ({ Chain1 := chain1, HTLC1 := a, Chain2 := chain2, HTLC2 := b } : AtomicSwap) ∈
          scanList parse chain1 chain2 A B) ∧
      (scanList parse chain1 chain2 A B).length =
        ((List.product A B).filter
          (fun p => decide (pairRule parse p.1 p.2 = .ok true))).length ∧
      (∀ a ∈ A, ∀ flag : Bool, ∃ flag1,
        innerLoop parse chain1 chain2 (toProcessing B) { ThisHTLC := a, Processed := flag } AS =
          .ok ({ ThisHTLC := a, Processed := flag1 },
            AS ++ (B.filter (fun b => decide (pairRule parse a b = .ok true))).map
              (fun b => { Chain1 := chain1, HTLC1 := a, Chain2 := chain2, HTLC2 := b }))) := by
  refine ⟨outerLoop_toProcessing parse chain1 chain2 B A AS h, ?_,
    scanList_length parse chain1 chain2 A B, ?_⟩
  · intro a ha b hb hab
    simp only [scanList, List.mem_flatMap, List.mem_map, List.mem_filter]
    exact ⟨a, ha, b, ⟨hb, by simpa using hab⟩, rfl⟩
  · intro a ha flag
    exact innerLoop_toProcessing parse chain1 chain2 B { ThisHTLC := a, Processed := flag } AS
      (fun b hb => h a ha b hb)

theorem C23_every_combination_emitted_witness :
    NoFault exampleClock [recA, recA2] [recB, recLate, recB2] ∧
      scanPair exampleClock "BTC" "LTC" [recA, recA2] [recB, recLate, recB2] [] =
        .ok [{ Chain1 := "BTC", HTLC1 := recA, Chain2 := "LTC", HTLC2 := recB },
             { Chain1 := "BTC", HTLC1 := recA, Chain2 := "LTC", HTLC2 := recB2 },
             { Chain1 := "BTC", HTLC1 := recA2, Chain2 := "LTC", HTLC2 := recB },
             { Chain1 := "BTC", HTLC1 := recA2, Chain2 := "LTC", HTLC2 := recB2 }] ∧
      (scanList exampleClock "BTC" "LTC" [recA, recA2] [recB, recLate, recB2]).length =
        ((List.product [recA, recA2] [recB, recLate, recB2]).filter
          (fun p => decide (pairRule exampleClock p.1 p.2 = .ok true))).length :=
  ⟨by decide, by decide,
    (C23_every_combination_emitted exampleClock "BTC" "LTC" [recA, recA2]
      [recB, recLate, recB2] [] (by decide)).2.2.1⟩

/-- C25: for two compared records whose secret hashes match, the pair is
matched only if both timestamps parse; if one of them fails to parse the rule
stops with the fatal timestamp error and the scan that compares the two
records aborts instead of skipping the pair.  A comparison whose secret hashes
do not match returns no match whatever the parser would say, and a scan in
which every hash-matching pair has two parseable timestamps runs to its end,
whatever the timestamps of the other records are. -/
theorem C25_timestamp_failure (parse : String → Option Int) (chain1 chain2 : String)
    (A B : List htlc) (AS : List AtomicSwap) (a b : htlc) (ha : a ∈ A) (hb : b ∈ B)
    (hhash : hashRule a.SecretHashes b.SecretHashes = .ok true) :
    (pairRule parse a b = .ok true →
        (parse a.Timestamp).isSome = true ∧ (parse b.Timestamp).isSome = true) ∧
      ((parse a.Timestamp = none ∨ parse b.Timestamp = none) →
        pairRule parse a b = .error .fatalTimestamp ∧
        scanPair parse chain1 chain2 [a] [b] AS = .error .fatalTimestamp ∧
        (∃ e, scanPair parse chain1 chain2 A B AS = .error e) ∧
        ∀ btc ltc bch dcr : List htlc,
          ((a ∈ btc ∧ b ∈ ltc) ∨ (a ∈ btc ∧ b ∈ bch) ∨ (a ∈ btc ∧ b ∈ dcr) ∨
            (a ∈ ltc ∧ b ∈ bch) ∨ (a ∈ ltc ∧ b ∈ dcr) ∨ (a ∈ bch ∧ b ∈ dcr)) →
          ∃ e, correlate parse btc ltc bch dcr = .error e) ∧
      (∀ x y : htlc, hashRule x.SecretHashes y.SecretHashes = .ok false →
        ∀ parse1 : String → Option Int, pairRule parse1 x y = .ok false) ∧
      (∀ A1 B1 : List htlc,
        (∀ x ∈ A1, ∀ y ∈ B1, hashRule x.SecretHashes y.SecretHashes = .ok false ∨
          (hashRule x.SecretHashes y.SecretHashes = .ok true ∧
            (parse x.Timestamp).isSome = true ∧ (parse y.Timestamp).isSome = true)) →
        scanPair parse chain1 chain2 A1 B1 AS =
          .ok (AS ++ scanList parse chain1 chain2 A1 B1)) := by
  have hfatal : (parse a.Timestamp = none ∨ parse b.Timestamp = none) →
      pairRule parse a b = .error .fatalTimestamp := by
    intro hnone
    simp only [pairRule, hhash, timeRule]
    cases h1 : parse a.Timestamp with
    | none => rfl
    | some t1 =>
      cases h2 : parse b.Timestamp with
      | none => rfl
      | some t2 =>
        rcases hnone with hn | hn
        · rw [h1] at hn; exact absurd hn (by simp)
        · rw [h2] at hn; exact absurd hn (by simp)
  refine ⟨?_, ?_, ?_, ?_⟩
  · intro hok
    simp only [pairRule, hhash, timeRule] at hok
    cases h1 : parse a.Timestamp with
    | none => simp [h1] at hok
    | some t1 =>
      cases h2 : parse b.Timestamp with
      | none => simp [h1, h2] at hok
      | some t2 => simp
  · intro hnone
    have hp := hfatal hnone
    refine ⟨hp, ?_, ?_, ?_⟩
    · simp [scanPair, toProcessing, outerLoop, innerLoop, hp]
    · exact outerLoop_fault parse chain1 chain2 B A AS ⟨a, ha, b, hb, _, hp⟩
    · intro btc ltc bch dcr hmem
      exact correlate_fault parse btc ltc bch dcr a b _ hp hmem
  · intro x y hxy parse1
    simp only [pairRule, hxy]
  · intro A1 B1 hall
    apply outerLoop_toProcessing
    intro x hx y hy
    rcases hall x hx y hy with hf | ⟨ht, hsx, hsy⟩
    · exact ⟨false, by simp only [pairRule, hf]⟩
    · obtain ⟨t1, h1⟩ := Option.isSome_iff_exists.mp hsx
      obtain ⟨t2, h2⟩ := Option.isSome_iff_exists.mp hsy
      exact ⟨withinOneDay t1 t2, by simp only [pairRule, ht, timeRule, h1, h2]⟩

theorem C25_timestamp_failure_witness :
    exampleHTLC "btc" "txU" "01.01.2020 00:00" ["abcd1234"] ∈
        [recA, exampleHTLC "btc" "txU" "01.01.2020 00:00" ["abcd1234"]] ∧
      recB ∈ [recB] ∧
      hashRule (exampleHTLC "btc" "txU" "01.01.2020 00:00" ["abcd1234"]).SecretHashes
        recB.SecretHashes = .ok true ∧
      exampleClock (exampleHTLC "btc" "txU" "01.01.2020 00:00" ["abcd1234"]).Timestamp = none ∧
      scanPair exampleClock "BTC" "LTC"
          [recA, exampleHTLC "btc" "txU" "01.01.2020 00:00" ["abcd1234"]] [recB] [] =
        .error .fatalTimestamp ∧
      scanPair exampleClock "BTC" "LTC"
          [recA, exampleHTLC "btc" "txU" "01.01.2020 00:00" ["other"]] [recB] [] =
        .ok [{ Chain1 := "BTC", HTLC1 := recA, Chain2 := "LTC", HTLC2 := recB }] ∧
      (pairRule exampleClock (exampleHTLC "btc" "txU" "01.01.2020 00:00" ["abcd1234"]) recB =
          .error .fatalTimestamp ∧
        scanPair exampleClock "BTC" "LTC"
            [exampleHTLC "btc" "txU" "01.01.2020 00:00" ["abcd1234"]] [recB] [] =
          .error .fatalTimestamp ∧
        ∃ e, scanPair exampleClock "BTC" "LTC"
          [recA, exampleHTLC "btc" "txU" "01.01.2020 00:00" ["abcd1234"]] [recB] [] =
            .error e) :=
  have hw := (C25_timestamp_failure exampleClock "BTC" "LTC"
      [recA, exampleHTLC "btc" "txU" "01.01.2020 00:00" ["abcd1234"]] [recB] []
      (exampleHTLC "btc" "txU" "01.01.2020 00:00" ["abcd1234"]) recB
      (by decide) (by decide) (by decide)).2.1 (Or.inl (by decide))
  ⟨by decide, by decide, by decide, by decide, by decide, by decide,
    hw.1, hw.2.1, hw.2.2.1⟩

/-! ## Further lemmas on the extractor: first fit -/

/-- A template whose ops list starts with the normalised Ops is found by the match loop. -/
theorem extractMatchLoop_fits (t : filteredHTLCType) (i length : Nat) :
    ∀ (suffix : List String) (j : Nat) (st : MatchState),
      length = j + suffix.length → suffix ≠ [] →
      suffix.map collapseOp <+: t.Ops.drop j →
      extractMatchLoop t i length suffix j st =
        .ok { typeFound := true, matchingType := t.Name, matchingTypeNumber := (i : Int) } := by
  intro suffix
  induction suffix with
  | nil => intro j st _ hne _; exact absurd rfl hne
  | cons op rest ih =>
    intro j st hlen _ hpre
    obtain ⟨tail, htail⟩ := hpre
    have hjlt : j < t.Ops.length := by
      have hl := congrArg List.length htail
      simp only [List.map_cons, List.cons_append, List.length_cons, List.length_drop] at hl
      omega
    have hdrop : t.Ops.drop j = t.Ops[j] :: t.Ops.drop (j + 1) := List.drop_eq_getElem_cons hjlt
    rw [hdrop, List.map_cons, List.cons_append] at htail
    injection htail with hhead htl
    have hidx : goIndex t.Ops (j : Int) = .ok (collapseOp op) := by
      rw [goIndex_natCast, List.getElem?_eq_getElem hjlt, hhead]
    simp only [extractMatchLoop, hidx, ne_eq, not_true_eq_false, if_false]
    have hlen1 : length = (j + 1) + rest.length := by
      simp only [List.length_cons] at hlen; omega
    by_cases hrest : rest = []
    · subst hrest
      have hlast : (j : Int) = (length : Int) - 1 := by
        simp only [List.length_nil] at hlen1; omega
      simp only [hlast, if_true, extractMatchLoop]
    · have hnotlast : ¬ (j : Int) = (length : Int) - 1 := by
        have : 0 < rest.length := List.length_pos.mpr hrest
        omega
      rw [if_neg hnotlast]
      exact ih (j + 1) st hlen1 hrest ⟨tail, htl⟩

/-- A template whose ops list is at least as long as the candidate's Ops is compared without a panic. -/
theorem extractMatchLoop_total (t : filteredHTLCType) (i length : Nat)
    (hlong : length ≤ t.Ops.length) :
    ∀ (suffix : List String) (j : Nat) (st : MatchState),
      length = j + suffix.length →
      ∃ st1, extractMatchLoop t i length suffix j st = .ok st1 := by
  intro suffix
  induction suffix with
  | nil => intro j st _; exact ⟨st, rfl⟩
  | cons op rest ih =>
    intro j st hlen
    have hjlt : j < t.Ops.length := by
      simp only [List.length_cons] at hlen; omega
    have hidx : goIndex t.Ops (j : Int) = .ok t.Ops[j] := by
      rw [goIndex_natCast, List.getElem?_eq_getElem hjlt]
    simp only [extractMatchLoop, hidx]
    by_cases hop : collapseOp op = t.Ops[j]
    · rw [if_neg (by simpa using hop)]
      exact ih (j + 1) _ (by simp only [List.length_cons] at hlen; omega)
    · rw [if_pos (by simpa using hop)]
      exact ⟨st, rfl⟩

/-- The template the catalog loop finds is the first one that fits. -/
theorem extractTypesLoop_firstFit (pcOps : List String) :
    ∀ (types : List filteredHTLCType) (i : Nat) (st st1 : MatchState),
      st.typeFound = false →
      extractTypesLoop pcOps pcOps.length types i st = .ok st1 →
      st1.typeFound = true →
      ∃ (k : Nat) (t : filteredHTLCType), types[k]? = some t ∧
        st1 = { typeFound := true, matchingType := t.Name,
                matchingTypeNumber := ((i + k : Nat) : Int) } ∧
        ((pcOps.length : Int) = t.Length ∧ pcOps ≠ [] ∧ pcOps.map collapseOp <+: t.Ops) ∧
        ∀ (j : Nat) (t1 : filteredHTLCType), j < k → types[j]? = some t1 →
          ¬ ((pcOps.length : Int) = t1.Length ∧ pcOps ≠ [] ∧
            pcOps.map collapseOp <+: t1.Ops) := by
  intro types
  induction types with
  | nil =>
    intro i st st1 hst h hfound
    simp only [extractTypesLoop, Except.ok.injEq] at h
    rw [← h, hst] at hfound
    exact absurd hfound (by simp)
  | cons t rest ih =>
    intro i st st1 hst h hfound
    simp only [extractTypesLoop] at h
    have hshift : ∀ k : Nat, i + 1 + k = i + (k + 1) := fun k => by omega
    by_cases hlen : (pcOps.length : Int) = t.Length
    · rw [if_neg (by simpa using hlen)] at h
      cases hloop : extractMatchLoop t i pcOps.length pcOps 0 st with
      | error e => simp [hloop] at h
      | ok st2 =>
        simp only [hloop] at h
        rcases extractMatchLoop_ok t i pcOps.length pcOps 0 st st2 (by simp) hloop with
          heq | ⟨hne, hst2, hpre⟩
        · have hst2 : st2.typeFound = false := by rw [heq]; exact hst
          rw [if_neg (by simp [hst2])] at h
          obtain ⟨k, t1, hk, hst1, hfit, hfirst⟩ := ih (i + 1) st2 st1 hst2 h hfound
          refine ⟨k + 1, t1, by simpa using hk, by rw [hst1, hshift], hfit, ?_⟩
          intro j t2 hj hget
          cases j with
          | zero =>
            simp only [List.getElem?_cons_zero, Option.some.injEq] at hget
            subst hget
            rintro ⟨_, hne, hpre⟩
            have hfits := extractMatchLoop_fits t i pcOps.length pcOps 0 st (by simp) hne
              (by simpa using hpre)
            rw [hloop] at hfits
            simp only [Except.ok.injEq] at hfits
            rw [hfits] at hst2
            exact absurd hst2 (by simp)
          | succ j1 =>
            simp only [List.getElem?_cons_succ] at hget
            exact hfirst j1 t2 (by omega) hget
        · have hst2f : st2.typeFound = true := by rw [hst2]
          rw [if_pos hst2f] at h
          simp only [Except.ok.injEq] at h
          refine ⟨0, t, by simp, by rw [← h, hst2]; simp, ⟨hlen, hne, by simpa using hpre⟩, ?_⟩
          intro j t2 hj _
          exact absurd hj (by omega)
    · rw [if_pos (by simpa using hlen)] at h
      obtain ⟨k, t1, hk, hst1, hfit, hfirst⟩ := ih (i + 1) st st1 hst h hfound
      refine ⟨k + 1, t1, by simpa using hk, by rw [hst1, hshift], hfit, ?_⟩
      intro j t2 hj hget
      cases j with
      | zero =>
        simp only [List.getElem?_cons_zero, Option.some.injEq] at hget
        subst hget
        exact fun hf => hlen hf.1
      | succ j1 =>
        simp only [List.getElem?_cons_succ] at hget
        exact hfirst j1 t2 (by omega) hget

/-- The catalog loop stops at the first template that fits, when the templates
before it have an ops list of their declared length. -/
theorem extractTypesLoop_atFirstFit (pcOps : List String) :
    ∀ (types : List filteredHTLCType) (i k : Nat) (t : filteredHTLCType) (st : MatchState),
      st.typeFound = false → types[k]? = some t →
      ((pcOps.length : Int) = t.Length ∧ pcOps ≠ [] ∧ pcOps.map collapseOp <+: t.Ops) →
      (∀ (j : Nat) (t1 : filteredHTLCType), j < k → types[j]? = some t1 →
        ¬ ((pcOps.length : Int) = t1.Length ∧ pcOps ≠ [] ∧ pcOps.map collapseOp <+: t1.Ops) ∧
        t1.Length = (t1.Ops.length : Int)) →
      extractTypesLoop pcOps pcOps.length types i st =
        .ok { typeFound := true, matchingType := t.Name,
              matchingTypeNumber := ((i + k : Nat) : Int) } := by
  intro types
  induction types with
  | nil => intro i k t st _ hk; simp at hk
  | cons t0 rest ih =>
    intro i k t st hst hk hfit hfirst
    simp only [extractTypesLoop]
    cases k with
    | zero =>
      simp only [List.getElem?_cons_zero, Option.some.injEq] at hk
      subst hk
      rw [if_neg (by simpa using hfit.1),
        extractMatchLoop_fits t0 i pcOps.length pcOps 0 st (by simp) hfit.2.1
          (by simpa using hfit.2.2)]
      simp
    | succ k1 =>
      simp only [List.getElem?_cons_succ] at hk
      have hhead := hfirst 0 t0 (by omega) (by simp)
      have hrest : ∀ (j : Nat) (t1 : filteredHTLCType), j < k1 → rest[j]? = some t1 →
          ¬ ((pcOps.length : Int) = t1.Length ∧ pcOps ≠ [] ∧
            pcOps.map collapseOp <+: t1.Ops) ∧ t1.Length = (t1.Ops.length : Int) :=
        fun j t1 hj hget => hfirst (j + 1) t1 (by omega) (by simpa using hget)
      have hgoal := ih (i + 1) k1 t st hst hk hfit hrest
      have hshift : i + 1 + k1 = i + (k1 + 1) := by omega
      rw [hshift] at hgoal
      by_cases hlen : (pcOps.length : Int) = t0.Length
      · rw [if_neg (by simpa using hlen)]
        have hlong : pcOps.length ≤ t0.Ops.length := by
          have := hhead.2; omega
        obtain ⟨st2, hloop⟩ := extractMatchLoop_total t0 i pcOps.length hlong pcOps 0 st
          (by simp)
        rw [hloop]
        rcases extractMatchLoop_ok t0 i pcOps.length pcOps 0 st st2 (by simp) hloop with
          heq | ⟨hne, _, hpre⟩
        · have hst2 : st2.typeFound = false := by rw [heq]; exact hst
          simp only [hst2]
          rw [heq]
          simpa using hgoal
        · exact absurd ⟨hlen, hne, by simpa using hpre⟩ hhead.1
      · rw [if_pos (by simpa using hlen)]
        exact hgoal

theorem remapOps_length (chain : String) (ops : List String) :
    (remapOps chain ops).length = ops.length := by
  unfold remapOps; split <;> simp

theorem fits_iff (chain : String) (PC : processedCandidate) (t : filteredHTLCType) :
    fits chain PC t ↔
      (((remapOps chain PC.Ops).length : Int) = t.Length ∧ remapOps chain PC.Ops ≠ [] ∧
        (remapOps chain PC.Ops).map collapseOp <+: t.Ops) := by
  have hnil : remapOps chain PC.Ops = [] ↔ PC.Ops = [] := by
    rw [← List.length_eq_zero, remapOps_length, List.length_eq_zero]
  unfold fits extractorSignature
  rw [remapOps_length, Ne, Ne, hnil]

/-- A returned record is read at the first template of the catalog that fits. -/
theorem extractData_firstFit_of_ok (PC : processedCandidate) (types : List filteredHTLCType)
    (chain : String) (h : htlc) (hex : extractData PC types chain = .ok (.ok h)) :
    ∃ (k : Nat) (t : filteredHTLCType), types[k]? = some t ∧ fits chain PC t ∧
      (∀ (j : Nat) (t1 : filteredHTLCType), j < k → types[j]? = some t1 →
        ¬ fits chain PC t1) ∧
      extractFields PC (remapOps chain PC.Ops) chain t.Name t = .ok h := by
  simp only [extractData] at hex
  cases hloop : extractTypesLoop (remapOps chain PC.Ops) PC.Ops.length types 0
      { typeFound := false, matchingType := "", matchingTypeNumber := -1 } with
  | error e => simp [hloop] at hex
  | ok st =>
    simp only [hloop] at hex
    by_cases hfound : st.typeFound = true
    · rw [if_neg (by simp [hfound])] at hex
      rw [← remapOps_length chain PC.Ops] at hloop
      obtain ⟨k, t, hk, hst, hfit, hfirst⟩ :=
        extractTypesLoop_firstFit (remapOps chain PC.Ops) types 0 _ st rfl hloop hfound
      have hidx : goIndex types st.matchingTypeNumber = .ok t := by
        rw [hst]
        simp only [Nat.zero_add]
        exact (goIndex_natCast _ _ _).mpr hk
      rw [hidx] at hex
      simp only at hex
      refine ⟨k, t, hk, (fits_iff chain PC t).mpr hfit, ?_, ?_⟩
      · intro j t1 hj hget hf
        exact hfirst j t1 hj hget ((fits_iff chain PC t1).mp hf)
      · cases hf : extractFields PC (remapOps chain PC.Ops) chain st.matchingType t with
        | error e => simp [hf] at hex
        | ok r =>
          simp only [hf, Except.ok.injEq] at hex
          rw [hst] at hf
          simp only at hf
          rw [hf, hex]
    · have : st.typeFound = false := by simpa using hfound
      simp [this] at hex

/-- With well-formed templates before it, the first template that fits decides the result. -/
theorem extractData_atFirstFit (PC : processedCandidate) (types : List filteredHTLCType)
    (chain : String) (k : Nat) (t : filteredHTLCType) (hk : types[k]? = some t)
    (hfit : fits chain PC t)
    (hfirst : ∀ (j : Nat) (t1 : filteredHTLCType), j < k → types[j]? = some t1 →
      ¬ fits chain PC t1 ∧ t1.Length = (t1.Ops.length : Int)) :
    extractData PC types chain = recordFrom PC chain t := by
  have hloop := extractTypesLoop_atFirstFit (remapOps chain PC.Ops) types 0 k t
    { typeFound := false, matchingType := "", matchingTypeNumber := -1 } rfl hk
    ((fits_iff chain PC t).mp hfit)
    (fun j t1 hj hget => ⟨fun hf => (hfirst j t1 hj hget).1 ((fits_iff chain PC t1).mpr hf),
      (hfirst j t1 hj hget).2⟩)
  rw [remapOps_length] at hloop
  simp only [extractData, hloop, Nat.zero_add, recordFrom]
  have hidx : goIndex types ((k : Nat) : Int) = .ok t := (goIndex_natCast _ _ _).mpr hk
  simp [hidx]

/-! ## Further lemmas on the extractor: reads that cannot fail -/

theorem goIndex_total {α : Type} (xs : List α) (i : Int) (h0 : 0 ≤ i)
    (hlt : i < (xs.length : Int)) : ∃ x, goIndex xs i = .ok x ∧ xs[i.toNat]? = some x := by
  have hn : i.toNat < xs.length := by omega
  refine ⟨xs[i.toNat], ?_, List.getElem?_eq_getElem hn⟩
  rw [goIndex_ok]
  exact ⟨h0, List.getElem?_eq_getElem hn⟩

theorem utf8ByteSize_go_ge (cs : List Char) : cs.length ≤ String.utf8ByteSize.go cs := by
  induction cs with
  | nil => simp [String.utf8ByteSize.go]
  | cons c rest ih =>
    have := c.utf8Size_pos
    simp only [String.utf8ByteSize.go, List.length_cons]
    omega

theorem utf8ByteSize_ge_length (s : String) : s.length ≤ s.utf8ByteSize :=
  utf8ByteSize_go_ge s.data

theorem remapOps_three (chain : String) (ops : List String) (i : Nat) (e e1 : String)
    (he : ops[i]? = some e) (he3 : 3 ≤ e.length) (he1 : (remapOps chain ops)[i]? = some e1) :
    3 ≤ e1.utf8ByteSize := by
  have hbase : 3 ≤ e.utf8ByteSize := Nat.le_trans he3 (utf8ByteSize_ge_length e)
  unfold remapOps at he1
  by_cases hc : chain = "dcr"
  · rw [if_pos hc, List.getElem?_map, he] at he1
    simp only [Option.map_some', Option.some.injEq] at he1
    subst he1
    by_cases h1 : e = "OP_SHA256"
    · subst h1; decide
    · by_cases h2 : e = "OP_UNKNOWN192"
      · subst h2; decide
      · simpa [remapOp, h1, h2] using hbase
  · rw [if_neg hc, he] at he1
    simp only [Option.some.injEq] at he1
    subst he1
    exact hbase

theorem timelockOf_total (pcOps : List String) (pos : Int) (h0 : 0 ≤ pos)
    (hlt : pos < (pcOps.length : Int))
    (h3 : ∀ e, pcOps[pos.toNat]? = some e → 3 ≤ e.utf8ByteSize) :
    ∃ timelock, timelockOf pcOps pos = .ok timelock := by
  obtain ⟨e, hidx, hget⟩ := goIndex_total pcOps pos h0 hlt
  simp only [timelockOf, hidx]
  by_cases hsp : hasSpace e = true
  · rw [if_pos hsp]; exact ⟨_, rfl⟩
  · rw [if_neg hsp]
    unfold sliceFrom3
    rw [if_neg (by have := h3 e hget; omega)]
    exact ⟨_, rfl⟩

theorem payloadAt_total (pcOps : List String) (pos : Int) (h0 : 0 ≤ pos)
    (hlt : pos < (pcOps.length : Int)) : ∃ s, payloadAt pcOps pos = .ok s := by
  obtain ⟨e, hidx, _⟩ := goIndex_total pcOps pos h0 hlt
  exact ⟨afterSpace e, by simp only [payloadAt, hidx]⟩

theorem payloadLoop_total (pcOps : List String) :
    ∀ (poss : List Int) (acc : List String), validPositions pcOps.length poss →
      ∃ out, payloadLoop pcOps poss acc = .ok out := by
  intro poss
  induction poss with
  | nil => intro acc _; exact ⟨acc, rfl⟩
  | cons pos rest ih =>
    intro acc hv
    obtain ⟨h0, hlt⟩ := hv pos (List.mem_cons_self _ _)
    obtain ⟨s, hs⟩ := payloadAt_total pcOps pos h0 hlt
    obtain ⟨out, hout⟩ := ih (acc ++ [s]) (fun p hp => hv p (List.mem_cons_of_mem _ hp))
    exact ⟨out, by simp only [payloadLoop, hs, hout]⟩

theorem secretUnlessZero_total (asm : List String) (k : Int) (hk1 : 1 ≤ k)
    (hk : k ≤ (asm.length : Int)) (h2 : 2 ≤ asm.length) :
    ∃ s, secretUnlessZero asm k = .ok s := by
  obtain ⟨sel, hsel, _⟩ := goIndex_total asm ((asm.length : Int) - 2) (by omega) (by omega)
  obtain ⟨tok, htok, _⟩ := goIndex_total asm ((asm.length : Int) - k) (by omega) (by omega)
  simp only [secretUnlessZero, hsel, htok]
  by_cases h0 : sel = "0"
  · rw [if_neg (by simpa using h0)]; exact ⟨_, rfl⟩
  · rw [if_pos h0]; exact ⟨_, rfl⟩

theorem secretIfZero_total (asm : List String) (k : Int) (hk1 : 1 ≤ k)
    (hk : k ≤ (asm.length : Int)) (h2 : 2 ≤ asm.length) :
    ∃ s, secretIfZero asm k = .ok s := by
  obtain ⟨sel, hsel, _⟩ := goIndex_total asm ((asm.length : Int) - 2) (by omega) (by omega)
  obtain ⟨tok, htok, _⟩ := goIndex_total asm ((asm.length : Int) - k) (by omega) (by omega)
  simp only [secretIfZero, hsel, htok]
  by_cases h0 : sel = "0"
  · rw [if_pos h0]; exact ⟨_, rfl⟩
  · rw [if_neg h0]; exact ⟨_, rfl⟩

theorem secretAlways_total (asm : List String) (k : Int) (hk1 : 1 ≤ k)
    (hk : k ≤ (asm.length : Int)) : ∃ s, secretAlways asm k = .ok s := by
  obtain ⟨tok, htok, _⟩ := goIndex_total asm ((asm.length : Int) - k) (by omega) (by omega)
  simp only [secretAlways, htok]
  exact ⟨_, rfl⟩

theorem secretsDownLoop_total (asm : List String) :
    ∀ (idxs : List Int) (acc : List String),
      (∀ i ∈ idxs, 0 ≤ i ∧ i < (asm.length : Int)) →
      ∃ s, secretsDownLoop asm idxs acc = .ok s := by
  intro idxs
  induction idxs with
  | nil => intro acc _; exact ⟨acc, rfl⟩
  | cons i later ih =>
    intro acc hv
    obtain ⟨h0, hlt⟩ := hv i (List.mem_cons_self _ _)
    obtain ⟨tok, htok, _⟩ := goIndex_total asm i h0 hlt
    obtain ⟨s, hs⟩ := ih (acc ++ [tok]) (fun p hp => hv p (List.mem_cons_of_mem _ hp))
    exact ⟨s, by simp only [secretsDownLoop, htok, hs]⟩

theorem secretRange_total (asm : List String) (h16 : 16 ≤ asm.length) :
    ∃ s, secretRange asm = .ok s := by
  obtain ⟨sel, hsel, _⟩ := goIndex_total asm ((asm.length : Int) - 2) (by omega) (by omega)
  simp only [secretRange, hsel]
  by_cases h0 : sel = "0"
  · rw [if_neg (by simpa using h0)]; exact ⟨_, rfl⟩
  · rw [if_pos h0]
    apply secretsDownLoop_total
    intro i hi
    simp only [fifteenDown, List.mem_cons, List.mem_singleton, List.not_mem_nil, or_false] at hi
    omega

theorem secretsSwitch_total (name : String) (asm : List String) (h5 : 5 ≤ asm.length)
    (h16 : (name = "Type8a" ∨ name = "Type8b") → 16 ≤ asm.length) :
    ∃ s, secretsSwitch name asm = .ok s := by
  unfold secretsSwitch
  split <;>
    first
    | exact secretUnlessZero_total asm _ (by norm_num) (by omega) (by omega)
    | exact secretIfZero_total asm _ (by norm_num) (by omega) (by omega)
    | exact secretAlways_total asm _ (by norm_num) (by omega)
    | exact secretRange_total asm (h16 (by simp))
    | exact ⟨[], rfl⟩

theorem secretsSwitch_default (name : String) (asm : List String)
    (h : name ∉ secretRuleNames) : secretsSwitch name asm = .ok [] := by
  unfold secretsSwitch
  split <;> first | rfl | exact absurd (by decide) h

theorem extractFields_total (PC : processedCandidate) (chain : String)
    (t : filteredHTLCType) (e : String) (hlen : PC.Ops.length = t.Ops.length)
    (hlock : 0 ≤ t.LocktimePos ∧ t.LocktimePos < (t.Ops.length : Int))
    (hpk1 : validPositions t.Ops.length t.PublicKeys1Pos)
    (hpk2 : 0 ≤ t.PublicKey2Pos ∧ t.PublicKey2Pos < (t.Ops.length : Int))
    (hsh : validPositions t.Ops.length t.SecrethashPos)
    (he : PC.Ops[t.LocktimePos.toNat]? = some e) (he3 : 3 ≤ e.length)
    (hasm : 5 ≤ PC.Asm.length)
    (hasm8 : (t.Name = "Type8a" ∨ t.Name = "Type8b") → 16 ≤ PC.Asm.length) :
    ∃ h, extractFields PC (remapOps chain PC.Ops) chain t.Name t = .ok h := by
  have hl : (remapOps chain PC.Ops).length = t.Ops.length := by
    rw [remapOps_length, hlen]
  obtain ⟨tl, htl⟩ := timelockOf_total (remapOps chain PC.Ops) t.LocktimePos hlock.1
    (by rw [hl]; exact hlock.2)
    (fun e1 he1 => remapOps_three chain PC.Ops _ e e1 he he3 he1)
  obtain ⟨pk1, hp1⟩ := payloadLoop_total (remapOps chain PC.Ops) t.PublicKeys1Pos []
    (by rw [hl]; exact hpk1)
  obtain ⟨pk2, hp2⟩ := payloadAt_total (remapOps chain PC.Ops) t.PublicKey2Pos hpk2.1
    (by rw [hl]; exact hpk2.2)
  obtain ⟨sh, hs⟩ := payloadLoop_total (remapOps chain PC.Ops) t.SecrethashPos []
    (by rw [hl]; exact hsh)
  obtain ⟨sec, hsec⟩ := secretsSwitch_total t.Name PC.Asm hasm hasm8
  simp only [extractFields, htl, hp1, hp2, hs, hsec]
  exact ⟨_, rfl⟩

/-! ## Lemma on the two normalisations -/

/-- On an element without a space, and on an element with a space that neither
as a whole nor cut at its first space passes the test for small-integer pushes,
the extractor and the classifier compute the same normalised element. -/
theorem collapse_remap_eq_normaliseOp (chain op : String)
    (hpay : hasSpace op = true →
      isSmallIntPush op = false ∧ isSmallIntPush (beforeSpace op) = false) :
    collapseOp (if chain = "dcr" then remapOp op else op) = normaliseOp chain op := by
  by_cases hsp : hasSpace op = true
  · obtain ⟨hs1, hs2⟩ := hpay hsp
    have hne1 : op ≠ "OP_SHA256" := by
      rintro rfl; exact absurd hsp (by decide)
    have hne2 : op ≠ "OP_UNKNOWN192" := by
      rintro rfl; exact absurd hsp (by decide)
    have hrem : (if chain = "dcr" then remapOp op else op) = op := by
      split
      · simp [remapOp, hne1, hne2]
      · rfl
    rw [hrem]
    by_cases hc : chain = "dcr" <;>
      simp [collapseOp, normaliseOp, hsp, hs1, hs2, hne1, hne2, hc]
  · have hsp0 : hasSpace op = false := by simpa using hsp
    by_cases hc : chain = "dcr"
    · rw [if_pos hc]
      by_cases h1 : op = "OP_SHA256"
      · subst h1; subst hc; decide
      · by_cases h2 : op = "OP_UNKNOWN192"
        · subst h2; subst hc; decide
        · have hrem : remapOp op = op := by simp [remapOp, h1, h2]
          rw [hrem]
          by_cases hsm : isSmallIntPush op = true <;>
            simp [collapseOp, normaliseOp, hsp0, hsm, h1, h2, hc]
    · rw [if_neg hc]
      by_cases hsm : isSmallIntPush op = true <;>
        simp [collapseOp, normaliseOp, hsp0, hsm, hc]

theorem extractorSignature_eq_normalise (chain : String) (ops : List String)
    (hpay : ∀ op ∈ ops, hasSpace op = true →
      isSmallIntPush op = false ∧ isSmallIntPush (beforeSpace op) = false) :
    extractorSignature chain ops = normalise chain ops := by
  unfold extractorSignature remapOps normalise
  by_cases hc : chain = "dcr"
  · rw [if_pos hc, List.map_map]
    apply List.map_congr_left
    intro op hop
    have := collapse_remap_eq_normaliseOp chain op (hpay op hop)
    rw [if_pos hc] at this
    exact this
  · rw [if_neg hc]
    apply List.map_congr_left
    intro op hop
    have := collapse_remap_eq_normaliseOp chain op (hpay op hop)
    rw [if_neg hc] at this
    exact this

/-! ## Further claims on the extractor -/

/-- The element `OP_1 ab`, a small-integer opcode with a payload, which the
disassembler never writes: the classifier tests the length of the element as
loaded and keeps the mnemonic `OP_1`, the extractor tests the mnemonic after
the payload was cut off and computes `OP_`. -/
theorem normalisations_on_small_mnemonic_with_payload :
    normalise "btc" ["OP_1 ab"] = ["OP_1"] ∧
      extractorSignature "btc" ["OP_1 ab"] = ["OP_"] ∧
      registerType (exampleCandidate ["OP_1 ab"]) [] "btc" =
        .ok [{ Name := "Type 1", Ops := ["OP_1"] }] ∧
      extractData (exampleCandidate ["OP_1 ab"])
          [{ Name := "Type 1", Length := 1, Hash := "", SecrethashPos := [], LocktimePos := 0,
             PublicKeys1Pos := [], PublicKey2Pos := 0, Ops := ["OP_1"] }] "btc" =
        .ok (.error "No matching type found!") ∧
      extractData (exampleCandidate ["OP_1 ab"])
          [{ Name := "Type 1", Length := 1, Hash := "", SecrethashPos := [], LocktimePos := 0,
             PublicKeys1Pos := [], PublicKey2Pos := 0, Ops := ["OP_"] }] "btc" =
        .ok (.ok { Chain := "btc", Block := 1, Timestamp := "2020-01-01 00:00:00 +0000 UTC",
                   Transaction := "tx", InputTx := "in", InputValue := 0, Type_ := "Type 1",
                   Timelock := "ab", PubKeys1 := [], PubKey2 := "ab", Secrets := [],
                   SecretHashes := [] }) ∧
      normalise "btc" ["OP_1 ab"] ≠ ["OP_"] := by
  decide

/-- C24: when the template `t` is the first template of the catalog that fits
the candidate, every record `extractData` returns has the name of `t` as its
Type and every field of it is read at the positions of `t`; and when the
templates before `t` have an ops list of their declared length, the result of
`extractData` is the result of reading the fields at the positions of `t`. -/
theorem C24_first_fit (PC : processedCandidate) (types : List filteredHTLCType)
    (chain : String) (k : Nat) (t : filteredHTLCType) (hk : types[k]? = some t)
    (hfit : fits chain PC t)
    (hfirst : ∀ (j : Nat) (t1 : filteredHTLCType), j < k → types[j]? = some t1 →
      ¬ fits chain PC t1) :
    (∀ h, extractData PC types chain = .ok (.ok h) →
        h.Type_ = t.Name ∧
        timelockOf (remapOps chain PC.Ops) t.LocktimePos = .ok h.Timelock ∧
        payloadLoop (remapOps chain PC.Ops) t.PublicKeys1Pos [] = .ok h.PubKeys1 ∧
        payloadAt (remapOps chain PC.Ops) t.PublicKey2Pos = .ok h.PubKey2 ∧
        payloadLoop (remapOps chain PC.Ops) t.SecrethashPos [] = .ok h.SecretHashes ∧
        secretsSwitch t.Name PC.Asm = .ok h.Secrets) ∧
      ((∀ (j : Nat) (t1 : filteredHTLCType), j < k → types[j]? = some t1 →
          t1.Length = (t1.Ops.length : Int)) →
        extractData PC types chain = recordFrom PC chain t) := by
  constructor
  · intro h hex
    obtain ⟨k1, t1, hk1, hfit1, hfirst1, hf⟩ := extractData_firstFit_of_ok PC types chain h hex
    have hkk : k1 = k := by
      rcases Nat.lt_trichotomy k1 k with hlt | heq | hgt
      · exact absurd hfit1 (hfirst k1 t1 hlt hk1)
      · exact heq
      · exact absurd hfit (hfirst1 k t hgt hk)
    subst hkk
    rw [hk] at hk1
    simp only [Option.some.injEq] at hk1
    subst hk1
    have hall := extractFields_ok PC _ chain t.Name t h hf
    exact ⟨hall.2.2.2.2.2.2.2.2.2.2.2, hall.1, hall.2.1, hall.2.2.1, hall.2.2.2.1,
      hall.2.2.2.2.1⟩
  · intro hwf
    exact extractData_atFirstFit PC types chain k t hk hfit
      (fun j t1 hj hget => ⟨hfirst j t1 hj hget, hwf j t1 hj hget⟩)

theorem C24_first_fit_witness :
    [{ exampleTemplate "Type9a" with Length := 2, Ops := ["OP_IF", "OP_"] },
        { exampleTemplate "Type2" with PublicKey2Pos := 0 },
        exampleTemplate "Type1a"][1]? = some { exampleTemplate "Type2" with PublicKey2Pos := 0 } ∧
      fits "btc" (exampleTraced ["sig", "secret", "1", "script"])
        { exampleTemplate "Type2" with PublicKey2Pos := 0 } ∧
      fits "btc" (exampleTraced ["sig", "secret", "1", "script"]) (exampleTemplate "Type1a") ∧
      extractData (exampleTraced ["sig", "secret", "1", "script"])
          [{ exampleTemplate "Type9a" with Length := 2, Ops := ["OP_IF", "OP_"] },
            { exampleTemplate "Type2" with PublicKey2Pos := 0 },
            exampleTemplate "Type1a"] "btc" =
        .ok (.ok { exampleRecord "Type2" ["1"] with PubKey2 := "OP_IF" }) ∧
      extractData (exampleTraced ["sig", "secret", "1", "script"])
          [{ exampleTemplate "Type9a" with Length := 2, Ops := ["OP_IF", "OP_"] },
            { exampleTemplate "Type2" with PublicKey2Pos := 0 },
            exampleTemplate "Type1a"] "btc" =
        recordFrom (exampleTraced ["sig", "secret", "1", "script"]) "btc"
          { exampleTemplate "Type2" with PublicKey2Pos := 0 } :=
  have hfirst : ∀ (j : Nat) (t1 : filteredHTLCType), j < 1 →
      [{ exampleTemplate "Type9a" with Length := 2, Ops := ["OP_IF", "OP_"] },
        { exampleTemplate "Type2" with PublicKey2Pos := 0 },
        exampleTemplate "Type1a"][j]? = some t1 →
      ¬ fits "btc" (exampleTraced ["sig", "secret", "1", "script"]) t1 ∧
        t1.Length = (t1.Ops.length : Int) := by
    intro j t1 hj hget
    have hj0 : j = 0 := by omega
    subst hj0
    simp only [List.getElem?_cons_zero, Option.some.injEq] at hget
    subst hget
    decide
  ⟨by decide, by decide, by decide, by decide,
    (C24_first_fit (exampleTraced ["sig", "secret", "1", "script"])
      [{ exampleTemplate "Type9a" with Length := 2, Ops := ["OP_IF", "OP_"] },
        { exampleTemplate "Type2" with PublicKey2Pos := 0 },
        exampleTemplate "Type1a"] "btc" 1 { exampleTemplate "Type2" with PublicKey2Pos := 0 }
      (by decide) (by decide) (fun j t1 hj hget => (hfirst j t1 hj hget).1)).2
      (fun j t1 hj hget => (hfirst j t1 hj hget).2)⟩

/-- C27 as stated fails.  First catalog: the only template has the declared
length 3 of its ops list, all its positions are below 3, the locktime element
`OP_16` has five characters and the trace has five tokens, but
`public_key2_pos` is `-1` and the read `PC.Ops[-1]` panics.  Second catalog:
the candidate matches the well-formed template `Type1a`, but an earlier
template with a position out of range matches as well and is the one used. -/
theorem C27_counterexample_positions :
    ({ exampleTemplate "Type1a" with PublicKey2Pos := -1 } : filteredHTLCType).Length =
        (({ exampleTemplate "Type1a" with PublicKey2Pos := -1 } :
          filteredHTLCType).Ops.length : Int) ∧
      ({ exampleTemplate "Type1a" with PublicKey2Pos := -1 } : filteredHTLCType).PublicKey2Pos <
        ({ exampleTemplate "Type1a" with PublicKey2Pos := -1 } : filteredHTLCType).Length ∧
      fits "btc" (exampleTraced ["sig", "secret", "x", "1", "script"])
        { exampleTemplate "Type1a" with PublicKey2Pos := -1 } ∧
      (exampleTraced ["sig", "secret", "x", "1", "script"]).Ops[2]? = some "OP_16" ∧
      (exampleTraced ["sig", "secret", "x", "1", "script"]).Asm.length = 5 ∧
      extractData (exampleTraced ["sig", "secret", "x", "1", "script"])
          [{ exampleTemplate "Type1a" with PublicKey2Pos := -1 }] "btc" =
        .error .indexOutOfRange ∧
      fits "btc" (exampleTraced ["sig", "secret", "x", "1", "script"])
        (exampleTemplate "Type1a") ∧
      extractData (exampleTraced ["sig", "secret", "x", "1", "script"])
          [{ exampleTemplate "Type3a" with LocktimePos := 7 }, exampleTemplate "Type1a"]
          "btc" = .error .indexOutOfRange := by
  decide

/-- C27 (amended): let `t` be the first template of the catalog that fits the
candidate, the templates before it having an ops list of their declared
length.  If the declared length of `t` is the length of its ops list, its
locktime, public-key and secret-hash positions are all at least 0 and below
that length, the Ops element at the locktime position has at least 3
characters, and the trace has at least 5 tokens (at least 16 when `t` is named
Type8a or Type8b), then `extractData` returns a record, of type `t`. -/
theorem C27_extraction_total (PC : processedCandidate) (types : List filteredHTLCType)
    (chain : String) (k : Nat) (t : filteredHTLCType) (e : String)
    (hk : types[k]? = some t) (hfit : fits chain PC t)
    (hfirst : ∀ (j : Nat) (t1 : filteredHTLCType), j < k → types[j]? = some t1 →
      ¬ fits chain PC t1 ∧ t1.Length = (t1.Ops.length : Int))
    (hdecl : t.Length = (t.Ops.length : Int))
    (hlock : 0 ≤ t.LocktimePos ∧ t.LocktimePos < (t.Ops.length : Int))
    (hpk1 : validPositions t.Ops.length t.PublicKeys1Pos)
    (hpk2 : 0 ≤ t.PublicKey2Pos ∧ t.PublicKey2Pos < (t.Ops.length : Int))
    (hsh : validPositions t.Ops.length t.SecrethashPos)
    (he : PC.Ops[t.LocktimePos.toNat]? = some e) (he3 : 3 ≤ e.length)
    (hasm : 5 ≤ PC.Asm.length)
    (hasm8 : (t.Name = "Type8a" ∨ t.Name = "Type8b") → 16 ≤ PC.Asm.length) :
    ∃ h, extractData PC types chain = .ok (.ok h) ∧ h.Type_ = t.Name := by
  have hlen : PC.Ops.length = t.Ops.length := by
    have := hfit.1; omega
  obtain ⟨h, hf⟩ := extractFields_total PC chain t e hlen hlock hpk1 hpk2 hsh he he3 hasm hasm8
  refine ⟨h, ?_, (extractFields_ok PC _ chain t.Name t h hf).2.2.2.2.2.2.2.2.2.2.2⟩
  rw [extractData_atFirstFit PC types chain k t hk hfit hfirst]
  simp only [recordFrom, hf]

theorem C27_extraction_total_witness :
    [exampleTemplate "Type1a"][0]? = some (exampleTemplate "Type1a") ∧
      fits "btc" (exampleTraced ["sig", "secret", "x", "1", "script"])
        (exampleTemplate "Type1a") ∧
      validPositions (exampleTemplate "Type1a").Ops.length
        (exampleTemplate "Type1a").PublicKeys1Pos ∧
      validPositions (exampleTemplate "Type1a").Ops.length
        (exampleTemplate "Type1a").SecrethashPos ∧
      (exampleTraced ["sig", "secret", "x", "1", "script"]).Ops[
          (exampleTemplate "Type1a").LocktimePos.toNat]? = some "OP_16" ∧
      3 ≤ ("OP_16").length ∧
      5 ≤ (exampleTraced ["sig", "secret", "x", "1", "script"]).Asm.length ∧
      extractData (exampleTraced ["sig", "secret", "x", "1", "script"])
          [exampleTemplate "Type1a"] "btc" = .ok (.ok (exampleRecord "Type1a" ["x"])) ∧
      ∃ h, extractData (exampleTraced ["sig", "secret", "x", "1", "script"])
          [exampleTemplate "Type1a"] "btc" = .ok (.ok h) ∧
        h.Type_ = (exampleTemplate "Type1a").Name :=
  ⟨by decide, by decide, by decide, by decide, by decide, by decide, by decide, by decide,
    C27_extraction_total (exampleTraced ["sig", "secret", "x", "1", "script"])
      [exampleTemplate "Type1a"] "btc" 0 (exampleTemplate "Type1a") "OP_16"
      (by decide) (by decide) (fun j t1 hj _ => absurd hj (by omega))
      (by decide) (by decide) (by decide) (by decide) (by decide) (by decide) (by decide)
      (by decide) (fun hn => absurd hn (by decide))⟩

/-- C29 as stated fails.  The secret rule table has 30 names, not 31: the list
`secretRuleNames` has 30 different entries and each of them has a rule (on an
empty trace each rule reads out of range).  And a template without a secret
rule does not make `extractData` succeed: with the locktime position 7 in a
script of three opcodes the run panics. -/
theorem C29_counterexample_table_and_panic :
    secretRuleNames.length = 30 ∧ secretRuleNames.Nodup ∧
      (∀ name ∈ secretRuleNames, secretsSwitch name [] = .error .indexOutOfRange) ∧
      "TypeX" ∉ secretRuleNames ∧
      fits "btc" (exampleTraced ["sig", "secret", "1", "script"])
        { exampleTemplate "TypeX" with LocktimePos := 7 } ∧
      extractData (exampleTraced ["sig", "secret", "1", "script"])
          [{ exampleTemplate "TypeX" with LocktimePos := 7 }] "btc" =
        .error .indexOutOfRange := by
  decide

/-- C29 (amended): let `t` be the first template of the catalog that fits the
candidate, the templates before it having an ops list of their declared
length, and let the name of `t` be none of the 30 names of the secret rule
table.  Then the secret step reads no trace token and yields the empty list
whatever the trace is, every record `extractData` returns has an empty Secrets
list, and whenever timelock, public keys and secret hashes can be read at the
positions of `t`, `extractData` returns the record made of them and of the
empty Secrets list. -/
theorem C29_no_secret_rule (PC : processedCandidate) (types : List filteredHTLCType)
    (chain : String) (k : Nat) (t : filteredHTLCType)
    (hk : types[k]? = some t) (hfit : fits chain PC t)
    (hfirst : ∀ (j : Nat) (t1 : filteredHTLCType), j < k → types[j]? = some t1 →
      ¬ fits chain PC t1 ∧ t1.Length = (t1.Ops.length : Int))
    (hname : t.Name ∉ secretRuleNames) :
    (∀ asm, secretsSwitch t.Name asm = .ok []) ∧
      (∀ h, extractData PC types chain = .ok (.ok h) → h.Secrets = [] ∧ h.Type_ = t.Name) ∧
      (∀ (timelock : String) (pubKeys1 : List String) (pubKey2 : String)
          (secretHashes : List String),
        timelockOf (remapOps chain PC.Ops) t.LocktimePos = .ok timelock →
        payloadLoop (remapOps chain PC.Ops) t.PublicKeys1Pos [] = .ok pubKeys1 →
        payloadAt (remapOps chain PC.Ops) t.PublicKey2Pos = .ok pubKey2 →
        payloadLoop (remapOps chain PC.Ops) t.SecrethashPos [] = .ok secretHashes →
        extractData PC types chain =
          .ok (.ok { Chain := chain, Block := PC.Block, Timestamp := PC.Timestamp,
                     Transaction := PC.Transaction, InputTx := PC.InputTx,
                     InputValue := PC.InputValue, Type_ := t.Name, Timelock := timelock,
                     PubKeys1 := pubKeys1, PubKey2 := pubKey2, Secrets := [],
                     SecretHashes := secretHashes })) := by
  have hdef : ∀ asm, secretsSwitch t.Name asm = .ok [] :=
    fun asm => secretsSwitch_default t.Name asm hname
  have heq := extractData_atFirstFit PC types chain k t hk hfit hfirst
  refine ⟨hdef, ?_, ?_⟩
  · intro h hex
    rw [heq] at hex
    simp only [recordFrom] at hex
    cases hf : extractFields PC (remapOps chain PC.Ops) chain t.Name t with
    | error e => simp [hf] at hex
    | ok r =>
      simp only [hf, Except.ok.injEq] at hex
      subst hex
      have hall := extractFields_ok PC _ chain t.Name t r hf
      have hsec := hall.2.2.2.2.1
      rw [hdef PC.Asm] at hsec
      simp only [Except.ok.injEq] at hsec
      exact ⟨hsec.symm, hall.2.2.2.2.2.2.2.2.2.2.2⟩
  · intro timelock pubKeys1 pubKey2 secretHashes h1 h2 h3 h4
    rw [heq]
    simp only [recordFrom, extractFields, h1, h2, h3, h4, hdef PC.Asm]

theorem C29_no_secret_rule_witness :
    [exampleTemplate "TypeX"][0]? = some (exampleTemplate "TypeX") ∧
      fits "btc" (exampleTraced []) (exampleTemplate "TypeX") ∧
      (exampleTemplate "TypeX").Name ∉ secretRuleNames ∧
      extractData (exampleTraced []) [exampleTemplate "TypeX"] "btc" =
        .ok (.ok (exampleRecord "TypeX" [])) ∧
      ((∀ asm, secretsSwitch (exampleTemplate "TypeX").Name asm = .ok []) ∧
        (∀ h, extractData (exampleTraced []) [exampleTemplate "TypeX"] "btc" = .ok (.ok h) →
          h.Secrets = [] ∧ h.Type_ = (exampleTemplate "TypeX").Name)) :=
  have hw := C29_no_secret_rule (exampleTraced []) [exampleTemplate "TypeX"] "btc" 0
    (exampleTemplate "TypeX") (by decide) (by decide)
    (fun j t1 hj _ => absurd hj (by omega)) (by decide)
  ⟨by decide, by decide, by decide, by decide, hw.1, hw.2.1⟩

/-! ## Lemmas on the elements the disassembler writes -/

/-- The name of an opcode that carries data holds no space and is at least 9 bytes long. -/
theorem dataPushName_shape (name : String) (h : isDataPushName name) :
    hasSpace name = false ∧ 9 ≤ name.utf8ByteSize := by
  have hall : ∀ m ∈ dataPushNames, hasSpace m = false ∧ 9 ≤ m.utf8ByteSize := by decide
  exact hall name h

theorem dataPush_data (name payload : String) :
    (dataPush name payload).data = name.data ++ ' ' :: payload.data := by
  show (name.data ++ [' ']) ++ payload.data = name.data ++ ' ' :: payload.data
  simp

theorem hasSpace_dataPush (name payload : String) : hasSpace (dataPush name payload) = true := by
  unfold hasSpace
  rw [dataPush_data]
  simp

theorem beforeSpace_dataPush (name payload : String) (h : hasSpace name = false) :
    beforeSpace (dataPush name payload) = name := by
  have hall : ∀ c ∈ name.data, (c != ' ') = true := by
    intro c hc
    have hnot : ' ' ∉ name.data := by
      intro hmem
      have : hasSpace name = true := by
        unfold hasSpace
        simpa using hmem
      rw [h] at this
      exact absurd this (by simp)
    have hne : c ≠ ' ' := fun e => hnot (e ▸ hc)
    simpa using hne
  unfold beforeSpace
  rw [dataPush_data, List.takeWhile_append_of_pos hall]
  simp [List.takeWhile]

theorem utf8ByteSize_dataPush (name payload : String) :
    name.utf8ByteSize + 1 ≤ (dataPush name payload).utf8ByteSize := by
  have h1 : (dataPush name payload).utf8ByteSize =
      String.utf8Len (dataPush name payload).data := rfl
  have h2 : name.utf8ByteSize = String.utf8Len name.data := rfl
  rw [h1, h2, dataPush_data, String.utf8Len_append, String.utf8Len_cons]
  have := Char.utf8Size_pos ' '
  omega

/-- A data push has a space, its text before the first space is the opcode's
name, and neither the element nor the name passes the test for small-integer pushes. -/
theorem dataPush_regular (name payload : String) (h : isDataPushName name) :
    hasSpace (dataPush name payload) = true ∧ beforeSpace (dataPush name payload) = name ∧
      isSmallIntPush (dataPush name payload) = false ∧ isSmallIntPush name = false := by
  obtain ⟨hsp, hlen⟩ := dataPushName_shape name h
  have hlen2 := utf8ByteSize_dataPush name payload
  refine ⟨hasSpace_dataPush name payload, beforeSpace_dataPush name payload hsp, ?_, ?_⟩
  · simp only [isSmallIntPush, Bool.or_eq_false_iff, Bool.and_eq_false_iff,
      beq_eq_false_iff_ne]
    exact ⟨by omega, Or.inl (by omega)⟩
  · simp only [isSmallIntPush, Bool.or_eq_false_iff, Bool.and_eq_false_iff,
      beq_eq_false_iff_ne]
    exact ⟨by omega, Or.inl (by omega)⟩

/-- On an element the disassembler writes, the test for small-integer pushes
fails on an element with a space, before and after the payload is cut off. -/
theorem disassembled_regular (op : String) (h : isDisassembled op) :
    hasSpace op = true →
      isSmallIntPush op = false ∧ isSmallIntPush (beforeSpace op) = false := by
  intro hsp
  rcases h with hns | ⟨name, payload, hname, rfl⟩
  · rw [hns] at hsp
    exact absurd hsp (by simp)
  · obtain ⟨_, hb, h1, h2⟩ := dataPush_regular name payload hname
    rw [hb]
    exact ⟨h1, h2⟩

/-- A candidate the pre-filter writes has at least one opcode. -/
theorem filterHTLCs_nonempty (cands : List processedCandidate) (PC : processedCandidate)
    (h : PC ∈ filterHTLCs cands) : PC.Ops ≠ [] := by
  unfold filterHTLCs at h
  rw [filterLoop_eq, List.nil_append, List.mem_filter] at h
  intro hnil
  have hk := h.2
  simp [keepsCandidate, hnil] at hk

/-- After a candidate with non-empty Ops is classified, the catalog holds an
entry whose signature is the candidate's normalised Ops. -/
theorem registerType_registers (PC : processedCandidate) (start : List htlcType)
    (chain : String) (hne : PC.Ops ≠ []) :
    ∃ types1, registerType PC start chain = .ok types1 ∧
      ∃ t ∈ types1, t.Ops = normalise chain PC.Ops := by
  by_cases hex : ∃ t ∈ start, t.Ops = normalise chain PC.Ops
  · exact ⟨start, registerType_known PC start chain hne hex, hex⟩
  · have hall : ∀ t ∈ start, t.Ops ≠ normalise chain PC.Ops :=
      fun t ht heq => hex ⟨t, ht, heq⟩
    have hloop := typesLoop_new (normalise chain PC.Ops) start hall
    rw [normalise_length] at hloop
    refine ⟨start ++ [{ Name := "Type " ++ toString (start.length + 1),
                        Ops := normalise chain PC.Ops }],
      by simp only [registerType, hloop], ?_⟩
    exact ⟨_, List.mem_append_right _ (List.mem_singleton_self _), rfl⟩

/-- The catalog loop of the extractor on one template whose declared length is
the length of its ops list: the comparison ends without a fault, and it finds
the template exactly when the Ops as the extractor normalises them are the
template's ops list. -/
theorem extractTypesLoop_single (chain : String) (PC : processedCandidate)
    (t : filteredHTLCType) (hne : PC.Ops ≠ []) (hdecl : t.Length = (t.Ops.length : Int)) :
    ∃ st, extractTypesLoop (remapOps chain PC.Ops) PC.Ops.length [t] 0
        { typeFound := false, matchingType := "", matchingTypeNumber := -1 } = .ok st ∧
      st.typeFound = decide (extractorSignature chain PC.Ops = t.Ops) := by
  have hl : (remapOps chain PC.Ops).length = PC.Ops.length := remapOps_length chain PC.Ops
  have hsl : (extractorSignature chain PC.Ops).length = PC.Ops.length := by
    simp [extractorSignature, hl]
  by_cases hlen : (PC.Ops.length : Int) = t.Length
  · have hnat : PC.Ops.length = t.Ops.length := by
      rw [hdecl] at hlen
      exact_mod_cast hlen
    obtain ⟨st1, hst1⟩ := extractMatchLoop_total t 0 PC.Ops.length (by omega)
      (remapOps chain PC.Ops) 0
      { typeFound := false, matchingType := "", matchingTypeNumber := -1 } (by omega)
    by_cases heq : extractorSignature chain PC.Ops = t.Ops
    · have hfit := extractMatchLoop_fits t 0 PC.Ops.length (remapOps chain PC.Ops) 0
        { typeFound := false, matchingType := "", matchingTypeNumber := -1 } (by omega)
        (by
          intro hnil
          rw [hnil] at hl
          exact hne (List.length_eq_zero.mp hl.symm))
        (by
          rw [List.drop_zero]
          unfold extractorSignature at heq
          rw [heq])
      refine ⟨{ typeFound := true, matchingType := t.Name,
                matchingTypeNumber := ((0 : Nat) : Int) }, ?_, ?_⟩
      · simp only [extractTypesLoop]
        rw [if_neg (by simpa using hlen), hfit]
        simp
      · simp [heq]
    · rcases extractMatchLoop_ok t 0 PC.Ops.length (remapOps chain PC.Ops) 0 _ st1
          (by omega) hst1 with hsame | ⟨_, _, hpre⟩
      · refine ⟨st1, ?_, ?_⟩
        · simp only [extractTypesLoop]
          rw [if_neg (by simpa using hlen), hst1]
          simp [hsame]
        · simp [hsame, heq]
      · exfalso
        rw [List.drop_zero] at hpre
        apply heq
        exact List.IsPrefix.eq_of_length hpre (by rw [← hnat]; exact hsl)
  · refine ⟨{ typeFound := false, matchingType := "", matchingTypeNumber := -1 }, ?_, ?_⟩
    · simp only [extractTypesLoop]
      rw [if_pos (by simpa using hlen)]
    · have hneq : extractorSignature chain PC.Ops ≠ t.Ops := by
        intro heq
        apply hlen
        rw [hdecl, ← heq, hsl]
      simp [hneq]

/-! ## Claims on candidates as the disassembler and the pre-filter write them -/

/-- C9: for every candidate the pre-filter has written (the only candidates the
classifier reads), every catalog and every ledger: if some catalog entry's
signature is equal to the candidate's normalised Ops, `registerType` returns
the catalog unchanged.  Hence two such candidates with identical normalised
Ops never produce two catalog entries: from every catalog `start` the
classification of the first returns a catalog that the classification of the
second leaves unchanged. -/
theorem C9_known_shape_unchanged (cands : List processedCandidate) (PC : processedCandidate)
    (types : List htlcType) (chain : String) (hkept : PC ∈ filterHTLCs cands)
    (hknown : ∃ t ∈ types, t.Ops = normalise chain PC.Ops) :
    registerType PC types chain = .ok types ∧
      ∀ (start : List htlcType) (cands2 : List processedCandidate) (PC2 : processedCandidate)
        (chain2 : String), PC2 ∈ filterHTLCs cands2 →
        normalise chain2 PC2.Ops = normalise chain PC.Ops →
        ∃ types1, registerType PC start chain = .ok types1 ∧
          registerType PC2 types1 chain2 = .ok types1 := by
  have hne := filterHTLCs_nonempty cands PC hkept
  refine ⟨registerType_known PC types chain hne hknown, ?_⟩
  intro start cands2 PC2 chain2 hkept2 hsame
  obtain ⟨types1, h1, t, ht, hops⟩ := registerType_registers PC start chain hne
  refine ⟨types1, h1, ?_⟩
  exact registerType_known PC2 types1 chain2 (filterHTLCs_nonempty cands2 PC2 hkept2)
    ⟨t, ht, by rw [hops, hsame]⟩

theorem C9_known_shape_unchanged_witness :
    exampleCandidate ["OP_IF", "OP_DATA_20 abcd", "OP_EQUAL", "OP_5", "OP_CHECKSIG"] ∈
        filterHTLCs [exampleCandidate ["OP_DUP"],
          exampleCandidate ["OP_IF", "OP_DATA_20 abcd", "OP_EQUAL", "OP_5", "OP_CHECKSIG"]] ∧
      (∃ t ∈ [({ Name := "Type 1", Ops := ["OP_IF"] } : htlcType),
            { Name := "Type 2", Ops := ["OP_IF", "OP_DATA_20", "OP_EQUAL", "OP_", "OP_CHECKSIG"] }],
          t.Ops = normalise "btc"
            (exampleCandidate
              ["OP_IF", "OP_DATA_20 abcd", "OP_EQUAL", "OP_5", "OP_CHECKSIG"]).Ops) ∧
      registerType
          (exampleCandidate ["OP_IF", "OP_DATA_20 abcd", "OP_EQUAL", "OP_5", "OP_CHECKSIG"])
          [{ Name := "Type 1", Ops := ["OP_IF"] },
           { Name := "Type 2", Ops := ["OP_IF", "OP_DATA_20", "OP_EQUAL", "OP_", "OP_CHECKSIG"] }]
          "btc" =
        .ok [{ Name := "Type 1", Ops := ["OP_IF"] },
             { Name := "Type 2",
               Ops := ["OP_IF", "OP_DATA_20", "OP_EQUAL", "OP_", "OP_CHECKSIG"] }] :=
  ⟨by decide, by decide,
    (C9_known_shape_unchanged
      [exampleCandidate ["OP_DUP"],
        exampleCandidate ["OP_IF", "OP_DATA_20 abcd", "OP_EQUAL", "OP_5", "OP_CHECKSIG"]]
      (exampleCandidate ["OP_IF", "OP_DATA_20 abcd", "OP_EQUAL", "OP_5", "OP_CHECKSIG"])
      [{ Name := "Type 1", Ops := ["OP_IF"] },
       { Name := "Type 2", Ops := ["OP_IF", "OP_DATA_20", "OP_EQUAL", "OP_", "OP_CHECKSIG"] }]
      "btc" (by decide) (by decide)).1⟩

/-- C21: for every ledger and every Ops element that encodes a data push as the
disassembler writes it (the name of an opcode that carries data, a separator
space, then the payload), the normaliser of `registerType` outputs exactly the
name, which is the text before the first space of the element; the payload is
dropped. -/
theorem C21_data_push_stripped (chain name payload : String) (hname : isDataPushName name) :
    normaliseOp chain (dataPush name payload) = name ∧
      beforeSpace (dataPush name payload) = name ∧
      normalise chain [dataPush name payload] = [name] := by
  obtain ⟨hsp, hb, hns, _⟩ := dataPush_regular name payload hname
  have hmain : normaliseOp chain (dataPush name payload) = name := by
    rw [(normaliseOp_payload_stripped chain (dataPush name payload) hsp).1 hns, hb]
  exact ⟨hmain, hb, by simp [normalise, hmain]⟩

theorem C21_data_push_stripped_witness :
    isDataPushName "OP_DATA_20" ∧ dataPush "OP_DATA_20" "abcd" = "OP_DATA_20 abcd" ∧
      (normaliseOp "dcr" (dataPush "OP_DATA_20" "abcd") = "OP_DATA_20" ∧
        beforeSpace (dataPush "OP_DATA_20" "abcd") = "OP_DATA_20" ∧
        normalise "dcr" [dataPush "OP_DATA_20" "abcd"] = ["OP_DATA_20"]) :=
  ⟨by decide, by decide, C21_data_push_stripped "dcr" "OP_DATA_20" "abcd" (by decide)⟩

/-- C22: classifier and extractor normalise in lockstep.  For every candidate
the pre-filter has written whose Ops are elements as the disassembler writes
them, and every ledger: the two stages compute the same normalised element for
every element and the same normalised sequence; and for every signature `S`
(the ops list of a template whose declared length is the length of `S`) the
comparison of `extractData` against `S` ends without a fault and succeeds if
and only if the sequence `registerType` normalises the Ops to equals `S`, and
`extractData` answers `No matching type found!` exactly when it does not. -/
theorem C22_lockstep (cands : List processedCandidate) (PC : processedCandidate)
    (chain : String) (hkept : PC ∈ filterHTLCs cands)
    (hdis : ∀ op ∈ PC.Ops, isDisassembled op) :
    (∀ op ∈ PC.Ops,
        collapseOp (if chain = "dcr" then remapOp op else op) = normaliseOp chain op) ∧
      extractorSignature chain PC.Ops = normalise chain PC.Ops ∧
      ∀ (S : List String) (t : filteredHTLCType), t.Ops = S → t.Length = (S.length : Int) →
        comparisonSucceeds chain PC t = .ok (decide (normalise chain PC.Ops = S)) ∧
          (extractData PC [t] chain = .ok (.error "No matching type found!") ↔
            normalise chain PC.Ops ≠ S) := by
  have hne := filterHTLCs_nonempty cands PC hkept
  have hreg : ∀ op ∈ PC.Ops, hasSpace op = true →
      isSmallIntPush op = false ∧ isSmallIntPush (beforeSpace op) = false :=
    fun op hop => disassembled_regular op (hdis op hop)
  have hsig := extractorSignature_eq_normalise chain PC.Ops hreg
  refine ⟨fun op hop => collapse_remap_eq_normaliseOp chain op (hreg op hop), hsig, ?_⟩
  intro S t hS hdecl
  subst hS
  obtain ⟨st, hloop, hfound⟩ := extractTypesLoop_single chain PC t hne hdecl
  rw [hsig] at hfound
  constructor
  · simp only [comparisonSucceeds, hloop, hfound]
  · simp only [extractData, hloop]
    by_cases heq : normalise chain PC.Ops = t.Ops
    · have hf : st.typeFound = true := by rw [hfound]; simpa using heq
      simp only [hf, Bool.not_true, Bool.false_eq_true, if_false, heq, ne_eq,
        not_true_eq_false, iff_false]
      cases hgi : goIndex [t] st.matchingTypeNumber with
      | error e => simp
      | ok thisType =>
        cases hfields : extractFields PC (remapOps chain PC.Ops) chain st.matchingType
            thisType with
        | error e => simp [hfields]
        | ok newHTLC => simp [hfields]
    · have hf : st.typeFound = false := by rw [hfound]; simpa using heq
      simp [hf, heq]

theorem C22_lockstep_witness :
    exampleCandidate ["OP_IF", "OP_DATA_20 abcd", "OP_EQUAL", "OP_5", "OP_CHECKSIG"] ∈
        filterHTLCs [exampleCandidate ["OP_DUP"],
          exampleCandidate ["OP_IF", "OP_DATA_20 abcd", "OP_EQUAL", "OP_5", "OP_CHECKSIG"]] ∧
      (∀ op ∈ (exampleCandidate
          ["OP_IF", "OP_DATA_20 abcd", "OP_EQUAL", "OP_5", "OP_CHECKSIG"]).Ops,
        isDisassembled op) ∧
      extractorSignature "dcr"
          (exampleCandidate ["OP_IF", "OP_DATA_20 abcd", "OP_EQUAL", "OP_5", "OP_CHECKSIG"]).Ops =
        normalise "dcr"
          (exampleCandidate ["OP_IF", "OP_DATA_20 abcd", "OP_EQUAL", "OP_5", "OP_CHECKSIG"]).Ops ∧
      normalise "dcr"
          (exampleCandidate ["OP_IF", "OP_DATA_20 abcd", "OP_EQUAL", "OP_5", "OP_CHECKSIG"]).Ops =
        ["OP_IF", "OP_DATA_20", "OP_EQUAL", "OP_", "OP_CHECKSIG"] ∧
      comparisonSucceeds "dcr"
          (exampleCandidate ["OP_IF", "OP_DATA_20 abcd", "OP_EQUAL", "OP_5", "OP_CHECKSIG"])
          { Name := "TypeX", Length := 5, Hash := "", SecrethashPos := [1], LocktimePos := 3,
            PublicKeys1Pos := [1], PublicKey2Pos := 1,
            Ops := ["OP_IF", "OP_DATA_20", "OP_EQUAL", "OP_", "OP_CHECKSIG"] } = .ok true ∧
      comparisonSucceeds "dcr"
          (exampleCandidate ["OP_IF", "OP_DATA_20 abcd", "OP_EQUAL", "OP_5", "OP_CHECKSIG"])
          { Name := "TypeY", Length := 5, Hash := "", SecrethashPos := [1], LocktimePos := 3,
            PublicKeys1Pos := [1], PublicKey2Pos := 1,
            Ops := ["OP_IF", "OP_DATA_20", "OP_EQUAL", "OP_5", "OP_CHECKSIG"] } = .ok false :=
  have hdis : ∀ op ∈ (exampleCandidate
      ["OP_IF", "OP_DATA_20 abcd", "OP_EQUAL", "OP_5", "OP_CHECKSIG"]).Ops,
      isDisassembled op := by
    intro op hop
    simp only [exampleCandidate, List.mem_cons, List.mem_singleton, List.not_mem_nil,
      or_false] at hop
    rcases hop with h | h | h | h | h
    · exact Or.inl (by rw [h]; decide)
    · exact Or.inr ⟨"OP_DATA_20", "abcd", by decide, by rw [h]; decide⟩
    · exact Or.inl (by rw [h]; decide)
    · exact Or.inl (by rw [h]; decide)
    · exact Or.inl (by rw [h]; decide)
  ⟨by decide, hdis,
    (C22_lockstep
      [exampleCandidate ["OP_DUP"],
        exampleCandidate ["OP_IF", "OP_DATA_20 abcd", "OP_EQUAL", "OP_5", "OP_CHECKSIG"]]
      (exampleCandidate ["OP_IF", "OP_DATA_20 abcd", "OP_EQUAL", "OP_5", "OP_CHECKSIG"])
      "dcr" (by decide) hdis).2.1, by decide, by decide, by decide⟩

end AtomicSwaps
